import Mathlib

/-!
# Switchable eyes (`xeyes.go`): embedding of the frame update and its properties

The Go program keeps one `Game` value which the host mutates once per frame through
`Update` and then renders through `Draw`.  The embedding below follows `xeyes.go`
function by function.

* Go `int` / `int64` values are integers reduced to the signed 64-bit range after every
  arithmetic operation (`wrap64`).
* `uint8` values are naturals below 256.
* `float32` values are elements of an arbitrary type `F` carrying the operations the
  program uses (`Float32 F`).  Every theorem below holds for every such interpretation, so
  in particular for IEEE-754 binary32.  The one place where the numeric value of a
  floating-point result matters, the alpha decay `uint8(float32(alpha) * 0.996)`, ranges
  over 256 inputs only and is computed exactly (`f32MulTrunc`).
* Host input (`inpututil`, `ebiten.CursorPosition`, `time.Now`, ...) is an `Input` record,
  one per frame; the values returned by `math/rand` are a `Rand` record, one field per call
  site.
* `time.AfterFunc` is a list of pending deadlines in `World`; the callback body is the
  transition `dragStartCallback`, run by a `timer` event once its deadline has passed.
-/

namespace Xeyes

/-! ## Constants (`xeyes.go` lines 15-22) -/

def windowWidth : Int := 480
def windowHeight : Int := 320
def eyeRadius : Int := 64
def pupilRadius : Int := 24
def creepyPupilRadius : Int := 30
def eyeSpacing : Int := 96

/-! ## Machine arithmetic -/

/-- Reduction of an integer to the signed 64-bit range (two's complement wrap-around). -/
def wrap64 (x : Int) : Int :=
  (x + 9223372036854775808) % 18446744073709551616 - 9223372036854775808

/-- The operations on `float32` used by the program.  `lit q` is the conversion of the
untyped constant `q` to `float32` (a decimal constant such as `0.03` is written
`mkRat 3 100`), `ofInt` is `float32(n)` and `toUInt8` is `uint8(x)`. -/
class Float32 (F : Type) where
  add : F → F → F
  sub : F → F → F
  mul : F → F → F
  lt : F → F → Bool
  ofInt : Int → F
  lit : ℚ → F
  toUInt8 : F → Nat

instance (priority := low) instAddFloat32 {F : Type} [Float32 F] : Add F := ⟨Float32.add⟩
instance (priority := low) instSubFloat32 {F : Type} [Float32 F] : Sub F := ⟨Float32.sub⟩
instance (priority := low) instMulFloat32 {F : Type} [Float32 F] : Mul F := ⟨Float32.mul⟩

/-- Go `a > b` on `float32`. -/
def fgt {F : Type} [Float32 F] (a b : F) : Bool := Float32.lt b a

/-- The negation of `a > b`; on ordered (non-NaN) values this is `a <= b`. -/
def fle {F : Type} [Float32 F] (a b : F) : Bool := !fgt a b

/-- Fixed-point numbers with six decimal places (`micro` counts millionths). -/
structure Fixed where
  micro : Int
deriving DecidableEq, Repr

/-- Fixed-point arithmetic as an interpretation of the `float32` operations, used to
evaluate the program on concrete inputs. -/
instance instFloat32Fixed : Float32 Fixed where
  add a b := ⟨a.micro + b.micro⟩
  sub a b := ⟨a.micro - b.micro⟩
  mul a b := ⟨Int.tdiv (a.micro * b.micro) 1000000⟩
  lt a b := decide (a.micro < b.micro)
  ofInt n := ⟨n * 1000000⟩
  lit q := ⟨Int.tdiv (q.num * 1000000) q.den⟩
  toUInt8 a := (Int.toNat (Int.tdiv a.micro 1000000)) % 256

/-- Number of binary digits of `n` (`fuel` bounds the recursion). -/
def bitLen : Nat → Nat → Nat
  | 0, _ => 0
  | fuel + 1, n => if n = 0 then 0 else bitLen fuel (n / 2) + 1

/-- Round the natural number `n` to 24 significant binary digits, ties to even: the
rounding of an IEEE-754 binary32 operation whose exact result is `n` times a power of 2. -/
def roundSig24 (n : Nat) : Nat :=
  let l := bitLen 64 n
  if l ≤ 24 then n
  else
    let s := l - 24
    let q := n / 2 ^ s
    let r := n % 2 ^ s
    let half := 2 ^ (s - 1)
    let q1 := if half < r ∨ (r = half ∧ q % 2 = 1) then q + 1 else q
    q1 * 2 ^ s

/-- Exact value of `uint8(float32(a) * c)` for a `uint8` value `a` and the `float32`
constant `c = m / 2^24`: the product `a * m / 2^24` is rounded to binary32 and then
truncated toward zero. -/
def f32MulTrunc (m a : Nat) : Nat := roundSig24 (a * m) / 2 ^ 24 % 256

/-- Significand of `float32(0.996)`: the constant is `16710107 / 2^24`. -/
def sig996 : Nat := 16710107

/-- Significand of `float32(0.985)`: the constant is `16525558 / 2^24`. -/
def sig985 : Nat := 16525558

/-- Line 218: `uint8(float32(alpha) * 0.996)`. -/
def decayDropAlpha (a : Nat) : Nat := f32MulTrunc sig996 a

/-- Line 226: `uint8(float32(alpha) * 0.985)`. -/
def decayTrailAlpha (a : Nat) : Nat := f32MulTrunc sig985 a

/-! ## Data model (`xeyes.go` lines 24-65) -/

structure BloodDrop (F : Type) where
  x : F
  y : F
  speed : F
  length : F
  alpha : Nat
  width : F
deriving DecidableEq, Repr

structure BloodTrail (F : Type) where
  x : F
  y : F
  length : F
  thickness : F
  alpha : Nat
deriving DecidableEq, Repr

structure Game (F : Type) where
  dragging : Bool
  dragStartX : Int
  dragStartY : Int
  windowStartX : Int
  windowStartY : Int
  frozen : Bool
  lastMouseX : Int
  lastMouseY : Int
  idleTime : Int
  randomTargetX : F
  randomTargetY : F
  currentX : F
  currentY : F
  creepyMode : Bool
  bloodDrops : List (BloodDrop F)
  lastBloodTime : Int
  pupilShake : F
  shakeTimer : Int
  bloodTrails : List (BloodTrail F)
  lastClickTime : Int
  clickCount : Int
deriving DecidableEq, Repr

/-- The zero value `Game{}` passed to `ebiten.RunGame` (line 434). -/
def Game.init {F : Type} [Float32 F] : Game F where
  dragging := false
  dragStartX := 0
  dragStartY := 0
  windowStartX := 0
  windowStartY := 0
  frozen := false
  lastMouseX := 0
  lastMouseY := 0
  idleTime := 0
  randomTargetX := Float32.ofInt 0
  randomTargetY := Float32.ofInt 0
  currentX := Float32.ofInt 0
  currentY := Float32.ofInt 0
  creepyMode := false
  bloodDrops := []
  lastBloodTime := 0
  pupilShake := Float32.ofInt 0
  shakeTimer := 0
  bloodTrails := []
  lastClickTime := 0
  clickCount := 0

/-- What the host reports during one call of `Update`. -/
structure Input where
  escJust : Bool
  fJust : Bool
  rightJust : Bool
  leftJust : Bool
  leftHeld : Bool
  now : Int
  cursorX : Int
  cursorY : Int
deriving DecidableEq, Repr

/-- The values `math/rand` returns during one frame, one field per call site. -/
structure Rand (F : Type) where
  intn240 : Nat
  targetX : F
  targetY : F
  shakeRoll : F
  shakeMag : F
  dropRoll : F
  dropEye : F
  dropJitter : F
  dropSpeed : F
  dropLength : F
  dropAlpha : F
  dropWidth : F
  trailRoll : F
  trailEye : F
  trailJitter : F
  trailLength : F
  trailThickness : F
  trailAlpha : F

/-! ## The creepy effects tick (`updateHorrorEffects`, lines 154-231) -/

section Program

variable {F : Type} [Float32 F]

/-- The removal `append(s[:i], s[i+1:]...)` of index `i` from a slice. -/
def removeAt {α : Type} (s : List α) (i : Nat) : List α := s.take i ++ s.drop (i + 1)

/-- Lines 217-218: the update of one drop. -/
def advanceDrop (d : BloodDrop F) : BloodDrop F :=
  let d := { d with y := d.y + d.speed }
  { d with alpha := decayDropAlpha d.alpha }

/-- Line 219: the removal test of a drop, `y > windowHeight+50 || alpha < 10`. -/
def dropGone (d : BloodDrop F) : Bool :=
  fgt d.y (Float32.lit ((windowHeight + 50 : Int) : ℚ)) || decide (d.alpha < 10)

/-- Lines 217-221: the loop body at index `i`. -/
def dropStep (s : List (BloodDrop F)) (i : Nat) : List (BloodDrop F) :=
  match s[i]? with
  | none => s
  | some d =>
    let s := s.set i (advanceDrop d)
    match s[i]? with
    | none => s
    | some e => if dropGone e then removeAt s i else s

/-- Lines 216-222: `for i := len(s) - 1; i >= 0; i--`; `dropLoop n s` runs the body for
`i = n - 1, ..., 0`. -/
def dropLoop : Nat → List (BloodDrop F) → List (BloodDrop F)
  | 0, s => s
  | n + 1, s => dropLoop n (dropStep s n)

/-- Line 226: the update of one trail. -/
def fadeTrail (t : BloodTrail F) : BloodTrail F :=
  { t with alpha := decayTrailAlpha t.alpha }

/-- Line 227: the removal test of a trail, `alpha < 20`. -/
def trailGone (t : BloodTrail F) : Bool := decide (t.alpha < 20)

/-- Lines 226-229: the loop body at index `i`. -/
def trailStep (s : List (BloodTrail F)) (i : Nat) : List (BloodTrail F) :=
  match s[i]? with
  | none => s
  | some t =>
    let s := s.set i (fadeTrail t)
    match s[i]? with
    | none => s
    | some e => if trailGone e then removeAt s i else s

/-- Lines 225-230: `trailLoop n s` runs the body for `i = n - 1, ..., 0`. -/
def trailLoop : Nat → List (BloodTrail F) → List (BloodTrail F)
  | 0, s => s
  | n + 1, s => trailLoop n (trailStep s n)

/-- Lines 168-187: the drop appended when the spawn test succeeds. -/
def spawnDrop (r : Rand F) : BloodDrop F :=
  let leftEyeX : F := Float32.ofInt (windowWidth / 2 - eyeSpacing / 2)
  let rightEyeX : F := Float32.ofInt (windowWidth / 2 + eyeSpacing / 2)
  let eyeY : F := Float32.ofInt (windowHeight / 2)
  let eyeX : F := if Float32.lt r.dropEye (Float32.lit (mkRat 5 10)) then leftEyeX else rightEyeX
  { x := eyeX + (r.dropJitter - Float32.lit (mkRat 5 10)) * Float32.lit 48
    y := eyeY + Float32.lit (eyeRadius : ℚ)
    speed := Float32.lit (mkRat 3 10) + r.dropSpeed * Float32.lit (mkRat 12 10)
    length := Float32.lit 20 + r.dropLength * Float32.lit 32
    alpha := (180 + Float32.toUInt8 (r.dropAlpha * Float32.lit 70)) % 256
    width := Float32.lit (mkRat 32 10) + r.dropWidth * Float32.lit (mkRat 32 10) }

/-- Lines 193-212: the trail appended when the spawn test succeeds. -/
def spawnTrail (r : Rand F) : BloodTrail F :=
  let leftEyeX : F := Float32.ofInt (windowWidth / 2 - eyeSpacing / 2)
  let rightEyeX : F := Float32.ofInt (windowWidth / 2 + eyeSpacing / 2)
  let eyeY : F := Float32.ofInt (windowHeight / 2)
  let startX : F :=
    if Float32.lt r.trailEye (Float32.lit (mkRat 5 10)) then
      leftEyeX + (r.trailJitter - Float32.lit (mkRat 5 10)) * Float32.lit (eyeRadius : ℚ) * Float32.lit (mkRat 8 10)
    else
      rightEyeX + (r.trailJitter - Float32.lit (mkRat 5 10)) * Float32.lit (eyeRadius : ℚ) * Float32.lit (mkRat 8 10)
  let startY : F := eyeY + Float32.lit (eyeRadius : ℚ) - Float32.lit 8
  { x := startX
    y := startY
    length := Float32.lit 16 + r.trailLength * Float32.lit 28
    thickness := Float32.lit (mkRat 16 10) + r.trailThickness * Float32.lit (mkRat 24 10)
    alpha := (130 + Float32.toUInt8 (r.trailAlpha * Float32.lit 90)) % 256 }

/-- Lines 166-189 as a function of the drop list: the list the drop loop starts from. -/
def dropsBeforeLoop (g : Game F) (r : Rand F) : List (BloodDrop F) :=
  if decide (wrap64 (g.lastBloodTime + 1) > 80) && Float32.lt r.dropRoll (Float32.lit (mkRat 12 100)) then
    g.bloodDrops ++ [spawnDrop r]
  else g.bloodDrops

/-- Lines 192-213 as a function of the trail list: the list the trail loop starts from. -/
def trailsBeforeLoop (g : Game F) (r : Rand F) : List (BloodTrail F) :=
  if Float32.lt r.trailRoll (Float32.lit (mkRat 15 1000)) then g.bloodTrails ++ [spawnTrail r]
  else g.bloodTrails

/-- The method `updateHorrorEffects` (lines 154-231). -/
def updateHorrorEffects (g : Game F) (r : Rand F) : Game F :=
  let g := { g with shakeTimer := wrap64 (g.shakeTimer + 1) }
  let g :=
    if decide (g.shakeTimer > 180) && Float32.lt r.shakeRoll (Float32.lit (mkRat 3 100)) then
      { g with pupilShake := Float32.lit (mkRat 15 10) + r.shakeMag * Float32.lit (mkRat 20 10), shakeTimer := 0 }
    else g
  let g :=
    if fgt g.pupilShake (Float32.lit 0) then
      { g with pupilShake := g.pupilShake * Float32.lit (mkRat 9 10) }
    else g
  let g := { g with lastBloodTime := wrap64 (g.lastBloodTime + 1) }
  let g :=
    if decide (g.lastBloodTime > 80) && Float32.lt r.dropRoll (Float32.lit (mkRat 12 100)) then
      { g with bloodDrops := g.bloodDrops ++ [spawnDrop r], lastBloodTime := 0 }
    else g
  let g :=
    if Float32.lt r.trailRoll (Float32.lit (mkRat 15 1000)) then
      { g with bloodTrails := g.bloodTrails ++ [spawnTrail r] }
    else g
  let g := { g with bloodDrops := dropLoop g.bloodDrops.length g.bloodDrops }
  { g with bloodTrails := trailLoop g.bloodTrails.length g.bloodTrails }

/-! ## The frame update (`Update`, lines 67-152) -/

/-- Result of one call of `Update`: the new state, whether `ebiten.Termination` was
returned, whether `time.AfterFunc` was called, and the `SetWindowPosition` request. -/
structure Frame (F : Type) where
  g : Game F
  terminated : Bool
  scheduled : Bool
  move : Option (Int × Int)

/-- Control flow of the left-press block: `ret` is a `return nil` inside the block, `cont`
falls through to line 116 after calling `time.AfterFunc`. -/
inductive Flow (F : Type) where
  | ret (g : Game F)
  | cont (g : Game F)

/-- Lines 86-113: the body of `if inpututil.IsMouseButtonJustPressed(ebiten.MouseButtonLeft)`. -/
def leftPress (g : Game F) (currentTime : Int) : Flow F :=
  if wrap64 (currentTime - g.lastClickTime) < 500 then
    let g := { g with clickCount := wrap64 (g.clickCount + 1) }
    if g.clickCount ≥ 2 then
      let g := { g with creepyMode := !g.creepyMode, clickCount := 0 }
      let g := if !g.creepyMode then { g with bloodDrops := [], bloodTrails := [] } else g
      Flow.ret g
    else Flow.cont { g with lastClickTime := currentTime }
  else
    let g := { g with clickCount := 1 }
    Flow.cont { g with lastClickTime := currentTime }

/-- Lines 130-144: idle tracking and wander target selection of normal mode. -/
def trackIdle (g : Game F) (i : Input) (r : Rand F) : Game F :=
  if i.cursorX ≠ g.lastMouseX ∨ i.cursorY ≠ g.lastMouseY then
    { g with idleTime := 0, lastMouseX := i.cursorX, lastMouseY := i.cursorY }
  else
    let g := { g with idleTime := wrap64 (g.idleTime + 1) }
    if g.idleTime = 120 ∨
        (g.idleTime > 120 ∧
          Int.tmod (wrap64 (g.idleTime - 120)) (wrap64 (180 + ((r.intn240 % 240 : Nat) : Int))) = 0) then
      { g with
        randomTargetX := r.targetX * Float32.lit (windowWidth : ℚ)
        randomTargetY := r.targetY * Float32.lit (windowHeight : ℚ) }
    else g

/-- Lines 116-151: the part of `Update` after the left-press block. -/
def afterPress (g : Game F) (i : Input) (r : Rand F) ( scheduled : Bool) : Frame F :=
  let g := if !i.leftHeld then { g with dragging := false } else g
  let move : Option (Int × Int) :=
    if g.dragging then
      let deltaX := wrap64 (i.cursorX - g.dragStartX)
      let deltaY := wrap64 (i.cursorY - g.dragStartY)
      let newX := wrap64 (g.windowStartX + deltaX)
      let newY := wrap64 (g.windowStartY + deltaY)
      some (newX, newY)
    else none
  let g := if !g.creepyMode then trackIdle g i r else g
  let g := if g.creepyMode then updateHorrorEffects g r else g
  { g := g, terminated := false, scheduled := scheduled, move := move }

/-- Lines 74-76: the freeze toggle of the F key. -/
def freezeKey (g : Game F) (i : Input) : Game F :=
  if i.fJust then { g with frozen := !g.frozen } else g

/-- The method `Update` (lines 67-152). -/
def Update (g : Game F) (i : Input) (r : Rand F) : Frame F :=
  if i.escJust then
    { g := g, terminated := true, scheduled := false, move := none }
  else
    let g := freezeKey g i
    if i.rightJust then
      { g := { g with frozen := !g.frozen }, terminated := false, scheduled := false,
        move := none }
    else if i.leftJust then
      match leftPress g i.now with
      | Flow.ret g => { g := g, terminated := false, scheduled := false, move := none }
      | Flow.cont g => afterPress g i r true
    else afterPress g i r false

/-- Lines 107-113: the body of the function handed to `time.AfterFunc`; `cursor` and
`window` are what `ebiten.CursorPosition()` and `ebiten.WindowPosition()` return when it
runs. -/
def dragStartCallback (g : Game F) (cursor window : Int × Int) : Game F :=
  if g.clickCount = 1 ∧ g.dragging = false then
    { g with
      dragging := true
      dragStartX := cursor.1
      dragStartY := cursor.2
      windowStartX := window.1
      windowStartY := window.2 }
  else g

/-! ## Rendering (`Draw`, lines 233-367): effect on the game state -/

/-- Lines 246-268 of `drawNormalEyes`: the gaze target handed to `updatePupil` together
with the assignments to `g.currentX` and `g.currentY`.  The remaining lines read `g` and
write to `screen` only. -/
def drawNormalEyes (g : Game F) : Game F :=
  if !g.dragging && !g.frozen then
    if g.idleTime < 120 then
      let targetX : F := Float32.ofInt g.lastMouseX
      let targetY : F := Float32.ofInt g.lastMouseY
      { g with currentX := targetX, currentY := targetY }
    else
      let lerpSpeed : F := Float32.lit (mkRat 15 1000)
      let g := { g with currentX := g.currentX + (g.randomTargetX - g.currentX) * lerpSpeed }
      { g with currentY := g.currentY + (g.randomTargetY - g.currentY) * lerpSpeed }
  else
    let targetX : F := Float32.lit ((windowWidth / 2 : Int) : ℚ)
    let targetY : F := Float32.lit ((windowHeight / 2 : Int) : ℚ)
    { g with currentX := targetX, currentY := targetY }

/-- State effect of `drawCreepyEyes` (lines 302-367): it reads `g`, the cursor and the
random generator, and assigns to no field of `g`. -/
def drawCreepyEyes (g : Game F) : Game F := g

/-- State effect of the method `Draw` (lines 233-242). -/
def Draw (g : Game F) : Game F :=
  if g.creepyMode then drawCreepyEyes g else drawNormalEyes g

/-! ## The host loop with the deferred drag-start -/

/-- The program together with its environment: the game state, the deadlines of the
`time.AfterFunc` callbacks that have not run yet (oldest first), the `SetWindowPosition`
requests made so far (oldest first), the number of callback runs that switched `dragging`
on, and whether `Update` has returned `ebiten.Termination`. -/
structure World (F : Type) where
  g : Game F
  pending : List Int
  moves : List (Int × Int)
  dragStarts : Nat
  terminated : Bool

/-- The world at program start. -/
def World.init : World F :=
  { g := Game.init, pending := [], moves := [], dragStarts := 0, terminated := false }

/-- What can happen next: the host calls `Update`, or the runtime runs the oldest pending
callback at time `t` (milliseconds). -/
inductive Event (F : Type) where
  | frame (i : Input) (r : Rand F)
  | timer (t : Int) (cursor window : Int × Int)

/-- One event.  A frame records the deadline `now + 200` when `time.AfterFunc` was called;
a timer event runs the oldest callback if its deadline has been reached. -/
def World.step (w : World F) : Event F → World F
  | Event.frame i r =>
    if w.terminated then w
    else
      let f := Update w.g i r
      { g := f.g
        pending := if f.scheduled then w.pending ++ [i.now + 200] else w.pending
        moves := w.moves ++ f.move.toList
        dragStarts := w.dragStarts
        terminated := f.terminated }
  | Event.timer t cursor window =>
    match w.pending with
    | [] => w
    | d :: rest =>
      if d ≤ t then
        { w with
          g := dragStartCallback w.g cursor window
          pending := rest
          dragStarts :=
            if w.g.clickCount = 1 ∧ w.g.dragging = false then w.dragStarts + 1
            else w.dragStarts }
      else w

/-- A sequence of events. -/
def World.run (w : World F) (es : List (Event F)) : World F := es.foldl World.step w

end Program

/-! ## Concrete inputs used to evaluate the program -/

/-- Random source returning 0 at every call site. -/
def Rand.zero : Rand Fixed :=
  { intn240 := 0, targetX := ⟨0⟩, targetY := ⟨0⟩, shakeRoll := ⟨0⟩, shakeMag := ⟨0⟩,
    dropRoll := ⟨0⟩, dropEye := ⟨0⟩, dropJitter := ⟨0⟩, dropSpeed := ⟨0⟩, dropLength := ⟨0⟩,
    dropAlpha := ⟨0⟩, dropWidth := ⟨0⟩, trailRoll := ⟨0⟩, trailEye := ⟨0⟩, trailJitter := ⟨0⟩,
    trailLength := ⟨0⟩, trailThickness := ⟨0⟩, trailAlpha := ⟨0⟩ }

/-- Random source returning 1/2 at every `Float32()` call site: no spawn test succeeds. -/
def Rand.half : Rand Fixed :=
  { intn240 := 0, targetX := ⟨500000⟩, targetY := ⟨500000⟩, shakeRoll := ⟨500000⟩,
    shakeMag := ⟨500000⟩, dropRoll := ⟨500000⟩, dropEye := ⟨500000⟩, dropJitter := ⟨500000⟩,
    dropSpeed := ⟨500000⟩, dropLength := ⟨500000⟩, dropAlpha := ⟨500000⟩,
    dropWidth := ⟨500000⟩, trailRoll := ⟨500000⟩, trailEye := ⟨500000⟩,
    trailJitter := ⟨500000⟩, trailLength := ⟨500000⟩, trailThickness := ⟨500000⟩,
    trailAlpha := ⟨500000⟩ }

/-- A frame on which no key or button is pressed or held, cursor at `(x, y)`. -/
def Input.idle (t x y : Int) : Input :=
  { escJust := false, fJust := false, rightJust := false, leftJust := false,
    leftHeld := false, now := t, cursorX := x, cursorY := y }

/-- A frame on which the left button has just gone down, cursor at `(x, y)`. -/
def Input.press (t x y : Int) : Input :=
  { escJust := false, fJust := false, rightJust := false, leftJust := true,
    leftHeld := true, now := t, cursorX := x, cursorY := y }

/-- A frame on which the left button is held (pressed on an earlier frame). -/
def Input.hold (t x y : Int) : Input :=
  { escJust := false, fJust := false, rightJust := false, leftJust := false,
    leftHeld := true, now := t, cursorX := x, cursorY := y }

/-! ## Sequences of frames -/

section Runs

variable {F : Type} [Float32 F]

/-- Whether `Update` on input `i` arrives at line 116, the part after the left-press block:
no exit key (line 70), no right click (line 81) and no mode switch (line 99). -/
def reachesTracking (g : Game F) (i : Input) : Bool :=
  !i.escJust && !i.rightJust &&
    (!i.leftJust ||
      match leftPress (freezeKey g i) i.now with
      | Flow.ret _ => false
      | Flow.cont _ => true)

/-- The game state after a sequence of `Update` calls. -/
def runFrames (g : Game F) (fs : List (Input × Rand F)) : Game F :=
  fs.foldl (fun g f => (Update g f.1 f.2).g) g

/-- Every frame of the sequence arrives at line 116 with the cursor at the last recorded
position. -/
def stillRun (g : Game F) : List (Input × Rand F) → Bool
  | [] => true
  | f :: fs =>
    reachesTracking g f.1 &&
      decide (f.1.cursorX = g.lastMouseX ∧ f.1.cursorY = g.lastMouseY) &&
      stillRun (Update g f.1 f.2).g fs

end Runs

/-! ## Particle sweeps as map-then-filter -/

section Sweeps

variable {F : Type} [Float32 F]

/-- The common shape of the two removal loops: update index `i` with `f`, then remove it
when `gone` holds of the updated element. -/
def sweepStep {α : Type} (f : α → α) (gone : α → Bool) (s : List α) (i : Nat) : List α :=
  match s[i]? with
  | none => s
  | some d =>
    let s := s.set i (f d)
    match s[i]? with
    | none => s
    | some e => if gone e then removeAt s i else s

/-- The loop over `i = n - 1, ..., 0` of `sweepStep`. -/
def sweep {α : Type} (f : α → α) (gone : α → Bool) : Nat → List α → List α
  | 0, s => s
  | n + 1, s => sweep f gone n (sweepStep f gone s n)

/-- The drop list after a tick in the words of the specification: every drop with `y`
advanced by `speed` and `alpha` decayed by 0.996, restricted to those with `y <= 370` and
`alpha >= 10`, in the original order. -/
def dropsSpec (s : List (BloodDrop F)) : List (BloodDrop F) :=
  (s.map (fun d => { d with y := d.y + d.speed, alpha := decayDropAlpha d.alpha })).filter
    (fun d => fle d.y (Float32.lit 370) && decide (10 ≤ d.alpha))

/-- The trail list after a tick in the words of the specification: every trail with `alpha`
decayed by 0.985 and nothing else changed, restricted to those with `alpha >= 20`, in the
original order. -/
def trailsSpec (s : List (BloodTrail F)) : List (BloodTrail F) :=
  (s.map (fun t => { t with alpha := decayTrailAlpha t.alpha })).filter
    (fun t => decide (20 ≤ t.alpha))

end Sweeps

/-! ## The life of a blood drop -/

section DropLife

variable {F : Type} [Float32 F]

/-- One run of the drop loop (lines 216-222) on the list `s`. -/
def tickDrops (s : List (BloodDrop F)) : List (BloodDrop F) := dropLoop s.length s

/-- `n` runs of the drop loop. -/
def tickDropsN : Nat → List (BloodDrop F) → List (BloodDrop F)
  | 0, s => s
  | n + 1, s => tickDropsN n (tickDrops s)

/-- The drop `d` after `n` updates (lines 217-218), removal aside. -/
def agedDrop : Nat → BloodDrop F → BloodDrop F
  | 0, d => d
  | n + 1, d => agedDrop n (advanceDrop d)

/-- The game state after one call of `updateHorrorEffects` per element of `rs`. -/
def runHorror (g : Game F) (rs : List (Rand F)) : Game F := rs.foldl updateHorrorEffects g

/-- The tick on which a drop of starting alpha `a <= 250` is removed for its alpha: the
first tick after which alpha is below 10. -/
def alphaLife (a : Nat) : Nat := max 1 (a - 9)

end DropLife

/-- A drop as spawned at the bottom of the left eye, with alpha 250 and speed 1/2. -/
def sampleDrop : BloodDrop Fixed :=
  { x := Float32.ofInt 192, y := Float32.ofInt 224, speed := ⟨500000⟩,
    length := Float32.ofInt 20, alpha := 250, width := Float32.ofInt 4 }

/-! ## Event sequences around a gesture -/

section Gestures

variable {F : Type} [Float32 F]

/-- An event between two presses, the second at time `t2`: a frame without a new left press
and without the exit key, or a timer event before `t2`. -/
def betweenPresses (t2 : Int) : Event F → Bool
  | Event.frame i _ => !i.leftJust && !i.escJust
  | Event.timer t _ _ => decide (t < t2)

/-- An event with no new left press: a frame on which the left button was not just pressed,
or a timer event. -/
def noNewPress : Event F → Bool
  | Event.frame i _ => !i.leftJust
  | Event.timer _ _ _ => true

/-- An event while the button stays down after a press whose callback is due at `deadline`:
a frame with the button held, no new press and no exit key, or a timer event before the
deadline. -/
def heldBefore (deadline : Int) : Event F → Bool
  | Event.frame i _ => !i.leftJust && !i.escJust && i.leftHeld
  | Event.timer t _ _ => decide (t < deadline)

/-- A press on which no other key or button event is reported. -/
def plainPress (i : Input) : Bool := !i.escJust && !i.rightJust && i.leftJust

/-- A game in creepy mode, one click into a double click, with one drop and one trail. -/
def creepySample : Game Fixed :=
  { (Game.init : Game Fixed) with
    creepyMode := true
    clickCount := 1
    lastClickTime := 1000
    bloodDrops := [sampleDrop]
    bloodTrails :=
      [{ x := Float32.ofInt 192, y := Float32.ofInt 216, length := Float32.ofInt 16,
         thickness := Float32.ofInt 2, alpha := 200 }] }

/-- A game in normal mode, one click into a double click, with a shaking pupil. -/
def normalSample : Game Fixed :=
  { (Game.init : Game Fixed) with
    clickCount := 1
    lastClickTime := 1000
    pupilShake := Float32.ofInt 3
    shakeTimer := 7
    lastBloodTime := 9
    bloodDrops := [sampleDrop] }

end Gestures

/-- Relation between a world and a later one across events that neither toggle the mode
nor touch the click bookkeeping and that start no drag. -/
def Calm {F : Type} (v w : World F) : Prop :=
  w.g.creepyMode = v.g.creepyMode ∧
  w.g.clickCount = v.g.clickCount ∧
  w.g.lastClickTime = v.g.lastClickTime ∧
  w.dragStarts = v.dragStarts ∧
  (w.g.dragging = true → v.g.dragging = true) ∧
  (v.g.dragging = false → w.moves = v.moves)

/-- An event while the button stays down during a drag: a frame with the button held, no
new press and no exit key, or a timer event. -/
def whileHeld {F : Type} : Event F → Bool
  | Event.frame i _ => !i.leftJust && !i.escJust && i.leftHeld
  | Event.timer _ _ _ => true

/-- A game in the middle of a drag that started with the cursor at `(10, 10)` and the window
at `(100, 100)`. -/
def dragSample : Game Fixed :=
  { (Game.init : Game Fixed) with
    dragging := true
    dragStartX := 10
    dragStartY := 10
    windowStartX := 100
    windowStartY := 100
    clickCount := 1
    lastClickTime := 1000 }

/-- An event that is neither a new left press nor an exit: a frame on which the left button
was not just pressed and the exit key was not pressed, or a timer event at any time. -/
def quietEvent {F : Type} : Event F → Bool
  | Event.frame i _ => !i.leftJust && !i.escJust
  | Event.timer _ _ _ => true

/-! ## IEEE-754 arithmetic and `updatePupil` (lines 406-419)

`updatePupil` is the one function whose contract depends on the numeric values of
floating-point results, so it is embedded over exact IEEE-754 values: a finite value is the
rational number it denotes, and every operation rounds the exact result to the nearest
representable value, ties to even, with gradual underflow and overflow to infinity.  The sign
of zero is not represented (it cannot influence the values `updatePupil` returns), and no
fused multiply-add is performed (the default `amd64` build). -/

/-- Round half to even: the integer nearest to `y`, the even one of the two at a tie. -/
def roundNE (y : ℚ) : ℤ :=
  if y - ⌊y⌋ < 1 / 2 then ⌊y⌋
  else if 1 / 2 < y - ⌊y⌋ then ⌊y⌋ + 1
  else if ⌊y⌋ % 2 = 0 then ⌊y⌋ else ⌊y⌋ + 1

/-- Exponent of the unit in the last place of `x` in a format with `p` significant binary
digits and smallest quantum `2^qmin`. -/
def ulpExp (p : ℕ) (qmin : ℤ) (x : ℚ) : ℤ := max (Int.log 2 |x| - (p - 1)) qmin

/-- Rounding to nearest in a format with `p` significant digits and smallest quantum
`2^qmin`, exponent range unbounded above. -/
def roundTo (p : ℕ) (qmin : ℤ) (x : ℚ) : ℚ :=
  roundNE (x / 2 ^ ulpExp p qmin x) * 2 ^ ulpExp p qmin x

/-- Rounding to binary32 precision (24 digits, smallest subnormal `2^-149`). -/
def r32 (x : ℚ) : ℚ := roundTo 24 (-149) x

/-- A binary32 or binary64 value: a finite number, an infinity, or NaN. -/
inductive IEEE where
  | fin (q : ℚ)
  | inf (neg : Bool)
  | nan
deriving DecidableEq, Repr

/-- The binary32 value nearest to the rational `x`; results of magnitude `2^128` or more
overflow to infinity. -/
def fl32 (x : ℚ) : IEEE :=
  if (2 : ℚ) ^ 128 ≤ |r32 x| then IEEE.inf (decide (r32 x < 0)) else IEEE.fin (r32 x)

/-- Go `a - b` on `float32`. -/
def IEEE.sub32 : IEEE → IEEE → IEEE
  | IEEE.fin x, IEEE.fin y => fl32 (x - y)
  | IEEE.fin _, IEEE.inf t => IEEE.inf (!t)
  | IEEE.inf s, IEEE.fin _ => IEEE.inf s
  | IEEE.inf s, IEEE.inf t => if s = t then IEEE.nan else IEEE.inf s
  | _, _ => IEEE.nan

/-- Go `a + b` on `float32`. -/
def IEEE.add32 : IEEE → IEEE → IEEE
  | IEEE.fin x, IEEE.fin y => fl32 (x + y)
  | IEEE.fin _, IEEE.inf t => IEEE.inf t
  | IEEE.inf s, IEEE.fin _ => IEEE.inf s
  | IEEE.inf s, IEEE.inf t => if s = t then IEEE.inf s else IEEE.nan
  | _, _ => IEEE.nan

/-- Go `a * b` on `float32`. -/
def IEEE.mul32 : IEEE → IEEE → IEEE
  | IEEE.fin x, IEEE.fin y => fl32 (x * y)
  | IEEE.fin x, IEEE.inf t => if x = 0 then IEEE.nan else IEEE.inf (xor (decide (x < 0)) t)
  | IEEE.inf s, IEEE.fin y => if y = 0 then IEEE.nan else IEEE.inf (xor s (decide (y < 0)))
  | IEEE.inf s, IEEE.inf t => IEEE.inf (xor s t)
  | _, _ => IEEE.nan

/-- Go `a / b` on `float32`.  A zero divisor is taken as `+0`: in `updatePupil` the divisor
is a square root. -/
def IEEE.div32 : IEEE → IEEE → IEEE
  | IEEE.fin x, IEEE.fin y =>
    if y = 0 then (if x = 0 then IEEE.nan else IEEE.inf (decide (x < 0))) else fl32 (x / y)
  | IEEE.fin _, IEEE.inf _ => IEEE.fin 0
  | IEEE.inf s, IEEE.fin y => IEEE.inf (xor s (decide (y < 0)))
  | _, _ => IEEE.nan

/-- Go `a > b`. -/
def IEEE.gt : IEEE → IEEE → Bool
  | IEEE.fin x, IEEE.fin y => decide (y < x)
  | IEEE.fin _, IEEE.inf t => t
  | IEEE.inf s, IEEE.fin _ => !s
  | IEEE.inf s, IEEE.inf t => !s && t
  | _, _ => false

/-- Quantum of the rounded square root of `x` in a format with `p` significant digits. -/
def sqrtQuantum (p : ℕ) (x : ℚ) : ℚ := 2 ^ (Int.log 2 x / 2 - (p - 1))

/-- Integer part of `√x` in units of the quantum. -/
def sqrtDigits (p : ℕ) (x : ℚ) : ℕ :=
  Nat.sqrt ⌊x / (sqrtQuantum p x * sqrtQuantum p x)⌋₊

/-- The rational `√x` rounded to nearest in a format with `p` significant digits, ties to
even, for `x ≥ 0` (no underflow: the arguments are binary32 values). -/
def sqrtRound (p : ℕ) (x : ℚ) : ℚ :=
  let q : ℚ := sqrtQuantum p x
  let n : ℕ := sqrtDigits p x
  let mid : ℚ := (n + 1 / 2) * q
  if x < mid * mid then n * q
  else if mid * mid < x then (n + 1) * q
  else if n % 2 = 0 then n * q else (n + 1) * q

/-- Go `math.Sqrt` on a `float64` (correctly rounded, as IEEE-754 requires). -/
def IEEE.sqrt64 : IEEE → IEEE
  | IEEE.fin x => if x < 0 then IEEE.nan else IEEE.fin (sqrtRound 53 x)
  | IEEE.inf s => if s then IEEE.nan else IEEE.inf false
  | IEEE.nan => IEEE.nan

/-- Go `float64(x)` of a `float32`: exact. -/
def IEEE.toFloat64 (x : IEEE) : IEEE := x

/-- Go `float32(x)` of a `float64`: rounding to binary32. -/
def IEEE.toFloat32 : IEEE → IEEE
  | IEEE.fin x => fl32 x
  | x => x

/-- The function `updatePupil` (lines 406-419). -/
def updatePupil (eyeCenterX eyeCenterY cursorX cursorY pupilSize : IEEE) : IEEE × IEEE :=
  let dx := IEEE.sub32 cursorX eyeCenterX
  let dy := IEEE.sub32 cursorY eyeCenterY
  let dist :=
    IEEE.toFloat32 (IEEE.sqrt64 (IEEE.toFloat64 (IEEE.add32 (IEEE.mul32 dx dx) (IEEE.mul32 dy dy))))
  let maxDist := IEEE.sub32 (fl32 (eyeRadius : ℚ)) pupilSize
  if IEEE.gt dist maxDist then
    let pupilX := IEEE.add32 eyeCenterX (IEEE.mul32 (IEEE.div32 dx dist) maxDist)
    let pupilY := IEEE.add32 eyeCenterY (IEEE.mul32 (IEEE.div32 dy dist) maxDist)
    (pupilX, pupilY)
  else (cursorX, cursorY)

set_option linter.unusedSectionVars false

/-! ## Basic facts -/

section Lemmas

variable {F : Type} [Float32 F]

theorem wrap64_of_range (x : Int) (h1 : -9223372036854775808 ≤ x)
    (h2 : x < 9223372036854775808) : wrap64 x = x := by
  unfold wrap64; omega

theorem Update_esc (g : Game F) (i : Input) (r : Rand F) (he : i.escJust = true) :
    Update g i r = { g := g, terminated := true, scheduled := false, move := none } := by
  simp [Update, he]

theorem Update_right (g : Game F) (i : Input) (r : Rand F) (he : i.escJust = false)
    (hr : i.rightJust = true) :
    Update g i r =
      { g := { freezeKey g i with frozen := !(freezeKey g i).frozen }, terminated := false,
        scheduled := false, move := none } := by
  simp [Update, he, hr]

theorem Update_left (g : Game F) (i : Input) (r : Rand F) (he : i.escJust = false)
    (hr : i.rightJust = false) (hl : i.leftJust = true) :
    Update g i r =
      match leftPress (freezeKey g i) i.now with
      | Flow.ret g => { g := g, terminated := false, scheduled := false, move := none }
      | Flow.cont g => afterPress g i r true := by
  simp [Update, he, hr, hl]

theorem Update_noPress (g : Game F) (i : Input) (r : Rand F) (he : i.escJust = false)
    (hr : i.rightJust = false) (hl : i.leftJust = false) :
    Update g i r = afterPress (freezeKey g i) i r false := by
  simp [Update, he, hr, hl]

theorem leftPress_toggle (g : Game F) (t : Int) (h1 : wrap64 (t - g.lastClickTime) < 500)
    (h2 : 2 ≤ wrap64 (g.clickCount + 1)) :
    leftPress g t =
      Flow.ret
        (if g.creepyMode then
          { g with creepyMode := false, clickCount := 0, bloodDrops := [], bloodTrails := [] }
        else { g with creepyMode := true, clickCount := 0 }) := by
  cases hc : g.creepyMode <;> simp [leftPress, h1, h2, hc]

theorem leftPress_count (g : Game F) (t : Int) (h1 : wrap64 (t - g.lastClickTime) < 500)
    (h2 : wrap64 (g.clickCount + 1) < 2) :
    leftPress g t =
      Flow.cont { g with clickCount := wrap64 (g.clickCount + 1), lastClickTime := t } := by
  have h3 : ¬ (2 ≤ wrap64 (g.clickCount + 1)) := by omega
  simp [leftPress, h1, h3]

theorem leftPress_first (g : Game F) (t : Int) (h1 : 500 ≤ wrap64 (t - g.lastClickTime)) :
    leftPress g t = Flow.cont { g with clickCount := 1, lastClickTime := t } := by
  have h3 : ¬ (wrap64 (t - g.lastClickTime) < 500) := by omega
  simp [leftPress, h3]

theorem updateHorrorEffects_creepyMode (g : Game F) (r : Rand F) :
    (updateHorrorEffects g r).creepyMode = g.creepyMode := by
  simp only [updateHorrorEffects]; split_ifs <;> rfl

theorem trackIdle_creepyMode (g : Game F) (i : Input) (r : Rand F) :
    (trackIdle g i r).creepyMode = g.creepyMode := by
  simp only [trackIdle]; split_ifs <;> rfl

theorem afterPress_creepyMode (g : Game F) (i : Input) (r : Rand F) (s : Bool) :
    (afterPress g i r s).g.creepyMode = g.creepyMode := by
  simp only [afterPress]
  cases hc : g.creepyMode <;> cases hl : i.leftHeld <;>
    simp [hc, hl, trackIdle_creepyMode, updateHorrorEffects_creepyMode]

theorem freezeKey_creepyMode (g : Game F) (i : Input) :
    (freezeKey g i).creepyMode = g.creepyMode := by
  unfold freezeKey; split_ifs <;> rfl

end Lemmas

/-! ## Mode switch and particle lists -/

section ModeSwitch

variable {F : Type} [Float32 F]

/-- C5: an `Update` frame that changes `creepyMode` leaves both particle lists empty when it
switches from creepy to normal, and leaves both lists, the shake magnitude and both effect
timers as they were when it switches from normal to creepy. -/
theorem toggle_frame_particles (g : Game F) (i : Input) (r : Rand F)
    (h : (Update g i r).g.creepyMode ≠ g.creepyMode) :
    if g.creepyMode then
      (Update g i r).g.bloodDrops.length = 0 ∧ (Update g i r).g.bloodTrails.length = 0
    else
      (Update g i r).g.bloodDrops = g.bloodDrops ∧
      (Update g i r).g.bloodTrails = g.bloodTrails ∧
      (Update g i r).g.pupilShake = g.pupilShake ∧
      (Update g i r).g.shakeTimer = g.shakeTimer ∧
      (Update g i r).g.lastBloodTime = g.lastBloodTime := by
  cases he : i.escJust
  · cases hr : i.rightJust
    · cases hl : i.leftJust
      · rw [Update_noPress g i r he hr hl, afterPress_creepyMode, freezeKey_creepyMode] at h
        exact absurd rfl h
      · rw [Update_left g i r he hr hl] at h ⊢
        by_cases h1 : wrap64 (i.now - (freezeKey g i).lastClickTime) < 500
        · by_cases h2 : 2 ≤ wrap64 ((freezeKey g i).clickCount + 1)
          · rw [leftPress_toggle _ _ h1 h2]
            cases hc : g.creepyMode <;> cases hf : i.fJust <;> simp [freezeKey, hc, hf]
          · rw [leftPress_count _ _ h1 (by omega)] at h
            simp only [afterPress_creepyMode] at h
            exact absurd (freezeKey_creepyMode g i) h
        · rw [leftPress_first _ _ (by omega)] at h
          simp only [afterPress_creepyMode] at h
          exact absurd (freezeKey_creepyMode g i) h
    · rw [Update_right g i r he hr] at h
      exact absurd (freezeKey_creepyMode g i) h
  · rw [Update_esc g i r he] at h
    exact absurd rfl h

end ModeSwitch

/-! ## Fields the second half of `Update` leaves alone -/

section Frames

variable {F : Type} [Float32 F]

theorem updateHorrorEffects_gesture (g : Game F) (r : Rand F) :
    (updateHorrorEffects g r).dragging = g.dragging ∧
    (updateHorrorEffects g r).dragStartX = g.dragStartX ∧
    (updateHorrorEffects g r).dragStartY = g.dragStartY ∧
    (updateHorrorEffects g r).windowStartX = g.windowStartX ∧
    (updateHorrorEffects g r).windowStartY = g.windowStartY ∧
    (updateHorrorEffects g r).frozen = g.frozen ∧
    (updateHorrorEffects g r).lastClickTime = g.lastClickTime ∧
    (updateHorrorEffects g r).clickCount = g.clickCount := by
  simp only [updateHorrorEffects]; split_ifs <;> simp

theorem trackIdle_gesture (g : Game F) (i : Input) (r : Rand F) :
    (trackIdle g i r).dragging = g.dragging ∧
    (trackIdle g i r).dragStartX = g.dragStartX ∧
    (trackIdle g i r).dragStartY = g.dragStartY ∧
    (trackIdle g i r).windowStartX = g.windowStartX ∧
    (trackIdle g i r).windowStartY = g.windowStartY ∧
    (trackIdle g i r).frozen = g.frozen ∧
    (trackIdle g i r).lastClickTime = g.lastClickTime ∧
    (trackIdle g i r).clickCount = g.clickCount := by
  simp only [trackIdle]; split_ifs <;> simp

theorem afterPress_gesture (g : Game F) (i : Input) (r : Rand F) (s : Bool) :
    (afterPress g i r s).g.dragging = (g.dragging && i.leftHeld) ∧
    (afterPress g i r s).g.dragStartX = g.dragStartX ∧
    (afterPress g i r s).g.dragStartY = g.dragStartY ∧
    (afterPress g i r s).g.windowStartX = g.windowStartX ∧
    (afterPress g i r s).g.windowStartY = g.windowStartY ∧
    (afterPress g i r s).g.frozen = g.frozen ∧
    (afterPress g i r s).g.lastClickTime = g.lastClickTime ∧
    (afterPress g i r s).g.clickCount = g.clickCount := by
  simp only [afterPress]
  cases hc : g.creepyMode <;> cases hl : i.leftHeld <;>
    simp [hc, hl, trackIdle_gesture, updateHorrorEffects_gesture, trackIdle_creepyMode]

theorem afterPress_flags (g : Game F) (i : Input) (r : Rand F) (s : Bool) :
    (afterPress g i r s).terminated = false ∧ (afterPress g i r s).scheduled = s ∧
    (afterPress g i r s).move =
      if (g.dragging && i.leftHeld) = true then
        some (wrap64 (g.windowStartX + wrap64 (i.cursorX - g.dragStartX)),
          wrap64 (g.windowStartY + wrap64 (i.cursorY - g.dragStartY)))
      else none := by
  simp only [afterPress]
  cases hl : i.leftHeld <;> cases hd : g.dragging <;> simp [hl, hd]

theorem freezeKey_gesture (g : Game F) (i : Input) :
    (freezeKey g i).dragging = g.dragging ∧
    (freezeKey g i).dragStartX = g.dragStartX ∧
    (freezeKey g i).dragStartY = g.dragStartY ∧
    (freezeKey g i).windowStartX = g.windowStartX ∧
    (freezeKey g i).windowStartY = g.windowStartY ∧
    (freezeKey g i).lastClickTime = g.lastClickTime ∧
    (freezeKey g i).clickCount = g.clickCount := by
  unfold freezeKey; split_ifs <;> simp

end Frames

/-! ## Right click -/

section RightClick

variable {F : Type} [Float32 F]

/-- C6 as stated fails: with the F key and the right button both just pressed on the first
frame, `frozen` is toggled twice and ends equal to its old value, not to its negation. -/
theorem right_click_with_F_key_keeps_frozen :
    (Update (Game.init : Game Fixed)
        { escJust := false, fJust := true, rightJust := true, leftJust := false,
          leftHeld := false, now := 0, cursorX := 0, cursorY := 0 } Rand.zero).g.frozen
      ≠ !(Game.init : Game Fixed).frozen := by
  decide

/-- C6 (amended): on a frame with the right button just pressed and the exit key not, the
whole result of `Update` is the old state with `frozen` negated when the F key was not just
pressed and left as it was when the F key was just pressed too; no other field changes, no
drag-start is scheduled and no window move is requested, whatever the left-button input. -/
theorem right_click_frame (g : Game F) (i : Input) (r : Rand F)
    (he : i.escJust = false) (hr : i.rightJust = true) :
    Update g i r =
      { g := { g with frozen := if i.fJust then g.frozen else !g.frozen }
        terminated := false
        scheduled := false
        move := none } := by
  rw [Update_right g i r he hr]
  cases hf : i.fJust <;> simp [freezeKey, hf]

/-- Instance of `right_click_frame`: from the initial state, a right click together with a
left press only sets `frozen`. -/
theorem right_click_frame_witness :
    Update (Game.init : Game Fixed)
        { escJust := false, fJust := false, rightJust := true, leftJust := true,
          leftHeld := true, now := 0, cursorX := 3, cursorY := 4 } Rand.zero =
      { g := { (Game.init : Game Fixed) with frozen := true }
        terminated := false
        scheduled := false
        move := none } :=
  right_click_frame (Game.init : Game Fixed)
    { escJust := false, fJust := false, rightJust := true, leftJust := true,
      leftHeld := true, now := 0, cursorX := 3, cursorY := 4 } Rand.zero rfl rfl

end RightClick

/-! ## Rendering and the game state -/

section Rendering

variable {F : Type} [Float32 F]

/-- C8 as stated fails: after the first `Update` with the cursor at `(5, 7)`, `Draw`
assigns `float32(5)` to `currentX`, which was 0 before the call. -/
theorem draw_changes_currentX :
    (Draw (Update (Game.init : Game Fixed) (Input.idle 0 5 7) Rand.zero).g).currentX ≠
      (Update (Game.init : Game Fixed) (Input.idle 0 5 7) Rand.zero).g.currentX := by
  decide

/-- C8 (amended): `Draw` changes no field of `Game` other than `currentX` and `currentY`,
in creepy mode it changes no field at all, and in normal mode it assigns the gaze target to
`currentX`/`currentY`: the last cursor position while tracking (`idleTime < 120`), one
interpolation step toward the wander target afterwards, the window centre while dragging or
frozen. -/
theorem draw_state_effect (g : Game F) :
    Draw g = { g with currentX := (Draw g).currentX, currentY := (Draw g).currentY } ∧
    (g.creepyMode = true → Draw g = g) ∧
    (g.creepyMode = false →
      (Draw g).currentX =
        (if (!g.dragging && !g.frozen) = true then
          if g.idleTime < 120 then Float32.ofInt g.lastMouseX
          else g.currentX + (g.randomTargetX - g.currentX) * Float32.lit (mkRat 15 1000)
        else Float32.lit 240) ∧
      (Draw g).currentY =
        (if (!g.dragging && !g.frozen) = true then
          if g.idleTime < 120 then Float32.ofInt g.lastMouseY
          else g.currentY + (g.randomTargetY - g.currentY) * Float32.lit (mkRat 15 1000)
        else Float32.lit 160)) := by
  refine ⟨?_, ?_, ?_⟩
  · unfold Draw drawCreepyEyes drawNormalEyes
    split_ifs <;> rfl
  · intro h
    simp [Draw, drawCreepyEyes, h]
  · intro h
    have e1 : ((windowWidth / 2 : Int) : ℚ) = 240 := by norm_num [windowWidth]
    have e2 : ((windowHeight / 2 : Int) : ℚ) = 160 := by norm_num [windowHeight]
    have hD : Draw g = drawNormalEyes g := by simp [Draw, h]
    rw [hD]
    unfold drawNormalEyes
    rw [e1, e2]
    by_cases h1 : (!g.dragging && !g.frozen) = true
    · by_cases h2 : g.idleTime < 120
      · simp only [h1, h2, if_true]
        exact ⟨trivial, trivial⟩
      · simp only [h1, h2, if_true, if_false]
        exact ⟨trivial, trivial⟩
    · simp only [h1, if_false]
      exact ⟨rfl, rfl⟩

end Rendering

/-! ## Clock going backward -/

section BackwardClock

variable {F : Type} [Float32 F]

/-- C3 as stated fails: after a first press at 1000 ms (counter 1), a press at 900 ms, before
the recorded click time, is counted as the second click of a double click: the mode is
toggled and the counter is 0, not 1. -/
theorem backward_press_toggles :
    (900 : Int) < (Update (Game.init : Game Fixed) (Input.press 1000 0 0) Rand.zero).g.lastClickTime ∧
    (Update (Update (Game.init : Game Fixed) (Input.press 1000 0 0) Rand.zero).g
        (Input.press 900 0 0) Rand.zero).g.creepyMode ≠
      (Update (Game.init : Game Fixed) (Input.press 1000 0 0) Rand.zero).g.creepyMode ∧
    (Update (Update (Game.init : Game Fixed) (Input.press 1000 0 0) Rand.zero).g
        (Input.press 900 0 0) Rand.zero).g.clickCount ≠ 1 := by
  decide

/-- C3 (amended): a left press (no exit key, no right click) at a time `now` before
`lastClickTime`, the difference fitting in 64 bits, has a negative difference, which is below
500, so the press is counted inside the double-click window: the counter is incremented; if
it reaches 2 the mode is toggled, the counter is reset to 0 and `lastClickTime` keeps its
value; otherwise the mode is unchanged, the counter keeps the incremented value and
`lastClickTime` becomes `now`. -/
theorem backward_press_counts (g : Game F) (i : Input) (r : Rand F)
    (he : i.escJust = false) (hr : i.rightJust = false) (hl : i.leftJust = true)
    (hback : i.now < g.lastClickTime)
    (hfit : -9223372036854775808 ≤ i.now - g.lastClickTime) :
    (2 ≤ wrap64 (g.clickCount + 1) →
      (Update g i r).g.creepyMode = (!g.creepyMode) ∧
      (Update g i r).g.clickCount = 0 ∧
      (Update g i r).g.lastClickTime = g.lastClickTime) ∧
    (wrap64 (g.clickCount + 1) < 2 →
      (Update g i r).g.creepyMode = g.creepyMode ∧
      (Update g i r).g.clickCount = wrap64 (g.clickCount + 1) ∧
      (Update g i r).g.lastClickTime = i.now) := by
  have hw : wrap64 (i.now - (freezeKey g i).lastClickTime) < 500 := by
    rw [(freezeKey_gesture g i).2.2.2.2.2.1, wrap64_of_range _ hfit (by omega)]
    omega
  have hc : (freezeKey g i).clickCount = g.clickCount := (freezeKey_gesture g i).2.2.2.2.2.2
  rw [Update_left g i r he hr hl]
  constructor
  · intro h2
    rw [leftPress_toggle _ _ hw (by rw [hc]; exact h2)]
    cases hm : g.creepyMode <;> cases hf : i.fJust <;> simp [freezeKey, hm, hf]
  · intro h2
    rw [leftPress_count _ _ hw (by rw [hc]; exact h2)]
    simp only [afterPress_creepyMode, afterPress_gesture]
    cases hf : i.fJust <;> simp [freezeKey, hf]

/-- Instance of `backward_press_counts`: a press at 900 ms with `lastClickTime` at 1000 ms
and counter 0. -/
theorem backward_press_counts_witness :
    (Input.press 900 0 0).escJust = false ∧ (Input.press 900 0 0).rightJust = false ∧
    (Input.press 900 0 0).leftJust = true ∧
    (Input.press 900 0 0).now < ({ (Game.init : Game Fixed) with lastClickTime := 1000 }).lastClickTime ∧
    ((2 ≤ wrap64 (({ (Game.init : Game Fixed) with lastClickTime := 1000 }).clickCount + 1) →
      (Update ({ (Game.init : Game Fixed) with lastClickTime := 1000 }) (Input.press 900 0 0)
          Rand.zero).g.creepyMode =
        (!({ (Game.init : Game Fixed) with lastClickTime := 1000 }).creepyMode) ∧
      (Update ({ (Game.init : Game Fixed) with lastClickTime := 1000 }) (Input.press 900 0 0)
          Rand.zero).g.clickCount = 0 ∧
      (Update ({ (Game.init : Game Fixed) with lastClickTime := 1000 }) (Input.press 900 0 0)
          Rand.zero).g.lastClickTime =
        ({ (Game.init : Game Fixed) with lastClickTime := 1000 }).lastClickTime) ∧
    (wrap64 (({ (Game.init : Game Fixed) with lastClickTime := 1000 }).clickCount + 1) < 2 →
      (Update ({ (Game.init : Game Fixed) with lastClickTime := 1000 }) (Input.press 900 0 0)
          Rand.zero).g.creepyMode =
        ({ (Game.init : Game Fixed) with lastClickTime := 1000 }).creepyMode ∧
      (Update ({ (Game.init : Game Fixed) with lastClickTime := 1000 }) (Input.press 900 0 0)
          Rand.zero).g.clickCount =
        wrap64 (({ (Game.init : Game Fixed) with lastClickTime := 1000 }).clickCount + 1) ∧
      (Update ({ (Game.init : Game Fixed) with lastClickTime := 1000 }) (Input.press 900 0 0)
          Rand.zero).g.lastClickTime = (Input.press 900 0 0).now)) :=
  ⟨rfl, rfl, rfl, by decide,
    backward_press_counts ({ (Game.init : Game Fixed) with lastClickTime := 1000 })
      (Input.press 900 0 0) Rand.zero rfl rfl rfl (by decide) (by decide)⟩

end BackwardClock

/-! ## Idle counter -/

section Idle

variable {F : Type} [Float32 F]

/-- C9 as stated fails: after three motionless frames the idle counter is 3; on the next
frame the cursor has moved to `(5, 5)` and the right button is just pressed, and `Update`
returns before the idle tracking: the counter stays 3 and the position is not recorded. -/
theorem right_click_frame_skips_idle_reset :
    (runFrames (Game.init : Game Fixed)
        [(Input.idle 0 0 0, Rand.zero), (Input.idle 16 0 0, Rand.zero),
          (Input.idle 32 0 0, Rand.zero)]).creepyMode = false ∧
    (5 : Int) ≠ (runFrames (Game.init : Game Fixed)
        [(Input.idle 0 0 0, Rand.zero), (Input.idle 16 0 0, Rand.zero),
          (Input.idle 32 0 0, Rand.zero)]).lastMouseX ∧
    (Update (runFrames (Game.init : Game Fixed)
        [(Input.idle 0 0 0, Rand.zero), (Input.idle 16 0 0, Rand.zero),
          (Input.idle 32 0 0, Rand.zero)])
      { escJust := false, fJust := false, rightJust := true, leftJust := false,
        leftHeld := false, now := 48, cursorX := 5, cursorY := 5 } Rand.zero).g.idleTime = 3 ∧
    (Update (runFrames (Game.init : Game Fixed)
        [(Input.idle 0 0 0, Rand.zero), (Input.idle 16 0 0, Rand.zero),
          (Input.idle 32 0 0, Rand.zero)])
      { escJust := false, fJust := false, rightJust := true, leftJust := false,
        leftHeld := false, now := 48, cursorX := 5, cursorY := 5 } Rand.zero).g.lastMouseX = 0 := by
  decide

end Idle

section IdleSteps

variable {F : Type} [Float32 F]

/-- What idle tracking computes, in terms of the fields it reads. -/
theorem trackIdle_fields (g : Game F) (i : Input) (r : Rand F) :
    (i.cursorX ≠ g.lastMouseX ∨ i.cursorY ≠ g.lastMouseY →
      (trackIdle g i r).idleTime = 0 ∧
      (trackIdle g i r).lastMouseX = i.cursorX ∧
      (trackIdle g i r).lastMouseY = i.cursorY ∧
      (trackIdle g i r).randomTargetX = g.randomTargetX ∧
      (trackIdle g i r).randomTargetY = g.randomTargetY) ∧
    (i.cursorX = g.lastMouseX ∧ i.cursorY = g.lastMouseY →
      (trackIdle g i r).idleTime = wrap64 (g.idleTime + 1) ∧
      (trackIdle g i r).lastMouseX = g.lastMouseX ∧
      (trackIdle g i r).lastMouseY = g.lastMouseY ∧
      (wrap64 (g.idleTime + 1) = 120 →
        (trackIdle g i r).randomTargetX = r.targetX * Float32.lit 480 ∧
        (trackIdle g i r).randomTargetY = r.targetY * Float32.lit 320) ∧
      (wrap64 (g.idleTime + 1) < 120 →
        (trackIdle g i r).randomTargetX = g.randomTargetX ∧
        (trackIdle g i r).randomTargetY = g.randomTargetY)) := by
  have e1 : ((windowWidth : Int) : ℚ) = 480 := by norm_num [windowWidth]
  have e2 : ((windowHeight : Int) : ℚ) = 320 := by norm_num [windowHeight]
  constructor
  · intro h
    simp [trackIdle, h]
  · intro h
    have h' : ¬ (i.cursorX ≠ g.lastMouseX ∨ i.cursorY ≠ g.lastMouseY) := by
      rcases h with ⟨h1, h2⟩
      simp [h1, h2]
    unfold trackIdle
    rw [if_neg h', e1, e2]
    refine ⟨?_, ?_, ?_, ?_, ?_⟩
    · dsimp only; split_ifs <;> rfl
    · dsimp only; split_ifs <;> rfl
    · dsimp only; split_ifs <;> rfl
    · intro h120
      dsimp only
      rw [if_pos (Or.inl h120)]
      exact ⟨rfl, rfl⟩
    · intro hlt
      dsimp only
      rw [if_neg (by omega)]
      exact ⟨rfl, rfl⟩

theorem leftPress_cont (g g1 : Game F) (t : Int) (h : leftPress g t = Flow.cont g1) :
    g1 = { g with clickCount := g1.clickCount, lastClickTime := t } ∧
    (g1.clickCount = 1 ∨ g1.clickCount < 2) := by
  by_cases h1 : wrap64 (t - g.lastClickTime) < 500
  · by_cases h2 : 2 ≤ wrap64 (g.clickCount + 1)
    · rw [leftPress_toggle g t h1 h2] at h
      exact absurd h (by simp)
    · rw [leftPress_count g t h1 (by omega)] at h
      injection h with h
      subst h
      exact ⟨rfl, Or.inr (by simpa using h2)⟩
  · rw [leftPress_first g t (by omega)] at h
    injection h with h
    subst h
    exact ⟨rfl, Or.inl rfl⟩

theorem afterPress_normal (g : Game F) (i : Input) (r : Rand F) (s : Bool)
    (hn : g.creepyMode = false) :
    (afterPress g i r s).g =
      trackIdle (if (!i.leftHeld) = true then { g with dragging := false } else g) i r := by
  simp only [afterPress]
  cases hl : i.leftHeld <;> simp [hn, trackIdle_creepyMode]

/-- In normal mode, a frame that arrives at line 116 ends with the state idle tracking
produces from a state that agrees with the old one on the fields idle tracking reads. -/
theorem Update_tracks (g : Game F) (i : Input) (r : Rand F) (hn : g.creepyMode = false)
    (hreach : reachesTracking g i = true) :
    ∃ g2 : Game F, (Update g i r).g = trackIdle g2 i r ∧ g2.creepyMode = false ∧
      g2.idleTime = g.idleTime ∧ g2.lastMouseX = g.lastMouseX ∧
      g2.lastMouseY = g.lastMouseY ∧ g2.randomTargetX = g.randomTargetX ∧
      g2.randomTargetY = g.randomTargetY := by
  simp only [reachesTracking, Bool.and_eq_true, Bool.or_eq_true, Bool.not_eq_true'] at hreach
  obtain ⟨⟨he, hr⟩, hl⟩ := hreach
  have hk : (freezeKey g i).creepyMode = false := by rw [freezeKey_creepyMode, hn]
  have hkf : (freezeKey g i).idleTime = g.idleTime ∧ (freezeKey g i).lastMouseX = g.lastMouseX ∧
      (freezeKey g i).lastMouseY = g.lastMouseY ∧
      (freezeKey g i).randomTargetX = g.randomTargetX ∧
      (freezeKey g i).randomTargetY = g.randomTargetY := by
    unfold freezeKey; split_ifs <;> simp
  cases hlj : i.leftJust
  · rw [Update_noPress g i r he hr hlj, afterPress_normal _ _ _ _ hk]
    refine ⟨_, rfl, ?_⟩
    cases i.leftHeld <;> simpa [hk] using hkf
  · rw [Update_left g i r he hr hlj]
    rcases hl with hl | hl
    · rw [hlj] at hl; exact absurd hl (by simp)
    · cases hp : leftPress (freezeKey g i) i.now with
      | ret g1 => rw [hp] at hl; exact absurd hl (by simp)
      | cont g1 =>
        have hc := (leftPress_cont _ _ _ hp).1
        have hm : g1.creepyMode = false := by rw [hc]; exact hk
        simp only []
        rw [afterPress_normal _ _ _ _ hm]
        refine ⟨_, rfl, ?_⟩
        have hg : g1.idleTime = g.idleTime ∧ g1.lastMouseX = g.lastMouseX ∧
            g1.lastMouseY = g.lastMouseY ∧ g1.randomTargetX = g.randomTargetX ∧
            g1.randomTargetY = g.randomTargetY := by
          rw [hc]; exact hkf
        cases i.leftHeld <;> simpa [hm] using hg

theorem stillRun_general (fs : List (Input × Rand F)) :
    ∀ g : Game F, g.creepyMode = false → 0 ≤ g.idleTime → g.idleTime + fs.length ≤ 120 →
      stillRun g fs = true →
      (runFrames g fs).creepyMode = false ∧
      (runFrames g fs).idleTime = g.idleTime + fs.length ∧
      (runFrames g fs).lastMouseX = g.lastMouseX ∧
      (runFrames g fs).lastMouseY = g.lastMouseY ∧
      (g.idleTime + fs.length < 120 →
        (runFrames g fs).randomTargetX = g.randomTargetX ∧
        (runFrames g fs).randomTargetY = g.randomTargetY) ∧
      (g.idleTime + fs.length = 120 → ∀ f, fs.getLast? = some f →
        (runFrames g fs).randomTargetX = f.2.targetX * Float32.lit 480 ∧
        (runFrames g fs).randomTargetY = f.2.targetY * Float32.lit 320) := by
  induction fs with
  | nil =>
    intro g hn _ _ _
    simp [runFrames, hn]
  | cons f fs ih =>
    intro g hn h0 hlen hs
    simp only [List.length_cons, Nat.cast_add, Nat.cast_one] at hlen
    simp only [stillRun, Bool.and_eq_true, decide_eq_true_eq] at hs
    obtain ⟨⟨hreach, hcur⟩, hrest⟩ := hs
    obtain ⟨g2, hU, hm2, hi2, hx2, hy2, htx2, hty2⟩ := Update_tracks g f.1 f.2 hn hreach
    have hcur2 : f.1.cursorX = g2.lastMouseX ∧ f.1.cursorY = g2.lastMouseY := by
      rw [hx2, hy2]; exact hcur
    obtain ⟨hI, hX, hY, hPick, hKeep⟩ := (trackIdle_fields g2 f.1 f.2).2 hcur2
    have hw : wrap64 (g2.idleTime + 1) = g.idleTime + 1 := by
      rw [hi2]; exact wrap64_of_range _ (by omega) (by omega)
    rw [hw] at hI hPick hKeep
    have hm1 : (Update g f.1 f.2).g.creepyMode = false := by
      rw [hU, trackIdle_creepyMode]; exact hm2
    have hrun : runFrames g (f :: fs) = runFrames (Update g f.1 f.2).g fs := rfl
    obtain ⟨a1, a2, a3, a4, a5, a6⟩ :=
      ih (Update g f.1 f.2).g hm1 (by rw [hU, hI]; omega) (by rw [hU, hI]; omega) hrest
    rw [hrun]
    have hIU : (Update g f.1 f.2).g.idleTime = g.idleTime + 1 := by rw [hU]; exact hI
    have hXU : (Update g f.1 f.2).g.lastMouseX = g.lastMouseX := by rw [hU, hX, hx2]
    have hYU : (Update g f.1 f.2).g.lastMouseY = g.lastMouseY := by rw [hU, hY, hy2]
    rw [hIU] at a2 a5 a6
    rw [hXU] at a3
    rw [hYU] at a4
    refine ⟨a1, ?_, a3, a4, ?_, ?_⟩
    · rw [a2]; simp only [List.length_cons, Nat.cast_add, Nat.cast_one]; omega
    · intro hlt
      simp only [List.length_cons, Nat.cast_add, Nat.cast_one] at hlt
      obtain ⟨b1, b2⟩ := a5 (by omega)
      obtain ⟨c1, c2⟩ := hKeep (by omega)
      rw [b1, b2, hU, c1, c2, htx2, hty2]
      exact ⟨rfl, rfl⟩
    · intro heq l hl
      simp only [List.length_cons, Nat.cast_add, Nat.cast_one] at heq
      cases fs with
      | nil =>
        simp only [List.getLast?_singleton, Option.some.injEq] at hl
        subst hl
        simp only [List.length_nil, Nat.cast_zero] at heq
        obtain ⟨c1, c2⟩ := hPick (by omega)
        rw [← hU] at c1 c2
        exact ⟨c1, c2⟩
      | cons f2 fs2 =>
        rw [List.getLast?_cons_cons] at hl
        exact a6 (by omega) l hl

end IdleSteps

section Idle

variable {F : Type} [Float32 F]

/-- C9 (amended): in normal mode, on every `Update` frame that arrives at the idle tracking
(no exit key, no right click, no mode switch on that frame), a cursor position different
from the last recorded one sets the idle counter to 0 and records the position, and an equal
one increments the counter by exactly 1 (the counter being below the largest 64-bit
integer).  Hence, from idle counter 0, after `n <= 120` consecutive such frames without
cursor movement the counter is `n`: it is below 120 and the wander target is untouched for
`n < 120`, and on the 120th frame the counter is 120 and the wander target is drawn from
that frame's random values. -/
theorem idle_counter (g : Game F) (hn : g.creepyMode = false) :
    (∀ (i : Input) (r : Rand F), reachesTracking g i = true →
      (i.cursorX ≠ g.lastMouseX ∨ i.cursorY ≠ g.lastMouseY →
        (Update g i r).g.idleTime = 0 ∧
        (Update g i r).g.lastMouseX = i.cursorX ∧
        (Update g i r).g.lastMouseY = i.cursorY) ∧
      (i.cursorX = g.lastMouseX ∧ i.cursorY = g.lastMouseY →
        -9223372036854775808 ≤ g.idleTime → g.idleTime < 9223372036854775807 →
        (Update g i r).g.idleTime = g.idleTime + 1 ∧
        (Update g i r).g.lastMouseX = g.lastMouseX ∧
        (Update g i r).g.lastMouseY = g.lastMouseY)) ∧
    (∀ fs : List (Input × Rand F), g.idleTime = 0 → stillRun g fs = true → fs.length ≤ 120 →
      (runFrames g fs).idleTime = fs.length ∧
      (fs.length < 120 →
        (runFrames g fs).idleTime < 120 ∧
        (runFrames g fs).randomTargetX = g.randomTargetX ∧
        (runFrames g fs).randomTargetY = g.randomTargetY) ∧
      (fs.length = 120 → ∀ f, fs.getLast? = some f →
        (runFrames g fs).idleTime = 120 ∧
        (runFrames g fs).randomTargetX = f.2.targetX * Float32.lit 480 ∧
        (runFrames g fs).randomTargetY = f.2.targetY * Float32.lit 320)) := by
  constructor
  · intro i r hreach
    obtain ⟨g2, hU, _, hi2, hx2, hy2, _, _⟩ := Update_tracks g i r hn hreach
    constructor
    · intro hmv
      rw [← hx2, ← hy2] at hmv
      obtain ⟨a, b, c, _⟩ := (trackIdle_fields g2 i r).1 hmv
      rw [hU]
      exact ⟨a, b, c⟩
    · intro hst hlo hhi
      rw [← hx2, ← hy2] at hst
      obtain ⟨a, b, c, _⟩ := (trackIdle_fields g2 i r).2 hst
      rw [hU, a, b, c, hi2, hx2, hy2]
      exact ⟨wrap64_of_range _ (by omega) (by omega), rfl, rfl⟩
  · intro fs h0 hs hlen
    obtain ⟨_, a2, _, _, a5, a6⟩ :=
      stillRun_general fs g hn (by omega) (by rw [h0]; omega) hs
    rw [h0] at a2 a5 a6
    refine ⟨by rw [a2]; omega, ?_, ?_⟩
    · intro hlt
      obtain ⟨b1, b2⟩ := a5 (by omega)
      exact ⟨by rw [a2]; omega, b1, b2⟩
    · intro heq f hf
      obtain ⟨b1, b2⟩ := a6 (by omega) f hf
      exact ⟨by rw [a2]; omega, b1, b2⟩

/-- Instance of `idle_counter`: from the initial state, a moved cursor keeps the counter at 0,
and 120 motionless frames bring it to 120 and pick the wander target. -/
theorem idle_counter_witness :
    (Game.init : Game Fixed).creepyMode = false ∧
    (Update (Game.init : Game Fixed) (Input.idle 0 5 5) Rand.half).g.idleTime = 0 ∧
    (runFrames (Game.init : Game Fixed)
      (List.replicate 120 (Input.idle 0 0 0, Rand.half))).idleTime = 120 ∧
    (runFrames (Game.init : Game Fixed)
      (List.replicate 120 (Input.idle 0 0 0, Rand.half))).randomTargetX =
        Rand.half.targetX * Float32.lit 480 :=
  ⟨rfl,
    (((idle_counter (Game.init : Game Fixed) rfl).1 (Input.idle 0 5 5) Rand.half rfl).1
      (Or.inl (by decide))).1,
    (((idle_counter (Game.init : Game Fixed) rfl).2
      (List.replicate 120 (Input.idle 0 0 0, Rand.half)) rfl (by decide) (by decide)).2.2
        (by decide) (Input.idle 0 0 0, Rand.half) rfl).1,
    (((idle_counter (Game.init : Game Fixed) rfl).2
      (List.replicate 120 (Input.idle 0 0 0, Rand.half)) rfl (by decide) (by decide)).2.2
        (by decide) (Input.idle 0 0 0, Rand.half) rfl).2.1⟩

end Idle

/-! ## The removal loops -/

section SweepLemmas

variable {F : Type} [Float32 F]

theorem sweepStep_append {α : Type} (f : α → α) (gone : α → Bool) (xs suf : List α) (x : α) :
    sweepStep f gone (xs ++ x :: suf) xs.length =
      if gone (f x) then xs ++ suf else xs ++ f x :: suf := by
  have h1 : (xs ++ x :: suf)[xs.length]? = some x := by
    rw [List.getElem?_append_right (le_refl _)]; simp
  have h2 : (xs ++ x :: suf).set xs.length (f x) = xs ++ f x :: suf := by simp
  have h3 : (xs ++ f x :: suf)[xs.length]? = some (f x) := by
    rw [List.getElem?_append_right (le_refl _)]; simp
  unfold sweepStep
  rw [h1]
  simp only [h2, h3]
  simp [removeAt]

theorem decide_lt_eq_not_le (a b : Nat) : decide (a < b) = !decide (b ≤ a) := by
  by_cases h : a < b
  · have h2 : ¬ b ≤ a := by omega
    simp [h, h2]
  · have h2 : b ≤ a := by omega
    simp [h, h2]

theorem sweep_append {α : Type} (f : α → α) (gone : α → Bool) (pre : List α) :
    ∀ suf : List α, sweep f gone pre.length (pre ++ suf) =
      (pre.map f).filter (fun e => !gone e) ++ suf := by
  induction pre using List.reverseRecOn with
  | nil => intro suf; simp [sweep]
  | append_singleton xs x ih =>
    intro suf
    rw [List.length_append, List.length_singleton, sweep, List.append_assoc,
      List.singleton_append, sweepStep_append]
    by_cases hg : gone (f x) = true
    · rw [if_pos hg, ih]
      simp [List.filter_append, hg]
    · rw [if_neg hg, ih]
      simp [List.filter_append, hg]

theorem sweep_all {α : Type} (f : α → α) (gone : α → Bool) (s : List α) :
    sweep f gone s.length s = (s.map f).filter (fun e => !gone e) := by
  have h := sweep_append f gone s []
  simpa using h

theorem dropStep_eq_sweepStep (s : List (BloodDrop F)) (i : Nat) :
    dropStep s i = sweepStep advanceDrop dropGone s i := by
  unfold dropStep sweepStep
  cases s[i]? with
  | none => rfl
  | some d =>
    simp only []
    cases (s.set i (advanceDrop d))[i]? with
    | none => rfl
    | some e => rfl

theorem trailStep_eq_sweepStep (s : List (BloodTrail F)) (i : Nat) :
    trailStep s i = sweepStep fadeTrail trailGone s i := by
  unfold trailStep sweepStep
  cases s[i]? with
  | none => rfl
  | some d =>
    simp only []
    cases (s.set i (fadeTrail d))[i]? with
    | none => rfl
    | some e => rfl

theorem dropLoop_eq_sweep (n : Nat) :
    ∀ s : List (BloodDrop F), dropLoop n s = sweep advanceDrop dropGone n s := by
  induction n with
  | zero => intro s; rfl
  | succ n ih =>
    intro s
    simp only [dropLoop, sweep]
    rw [ih, dropStep_eq_sweepStep]

theorem trailLoop_eq_sweep (n : Nat) :
    ∀ s : List (BloodTrail F), trailLoop n s = sweep fadeTrail trailGone n s := by
  induction n with
  | zero => intro s; rfl
  | succ n ih =>
    intro s
    simp only [trailLoop, sweep]
    rw [ih, trailStep_eq_sweepStep]

theorem dropLoop_spec (s : List (BloodDrop F)) : dropLoop s.length s = dropsSpec s := by
  rw [dropLoop_eq_sweep, sweep_all]
  unfold dropsSpec
  congr 1
  funext d
  have e : ((windowHeight + 50 : Int) : ℚ) = 370 := by norm_num [windowHeight]
  simp only [dropGone, fle, e, Bool.not_or]
  congr 1
  simp [advanceDrop, decide_lt_eq_not_le]

theorem trailLoop_spec (s : List (BloodTrail F)) : trailLoop s.length s = trailsSpec s := by
  rw [trailLoop_eq_sweep, sweep_all]
  unfold trailsSpec
  congr 1
  funext t
  simp [trailGone, fadeTrail, decide_lt_eq_not_le]

theorem updateHorrorEffects_bloodDrops (g : Game F) (r : Rand F) :
    (updateHorrorEffects g r).bloodDrops =
      dropLoop (dropsBeforeLoop g r).length (dropsBeforeLoop g r) := by
  simp only [updateHorrorEffects, dropsBeforeLoop]
  split_ifs <;> rfl

theorem updateHorrorEffects_bloodTrails (g : Game F) (r : Rand F) :
    (updateHorrorEffects g r).bloodTrails =
      trailLoop (trailsBeforeLoop g r).length (trailsBeforeLoop g r) := by
  simp only [updateHorrorEffects, trailsBeforeLoop]
  split_ifs <;> rfl

end SweepLemmas

section Refinement

variable {F : Type} [Float32 F]

/-- C10: the backward in-place removal loops of `updateHorrorEffects` compute map-then-filter.
After one tick the drop list is `dropsSpec` of the list the loop starts from, which is the
old list, followed by the drop spawned this tick if there is one; the trail list is
`trailsSpec` of the old list followed by the trail spawned this tick if there is one.  The
same holds of the loops run on an arbitrary list. -/
theorem horror_tick_is_map_filter (g : Game F) (r : Rand F) :
    (updateHorrorEffects g r).bloodDrops = dropsSpec (dropsBeforeLoop g r) ∧
    (updateHorrorEffects g r).bloodTrails = trailsSpec (trailsBeforeLoop g r) ∧
    (dropsBeforeLoop g r = g.bloodDrops ∨
      dropsBeforeLoop g r = g.bloodDrops ++ [spawnDrop r]) ∧
    (trailsBeforeLoop g r = g.bloodTrails ∨
      trailsBeforeLoop g r = g.bloodTrails ++ [spawnTrail r]) ∧
    (∀ s : List (BloodDrop F), dropLoop s.length s = dropsSpec s) ∧
    (∀ s : List (BloodTrail F), trailLoop s.length s = trailsSpec s) := by
  refine ⟨?_, ?_, ?_, ?_, dropLoop_spec, trailLoop_spec⟩
  · rw [updateHorrorEffects_bloodDrops, dropLoop_spec]
  · rw [updateHorrorEffects_bloodTrails, trailLoop_spec]
  · unfold dropsBeforeLoop
    split_ifs
    · exact Or.inr rfl
    · exact Or.inl rfl
  · unfold trailsBeforeLoop
    split_ifs
    · exact Or.inr rfl
    · exact Or.inl rfl

end Refinement

/-! ## Alpha decay and the life of a drop -/

section Decay

variable {F : Type} [Float32 F]

/-- The `float32` constant nearest to 0.996 is `16710107 / 2^24`, and the one nearest to
0.985 is `16525558 / 2^24`: the distance to the real constant is below half a unit in the
last place (`2^-25`). -/
theorem decay_constants_nearest :
    |(sig996 : ℚ) / 2 ^ 24 - 996 / 1000| < 1 / 2 ^ 25 ∧
    |(sig985 : ℚ) / 2 ^ 24 - 985 / 1000| < 1 / 2 ^ 25 := by
  constructor <;> norm_num [sig996, sig985, abs_lt]

theorem decayDropAlpha_eq (a : Nat) (h : a < 256) : decayDropAlpha a = a * 996 / 1000 := by
  interval_cases a <;> rfl

theorem decayTrailAlpha_eq (a : Nat) (h : a < 256) : decayTrailAlpha a = a * 985 / 1000 := by
  interval_cases a <;> rfl

theorem decayDropAlpha_pred (a : Nat) (h : a ≤ 250) : decayDropAlpha a = a - 1 := by
  rw [decayDropAlpha_eq a (by omega)]
  omega

theorem tickDrops_eq (s : List (BloodDrop F)) :
    tickDrops s = (s.map advanceDrop).filter (fun e => !dropGone e) := by
  unfold tickDrops
  rw [dropLoop_eq_sweep, sweep_all]

theorem tickDrops_append (s t : List (BloodDrop F)) :
    tickDrops (s ++ t) = tickDrops s ++ tickDrops t := by
  simp [tickDrops_eq]

theorem tickDrops_nil : tickDrops ([] : List (BloodDrop F)) = [] := rfl

theorem tickDrops_single (d : BloodDrop F) :
    tickDrops [d] = if dropGone (advanceDrop d) then [] else [advanceDrop d] := by
  rw [tickDrops_eq]
  by_cases h : dropGone (advanceDrop d) = true <;> simp [h]

theorem tickDropsN_nil (n : Nat) : tickDropsN n ([] : List (BloodDrop F)) = [] := by
  induction n with
  | zero => rfl
  | succ n ih => simpa [tickDropsN, tickDrops_nil] using ih

theorem tickDropsN_append (n : Nat) :
    ∀ s t : List (BloodDrop F), tickDropsN n (s ++ t) = tickDropsN n s ++ tickDropsN n t := by
  induction n with
  | zero => intro s t; rfl
  | succ n ih => intro s t; simp only [tickDropsN, tickDrops_append, ih]

theorem advanceDrop_alpha (d : BloodDrop F) :
    (advanceDrop d).alpha = decayDropAlpha d.alpha := rfl

theorem agedDrop_alpha (n : Nat) :
    ∀ d : BloodDrop F, d.alpha ≤ 250 → (agedDrop n d).alpha = d.alpha - n := by
  induction n with
  | zero => intro d _; rfl
  | succ n ih =>
    intro d h
    have h1 : (advanceDrop d).alpha = d.alpha - 1 := by
      rw [advanceDrop_alpha, decayDropAlpha_pred _ h]
    simp only [agedDrop]
    rw [ih _ (by omega), h1]
    omega

/-- A drop of starting alpha at most 250 is gone after `alphaLife` ticks, wherever it is. -/
theorem drop_gone_by_alpha (n : Nat) :
    ∀ d : BloodDrop F, d.alpha ≤ 250 → alphaLife d.alpha ≤ n → tickDropsN n [d] = [] := by
  induction n with
  | zero => intro d _ h; simp [alphaLife] at h
  | succ n ih =>
    intro d ha hn
    have h1 : (advanceDrop d).alpha = d.alpha - 1 := by
      rw [advanceDrop_alpha, decayDropAlpha_pred _ ha]
    simp only [tickDropsN]
    rw [tickDrops_single]
    by_cases hg : dropGone (advanceDrop d) = true
    · rw [if_pos hg]; exact tickDropsN_nil n
    · rw [if_neg hg]
      have h10 : 10 ≤ (advanceDrop d).alpha := by
        by_contra hlt
        apply hg
        simp only [dropGone, Bool.or_eq_true, decide_eq_true_eq]
        exact Or.inr (by omega)
      apply ih
      · omega
      · simp only [alphaLife] at hn ⊢
        omega

/-- A drop is gone after any tick on which its `y` has passed 370. -/
theorem drop_gone_by_y (n : Nat) :
    ∀ d : BloodDrop F, 1 ≤ n →
      fgt (agedDrop n d).y (Float32.lit 370) = true → tickDropsN n [d] = [] := by
  induction n with
  | zero => intro d h; omega
  | succ n ih =>
    intro d _ hy
    have e : ((windowHeight + 50 : Int) : ℚ) = 370 := by norm_num [windowHeight]
    simp only [tickDropsN]
    rw [tickDrops_single]
    by_cases hg : dropGone (advanceDrop d) = true
    · rw [if_pos hg]; exact tickDropsN_nil n
    · rw [if_neg hg]
      cases n with
      | zero =>
        exfalso
        apply hg
        simp only [dropGone, e, Bool.or_eq_true]
        exact Or.inl hy
      | succ m => exact ih _ (by omega) hy

/-- Until then the drop is in the list, aged by one update per tick. -/
theorem drop_survives (n : Nat) :
    ∀ d : BloodDrop F, d.alpha ≤ 250 → n < alphaLife d.alpha → 10 ≤ d.alpha →
      (∀ k, 1 ≤ k → k ≤ n → fgt (agedDrop k d).y (Float32.lit 370) = false) →
      tickDropsN n [d] = [agedDrop n d] := by
  induction n with
  | zero => intro d _ _ _ _; rfl
  | succ n ih =>
    intro d ha hn h10 hy
    have e : ((windowHeight + 50 : Int) : ℚ) = 370 := by norm_num [windowHeight]
    have h1 : (advanceDrop d).alpha = d.alpha - 1 := by
      rw [advanceDrop_alpha, decayDropAlpha_pred _ ha]
    simp only [alphaLife] at hn
    have hg : ¬ dropGone (advanceDrop d) = true := by
      have hy1 := hy 1 (le_refl _) (by omega)
      simp only [agedDrop] at hy1
      simp only [dropGone, e, hy1, Bool.false_or, decide_eq_true_eq]
      omega
    simp only [tickDropsN, agedDrop]
    rw [tickDrops_single, if_neg hg]
    apply ih
    · omega
    · simp only [alphaLife]; omega
    · omega
    · intro k hk1 hk2
      exact hy (k + 1) (by omega) (by omega)

theorem updateHorrorEffects_drops_split (g : Game F) (r : Rand F) :
    (updateHorrorEffects g r).bloodDrops =
      tickDrops g.bloodDrops ++ (updateHorrorEffects { g with bloodDrops := [] } r).bloodDrops := by
  rw [updateHorrorEffects_bloodDrops, updateHorrorEffects_bloodDrops]
  change tickDrops (dropsBeforeLoop g r) = tickDrops g.bloodDrops ++ tickDrops (dropsBeforeLoop _ r)
  unfold dropsBeforeLoop
  split_ifs
  · simp [tickDrops_append, tickDrops_nil]
  · simp [tickDrops_nil]

theorem updateHorrorEffects_forget_drops (g : Game F) (r : Rand F) :
    { updateHorrorEffects g r with bloodDrops := [] } =
      { updateHorrorEffects { g with bloodDrops := [] } r with bloodDrops := [] } := by
  simp only [updateHorrorEffects]
  split_ifs <;> rfl

theorem runHorror_forget_drops (rs : List (Rand F)) :
    ∀ g h : Game F, { g with bloodDrops := [] } = { h with bloodDrops := [] } →
      (runHorror g rs).bloodDrops =
        tickDropsN rs.length g.bloodDrops ++ (runHorror { h with bloodDrops := [] } rs).bloodDrops := by
  induction rs with
  | nil => intro g h _; simp [runHorror, tickDropsN]
  | cons r rs ih =>
    intro g h hgh
    have hstep : { updateHorrorEffects g r with bloodDrops := [] } =
        { updateHorrorEffects { h with bloodDrops := [] } r with bloodDrops := [] } := by
      rw [updateHorrorEffects_forget_drops g r, hgh]
    have e1 : runHorror g (r :: rs) = runHorror (updateHorrorEffects g r) rs := rfl
    have e2 : runHorror { h with bloodDrops := [] } (r :: rs) =
        runHorror (updateHorrorEffects { h with bloodDrops := [] } r) rs := rfl
    rw [e1, e2, ih (updateHorrorEffects g r) (updateHorrorEffects { h with bloodDrops := [] } r) hstep,
      ih (updateHorrorEffects { h with bloodDrops := [] } r)
        (updateHorrorEffects { h with bloodDrops := [] } r) rfl]
    rw [updateHorrorEffects_drops_split g r, tickDropsN_append]
    have e3 : (updateHorrorEffects { g with bloodDrops := [] } r).bloodDrops =
        (updateHorrorEffects { h with bloodDrops := [] } r).bloodDrops := by rw [hgh]
    rw [e3]
    simp only [List.length_cons, tickDropsN, List.append_assoc]

end Decay

section DropLifeTheorem

variable {F : Type} [Float32 F]

/-- C7: one tick of `updateHorrorEffects` replaces the alpha `a` of every drop by
`uint8(float32(a) * 0.996)`, which is the integer part of `a * 0.996` and never above `a`.
A drop of starting alpha `a <= 250` therefore loses exactly 1 per tick and is out of the
list after `alphaLife a = max 1 (a - 9)` ticks, the first tick leaving alpha below 10 (241
ticks for alpha 250, never more); until then it is in the list unless its `y` has passed
370, and it is out of the list from the first tick on which `y` exceeds 370.  Over any run
of ticks the old drops evolve independently of the drops spawned meanwhile. -/
theorem drop_alpha_decay_and_life :
    (∀ a : Nat, a < 256 → decayDropAlpha a = a * 996 / 1000 ∧ decayDropAlpha a ≤ a) ∧
    (∀ (g : Game F) (r : Rand F) (e : BloodDrop F), e ∈ (updateHorrorEffects g r).bloodDrops →
      ∃ d, d ∈ dropsBeforeLoop g r ∧ e = advanceDrop d ∧ e.alpha = decayDropAlpha d.alpha) ∧
    (∀ d : BloodDrop F, d.alpha ≤ 250 →
      alphaLife d.alpha ≤ 241 ∧
      (∀ n, alphaLife d.alpha ≤ n → tickDropsN n [d] = []) ∧
      (∀ n, n < alphaLife d.alpha → 10 ≤ d.alpha →
        (∀ k, 1 ≤ k → k ≤ n → fgt (agedDrop k d).y (Float32.lit 370) = false) →
        tickDropsN n [d] = [agedDrop n d] ∧ (agedDrop n d).alpha = d.alpha - n)) ∧
    (∀ (d : BloodDrop F) (n : Nat), 1 ≤ n →
      fgt (agedDrop n d).y (Float32.lit 370) = true → tickDropsN n [d] = []) ∧
    (∀ (g : Game F) (rs : List (Rand F)),
      (runHorror g rs).bloodDrops =
        tickDropsN rs.length g.bloodDrops ++
          (runHorror { g with bloodDrops := [] } rs).bloodDrops) ∧
    (∀ s : List (BloodDrop F), (∀ d ∈ s, d.alpha ≤ 250) → ∀ n, 241 ≤ n → tickDropsN n s = []) ∧
    alphaLife 250 = 241 := by
  refine ⟨?_, ?_, ?_, ?_, ?_, ?_, rfl⟩
  · intro a h
    rw [decayDropAlpha_eq a h]
    omega
  · intro g r e he
    rw [updateHorrorEffects_bloodDrops] at he
    change e ∈ tickDrops (dropsBeforeLoop g r) at he
    rw [tickDrops_eq, List.mem_filter, List.mem_map] at he
    obtain ⟨⟨d, hd, hde⟩, _⟩ := he
    exact ⟨d, hd, hde.symm, by rw [← hde]; rfl⟩
  · intro d ha
    refine ⟨by simp only [alphaLife]; omega, fun n hn => drop_gone_by_alpha n d ha hn, ?_⟩
    intro n hn h10 hy
    exact ⟨drop_survives n d ha hn h10 hy, agedDrop_alpha n d ha⟩
  · intro d n hn hy
    exact drop_gone_by_y n d hn hy
  · intro g rs
    exact runHorror_forget_drops rs g g rfl
  · intro s
    induction s with
    | nil => intro _ n _; exact tickDropsN_nil n
    | cons d s ih =>
      intro hs n hn
      have hd : d.alpha ≤ 250 := hs d (List.mem_cons_self _ _)
      have e : d :: s = [d] ++ s := rfl
      rw [e, tickDropsN_append, ih (fun x hx => hs x (List.mem_cons_of_mem _ hx)) n hn,
        drop_gone_by_alpha n d hd (by simp only [alphaLife]; omega)]
      rfl

/-- Instance of `drop_alpha_decay_and_life`: a drop of alpha 250 is out of the list after 241
ticks. -/
theorem drop_alpha_decay_and_life_witness :
    sampleDrop.alpha ≤ 250 ∧ alphaLife sampleDrop.alpha ≤ 241 ∧
    tickDropsN 241 [sampleDrop] = [] ∧
    decayDropAlpha 250 = 249 :=
  ⟨by decide, by decide,
    ((drop_alpha_decay_and_life.2.2.1 sampleDrop (by decide)).2.1 241 (by decide)),
    by rw [((@drop_alpha_decay_and_life Fixed _).1 250 (by decide)).1]⟩

end DropLifeTheorem

section ModeSwitchWitness

/-- Instance of `toggle_frame_particles`: a double click in creepy mode with one drop and one
trail, and a double click in normal mode. -/
theorem toggle_frame_particles_witness :
    ((Update creepySample (Input.press 1100 0 0) Rand.zero).g.creepyMode ≠ creepySample.creepyMode ∧
      (Update creepySample (Input.press 1100 0 0) Rand.zero).g.bloodDrops.length = 0 ∧
      (Update creepySample (Input.press 1100 0 0) Rand.zero).g.bloodTrails.length = 0) ∧
    ((Update normalSample (Input.press 1100 0 0) Rand.zero).g.creepyMode ≠ normalSample.creepyMode ∧
      (Update normalSample (Input.press 1100 0 0) Rand.zero).g.bloodDrops = normalSample.bloodDrops ∧
      (Update normalSample (Input.press 1100 0 0) Rand.zero).g.bloodTrails =
        normalSample.bloodTrails ∧
      (Update normalSample (Input.press 1100 0 0) Rand.zero).g.pupilShake = normalSample.pupilShake ∧
      (Update normalSample (Input.press 1100 0 0) Rand.zero).g.shakeTimer = normalSample.shakeTimer ∧
      (Update normalSample (Input.press 1100 0 0) Rand.zero).g.lastBloodTime =
        normalSample.lastBloodTime) :=
  ⟨⟨by decide, toggle_frame_particles creepySample (Input.press 1100 0 0) Rand.zero (by decide)⟩,
    ⟨by decide, toggle_frame_particles normalSample (Input.press 1100 0 0) Rand.zero (by decide)⟩⟩

end ModeSwitchWitness

/-! ## Steps of the world -/

section WorldSteps

variable {F : Type} [Float32 F]

theorem Update_noLeft_gesture (g : Game F) (i : Input) (r : Rand F) (hl : i.leftJust = false) :
    (Update g i r).g.creepyMode = g.creepyMode ∧
    (Update g i r).g.clickCount = g.clickCount ∧
    (Update g i r).g.lastClickTime = g.lastClickTime ∧
    (Update g i r).g.dragStartX = g.dragStartX ∧
    (Update g i r).g.dragStartY = g.dragStartY ∧
    (Update g i r).g.windowStartX = g.windowStartX ∧
    (Update g i r).g.windowStartY = g.windowStartY ∧
    (Update g i r).scheduled = false ∧
    ((Update g i r).g.dragging = true → g.dragging = true) ∧
    (g.dragging = false → (Update g i r).move = none) ∧
    (i.escJust = false → (Update g i r).terminated = false) ∧
    (i.escJust = false → i.leftHeld = true → (Update g i r).g.dragging = g.dragging) := by
  cases he : i.escJust
  · cases hr : i.rightJust
    · rw [Update_noPress g i r he hr hl]
      obtain ⟨a1, a2, a3, a4, a5, a6, a7, a8⟩ := afterPress_gesture (freezeKey g i) i r false
      obtain ⟨b1, b2, b3⟩ := afterPress_flags (freezeKey g i) i r false
      obtain ⟨c1, c2, c3, c4, c5, c6, c7⟩ := freezeKey_gesture g i
      rw [afterPress_creepyMode, freezeKey_creepyMode, a8, a7, a2, a3, a4, a5, a1, b1, b2, b3,
        c1, c2, c3, c4, c5, c6, c7]
      refine ⟨rfl, rfl, rfl, rfl, rfl, rfl, rfl, rfl, ?_, ?_, fun _ => rfl, ?_⟩
      · intro h; simp only [Bool.and_eq_true] at h; exact h.1
      · intro h; simp [h]
      · intro _ h; simp [h]
    · rw [Update_right g i r he hr]
      obtain ⟨c1, c2, c3, c4, c5, c6, c7⟩ := freezeKey_gesture g i
      simp only [freezeKey_creepyMode, c1, c2, c3, c4, c5, c6, c7]
      simp
  · rw [Update_esc g i r he]
    simp

end WorldSteps

section WorldQuiet

variable {F : Type} [Float32 F]

/-- A frame without a new left press, seen from the world. -/
theorem step_frame_noLeft (w : World F) (i : Input) (r : Rand F) (hl : i.leftJust = false) :
    (w.step (Event.frame i r)).g.creepyMode = w.g.creepyMode ∧
    (w.step (Event.frame i r)).g.clickCount = w.g.clickCount ∧
    (w.step (Event.frame i r)).g.lastClickTime = w.g.lastClickTime ∧
    (w.step (Event.frame i r)).g.dragStartX = w.g.dragStartX ∧
    (w.step (Event.frame i r)).g.dragStartY = w.g.dragStartY ∧
    (w.step (Event.frame i r)).g.windowStartX = w.g.windowStartX ∧
    (w.step (Event.frame i r)).g.windowStartY = w.g.windowStartY ∧
    (w.step (Event.frame i r)).pending = w.pending ∧
    (w.step (Event.frame i r)).dragStarts = w.dragStarts ∧
    ((w.step (Event.frame i r)).g.dragging = true → w.g.dragging = true) ∧
    (w.g.dragging = false → (w.step (Event.frame i r)).moves = w.moves) ∧
    (i.escJust = false → w.terminated = false →
      (w.step (Event.frame i r)).terminated = false) ∧
    (i.escJust = false → i.leftHeld = true →
      (w.step (Event.frame i r)).g.dragging = w.g.dragging) := by
  cases ht : w.terminated
  · obtain ⟨a1, a2, a3, a4, a5, a6, a7, a8, a9, a10, a11, a12⟩ :=
      Update_noLeft_gesture w.g i r hl
    simp only [World.step, ht, Bool.false_eq_true, if_false, a8]
    refine ⟨a1, a2, a3, a4, a5, a6, a7, trivial, trivial, a9, ?_, fun he _ => a11 he, a12⟩
    intro hd
    rw [a10 hd]
    simp
  · simp [World.step, ht]

/-- A timer event while the click counter is not 1 changes at most the pending list. -/
theorem step_timer_counter (w : World F) (t : Int) (c p : Int × Int)
    (hc : w.g.clickCount ≠ 1) :
    (w.step (Event.timer t c p)).g = w.g ∧
    (w.step (Event.timer t c p)).dragStarts = w.dragStarts ∧
    (w.step (Event.timer t c p)).moves = w.moves ∧
    (w.step (Event.timer t c p)).terminated = w.terminated := by
  simp only [World.step]
  cases hp : w.pending with
  | nil => simp
  | cons d rest =>
    by_cases hd : d ≤ t
    · simp [hd, dragStartCallback, hc]
    · simp [hd]

/-- A timer event before the only pending deadline changes nothing. -/
theorem step_timer_early (w : World F) (t d : Int) (c p : Int × Int)
    (hp : w.pending = [d]) (ht : t < d) : w.step (Event.timer t c p) = w := by
  have hd : ¬ d ≤ t := by omega
  simp [World.step, hp, hd]

/-- A timer event that is due, with counter 1 and no drag active, starts the drag. -/
theorem step_timer_fires (w : World F) (t d : Int) (c p : Int × Int) (rest : List Int)
    (hp : w.pending = d :: rest) (ht : d ≤ t) (hc : w.g.clickCount = 1)
    (hd : w.g.dragging = false) :
    (w.step (Event.timer t c p)).g =
      { w.g with dragging := true, dragStartX := c.1, dragStartY := c.2,
                 windowStartX := p.1, windowStartY := p.2 } ∧
    (w.step (Event.timer t c p)).dragStarts = w.dragStarts + 1 ∧
    (w.step (Event.timer t c p)).pending = rest := by
  simp [World.step, hp, ht, dragStartCallback, hc, hd]

theorem run_nil (w : World F) : w.run [] = w := rfl

theorem run_cons (w : World F) (e : Event F) (es : List (Event F)) :
    w.run (e :: es) = (w.step e).run es := rfl

theorem run_append (w : World F) (es fs : List (Event F)) :
    w.run (es ++ fs) = (w.run es).run fs := by
  simp [World.run, List.foldl_append]

end WorldQuiet

section CalmRuns

variable {F : Type} [Float32 F]

theorem Calm.refl (v : World F) : Calm v v :=
  ⟨rfl, rfl, rfl, rfl, fun h => h, fun _ => rfl⟩

theorem Calm.trans {u v w : World F} (h1 : Calm u v) (h2 : Calm v w) : Calm u w := by
  obtain ⟨a1, a2, a3, a4, a5, a6⟩ := h1
  obtain ⟨b1, b2, b3, b4, b5, b6⟩ := h2
  refine ⟨b1.trans a1, b2.trans a2, b3.trans a3, b4.trans a4, fun h => a5 (b5 h), ?_⟩
  intro hu
  have hv : v.g.dragging = false := by
    cases hd : v.g.dragging
    · rfl
    · rw [a5 hd] at hu; exact absurd hu (by simp)
  rw [b6 hv, a6 hu]

theorem calm_frame_noLeft (w : World F) (i : Input) (r : Rand F) (hl : i.leftJust = false) :
    Calm w (w.step (Event.frame i r)) := by
  obtain ⟨a1, a2, a3, _, _, _, _, _, a9, a10, a11, _, _⟩ := step_frame_noLeft w i r hl
  exact ⟨a1, a2, a3, a9, a10, a11⟩

theorem calm_timer_counter (w : World F) (t : Int) (c p : Int × Int)
    (hc : w.g.clickCount ≠ 1) : Calm w (w.step (Event.timer t c p)) := by
  obtain ⟨a1, a2, a3, _⟩ := step_timer_counter w t c p hc
  refine ⟨by rw [a1], by rw [a1], by rw [a1], a2, ?_, fun _ => a3⟩
  rw [a1]; exact fun h => h

/-- Events between the two presses: nothing fires and the bookkeeping stays put. -/
theorem calm_between (t2 d : Int) (ht : t2 ≤ d) (es : List (Event F)) :
    ∀ v : World F, v.pending = [d] → v.terminated = false →
      (∀ e ∈ es, betweenPresses t2 e = true) →
      Calm v (v.run es) ∧ (v.run es).pending = [d] ∧ (v.run es).terminated = false := by
  induction es with
  | nil => intro v hp hterm _; exact ⟨Calm.refl v, hp, hterm⟩
  | cons e es ih =>
    intro v hp hterm hes
    have he := hes e (List.mem_cons_self _ _)
    have hrest : ∀ x ∈ es, betweenPresses t2 x = true :=
      fun x hx => hes x (List.mem_cons_of_mem _ hx)
    rw [run_cons]
    cases e with
    | frame i r =>
      simp only [betweenPresses, Bool.and_eq_true, Bool.not_eq_true'] at he
      obtain ⟨_, _, _, _, _, _, _, a8, _, _, _, a12, _⟩ := step_frame_noLeft v i r he.1
      obtain ⟨b1, b2, b3⟩ := ih (v.step (Event.frame i r)) (by rw [a8, hp]) (a12 he.2 hterm) hrest
      exact ⟨(calm_frame_noLeft v i r he.1).trans b1, b2, b3⟩
    | timer t c p =>
      simp only [betweenPresses, decide_eq_true_eq] at he
      rw [step_timer_early v t d c p hp (by omega)]
      exact ih v hp hterm hrest

/-- Events after a double click, with no new press: the counter stays 0 and no callback
starts a drag. -/
theorem calm_after (es : List (Event F)) :
    ∀ v : World F, v.g.clickCount ≠ 1 → (∀ e ∈ es, noNewPress e = true) →
      Calm v (v.run es) := by
  induction es with
  | nil => intro v _ _; exact Calm.refl v
  | cons e es ih =>
    intro v hc hes
    have he := hes e (List.mem_cons_self _ _)
    have hrest : ∀ x ∈ es, noNewPress x = true :=
      fun x hx => hes x (List.mem_cons_of_mem _ hx)
    rw [run_cons]
    cases e with
    | frame i r =>
      simp only [noNewPress, Bool.not_eq_true'] at he
      have h1 := calm_frame_noLeft v i r he
      exact h1.trans (ih _ (by rw [h1.2.1]; exact hc) hrest)
    | timer t c p =>
      have h1 := calm_timer_counter v t c p hc
      exact h1.trans (ih _ (by rw [h1.2.1]; exact hc) hrest)

end CalmRuns

section DoubleClick

variable {F : Type} [Float32 F]

theorem plainPress_iff (i : Input) :
    plainPress i = true ↔ i.escJust = false ∧ i.rightJust = false ∧ i.leftJust = true := by
  cases he : i.escJust <;> cases hr : i.rightJust <;> cases hl : i.leftJust <;>
    simp [plainPress, he, hr, hl]

theorem step_frame_live (w : World F) (i : Input) (r : Rand F) (hterm : w.terminated = false) :
    w.step (Event.frame i r) =
      { g := (Update w.g i r).g
        pending := if (Update w.g i r).scheduled = true then w.pending ++ [i.now + 200]
          else w.pending
        moves := w.moves ++ (Update w.g i r).move.toList
        dragStarts := w.dragStarts
        terminated := (Update w.g i r).terminated } := by
  simp [World.step, hterm]

/-- A press that is not the second click of a double click: the counter becomes 1, the
callback is scheduled for `now + 200`, and nothing else of the gesture state moves. -/
theorem step_first_press (w : World F) (i : Input) (r : Rand F)
    (hterm : w.terminated = false) (hp : plainPress i = true)
    (hfirst : 500 ≤ wrap64 (i.now - w.g.lastClickTime) ∨ w.g.clickCount = 0) :
    (w.step (Event.frame i r)).g.clickCount = 1 ∧
    (w.step (Event.frame i r)).g.lastClickTime = i.now ∧
    (w.step (Event.frame i r)).g.creepyMode = w.g.creepyMode ∧
    (w.step (Event.frame i r)).pending = w.pending ++ [i.now + 200] ∧
    (w.step (Event.frame i r)).dragStarts = w.dragStarts ∧
    (w.step (Event.frame i r)).terminated = false ∧
    (w.step (Event.frame i r)).g.dragging = (w.g.dragging && i.leftHeld) ∧
    (w.g.dragging = false → (w.step (Event.frame i r)).moves = w.moves) := by
  obtain ⟨he, hr, hl⟩ := (plainPress_iff i).1 hp
  obtain ⟨c1, c2, c3, c4, c5, c6, c7⟩ := freezeKey_gesture w.g i
  have hcont : leftPress (freezeKey w.g i) i.now =
      Flow.cont { freezeKey w.g i with clickCount := 1, lastClickTime := i.now } := by
    by_cases hlt : wrap64 (i.now - (freezeKey w.g i).lastClickTime) < 500
    · have h0 : w.g.clickCount = 0 := by
        rcases hfirst with h | h
        · rw [c6] at hlt; omega
        · exact h
      have hw1 : wrap64 ((freezeKey w.g i).clickCount + 1) = 1 := by
        rw [c7, h0]; exact wrap64_of_range _ (by omega) (by omega)
      rw [leftPress_count _ _ hlt (by rw [hw1]; omega), hw1]
    · exact leftPress_first _ _ (by omega)
  have hU : Update w.g i r =
      afterPress { freezeKey w.g i with clickCount := 1, lastClickTime := i.now } i r true := by
    rw [Update_left w.g i r he hr hl, hcont]
  obtain ⟨a1, _, _, _, _, _, a7, a8⟩ :=
    afterPress_gesture { freezeKey w.g i with clickCount := 1, lastClickTime := i.now } i r true
  obtain ⟨b1, b2, b3⟩ :=
    afterPress_flags { freezeKey w.g i with clickCount := 1, lastClickTime := i.now } i r true
  have hs := step_frame_live w i r hterm
  have e1 : (w.step (Event.frame i r)).g = (Update w.g i r).g := by rw [hs]
  have e2 : (w.step (Event.frame i r)).pending =
      if (Update w.g i r).scheduled = true then w.pending ++ [i.now + 200] else w.pending := by
    rw [hs]
  have e3 : (w.step (Event.frame i r)).dragStarts = w.dragStarts := by rw [hs]
  have e4 : (w.step (Event.frame i r)).terminated = (Update w.g i r).terminated := by rw [hs]
  have e5 : (w.step (Event.frame i r)).moves = w.moves ++ (Update w.g i r).move.toList := by
    rw [hs]
  rw [e1, e2, e3, e4, e5, hU, a1, a7, a8, b1, b2, b3, afterPress_creepyMode]
  refine ⟨rfl, rfl, freezeKey_creepyMode w.g i, rfl, rfl, rfl, ?_, ?_⟩
  · show ((freezeKey w.g i).dragging && i.leftHeld) = (w.g.dragging && i.leftHeld)
    rw [c1]
  · intro hd
    have hf : ((freezeKey w.g i).dragging && i.leftHeld) = false := by rw [c1, hd]; rfl
    have hf2 : (({ freezeKey w.g i with clickCount := 1, lastClickTime := i.now } :
        Game F).dragging && i.leftHeld) = false := hf
    rw [hf2]
    simp

/-- The second click of a double click: the mode is toggled, the counter returns to 0, and
the frame returns at line 99 without scheduling a callback or moving the window. -/
theorem step_second_press (w : World F) (i : Input) (r : Rand F)
    (hterm : w.terminated = false) (hp : plainPress i = true)
    (hc : w.g.clickCount = 1)
    (hlt : wrap64 (i.now - w.g.lastClickTime) < 500) :
    (w.step (Event.frame i r)).g.clickCount = 0 ∧
    (w.step (Event.frame i r)).g.creepyMode = (!w.g.creepyMode) ∧
    (w.step (Event.frame i r)).pending = w.pending ∧
    (w.step (Event.frame i r)).dragStarts = w.dragStarts ∧
    (w.step (Event.frame i r)).moves = w.moves ∧
    (w.step (Event.frame i r)).g.dragging = w.g.dragging := by
  obtain ⟨he, hr, hl⟩ := (plainPress_iff i).1 hp
  obtain ⟨c1, c2, c3, c4, c5, c6, c7⟩ := freezeKey_gesture w.g i
  have hw2 : (2 : Int) ≤ wrap64 ((freezeKey w.g i).clickCount + 1) := by
    rw [c7, hc, wrap64_of_range _ (by omega) (by omega)]; omega
  have hU := Update_left w.g i r he hr hl
  rw [leftPress_toggle _ _ (by rw [c6]; exact hlt) hw2] at hU
  rw [step_frame_live w i r hterm, hU]
  have hm := freezeKey_creepyMode w.g i
  cases hmm : w.g.creepyMode <;> rw [hmm] at hm <;> simp [hm, c1]

/-- C2 as stated fails, in three ways.  From the initial state: (a) presses at 0 ms and
300 ms, the callback of the first press running at 200 ms: the mode is toggled once, and the
callback has switched `dragging` on; (b) presses at 0, 100 and 200 ms: across the pair
(100, 200) the mode is toggled once, and the callback of the press at 200 ms, running at
400 ms, switches `dragging` on; (c) presses at 0, 50 and 100 ms: across the pair (0, 50) the
mode is toggled once, and the callback of the press at 0 ms, running at 200 ms after the
third press, switches `dragging` on. -/
theorem double_click_can_start_drag :
    (((World.init : World Fixed).run
        [Event.frame (Input.press 0 0 0) Rand.half, Event.timer 200 (0, 0) (50, 50),
          Event.frame (Input.press 300 0 0) Rand.half]).g.creepyMode = true ∧
      ((World.init : World Fixed).run
        [Event.frame (Input.press 0 0 0) Rand.half, Event.timer 200 (0, 0) (50, 50),
          Event.frame (Input.press 300 0 0) Rand.half]).dragStarts = 1 ∧
      ((World.init : World Fixed).run
        [Event.frame (Input.press 0 0 0) Rand.half,
          Event.timer 200 (0, 0) (50, 50)]).g.dragging = true) ∧
    (((World.init : World Fixed).run
        [Event.frame (Input.press 0 0 0) Rand.half]).g.creepyMode = false ∧
      ((World.init : World Fixed).run
        [Event.frame (Input.press 0 0 0) Rand.half, Event.frame (Input.press 100 0 0) Rand.half,
          Event.frame (Input.press 200 0 0) Rand.half]).g.creepyMode = true ∧
      ((World.init : World Fixed).run
        [Event.frame (Input.press 0 0 0) Rand.half, Event.frame (Input.press 100 0 0) Rand.half,
          Event.frame (Input.press 200 0 0) Rand.half, Event.timer 200 (0, 0) (50, 50),
          Event.timer 400 (0, 0) (50, 50)]).dragStarts = 1 ∧
      ((World.init : World Fixed).run
        [Event.frame (Input.press 0 0 0) Rand.half, Event.frame (Input.press 100 0 0) Rand.half,
          Event.frame (Input.press 200 0 0) Rand.half, Event.timer 200 (0, 0) (50, 50),
          Event.timer 400 (0, 0) (50, 50)]).g.dragging = true) ∧
    (((World.init : World Fixed).run
        [Event.frame (Input.press 0 0 0) Rand.half,
          Event.frame (Input.press 50 0 0) Rand.half]).g.creepyMode = true ∧
      ((World.init : World Fixed).run
        [Event.frame (Input.press 0 0 0) Rand.half, Event.frame (Input.press 50 0 0) Rand.half,
          Event.frame (Input.press 100 0 0) Rand.half]).dragStarts = 0 ∧
      ((World.init : World Fixed).run
        [Event.frame (Input.press 0 0 0) Rand.half, Event.frame (Input.press 50 0 0) Rand.half,
          Event.frame (Input.press 100 0 0) Rand.half,
          Event.timer 200 (0, 0) (50, 50)]).dragStarts = 1 ∧
      ((World.init : World Fixed).run
        [Event.frame (Input.press 0 0 0) Rand.half, Event.frame (Input.press 50 0 0) Rand.half,
          Event.frame (Input.press 100 0 0) Rand.half,
          Event.timer 200 (0, 0) (50, 50)]).g.dragging = true) := by
  decide

/-- A quick double click starts no drag: take two consecutive left-press frames at times
`t1 < t2` with `t2 - t1 < 200` ms, no right click or exit key on them, the first one not
itself the second click of a double click (it leaves the counter at 1), no callback pending
before the first press, no other press and no exit key in between, and no further press
afterwards.  Then `creepyMode` after the second press, and ever after, is the negation of
its value before the first press; no callback run switches `dragging` on (the one scheduled
by the first press runs after the second and finds the counter at 0, the second press
schedules none); `dragging` is true at the end only if it was before the first press; and
if it was not, no `SetWindowPosition` is requested. -/
theorem quick_double_click_no_drag (w : World F) (i1 i2 : Input) (r1 r2 : Rand F)
    (mid post : List (Event F))
    (hpend : w.pending = []) (hterm : w.terminated = false)
    (h1 : plainPress i1 = true) (h2 : plainPress i2 = true)
    (hfirst : 500 ≤ wrap64 (i1.now - w.g.lastClickTime) ∨ w.g.clickCount = 0)
    (ht : i1.now < i2.now) (hgap : i2.now - i1.now < 200)
    (hmid : ∀ e ∈ mid, betweenPresses i2.now e = true)
    (hpost : ∀ e ∈ post, noNewPress e = true) :
    (w.run ([Event.frame i1 r1] ++ mid ++ [Event.frame i2 r2])).g.creepyMode = (!w.g.creepyMode) ∧
    (w.run ([Event.frame i1 r1] ++ mid ++ [Event.frame i2 r2] ++ post)).g.creepyMode =
      (!w.g.creepyMode) ∧
    (w.run ([Event.frame i1 r1] ++ mid ++ [Event.frame i2 r2] ++ post)).dragStarts =
      w.dragStarts ∧
    ((w.run ([Event.frame i1 r1] ++ mid ++ [Event.frame i2 r2] ++ post)).g.dragging = true →
      w.g.dragging = true) ∧
    (w.g.dragging = false →
      (w.run ([Event.frame i1 r1] ++ mid ++ [Event.frame i2 r2] ++ post)).moves = w.moves) := by
  obtain ⟨a1, a2, a3, a4, a5, a6, a7, a8⟩ := step_first_press w i1 r1 hterm h1 hfirst
  rw [hpend] at a4
  obtain ⟨b, b2, b3⟩ :=
    calm_between i2.now (i1.now + 200) (by omega) mid (w.step (Event.frame i1 r1)) a4 a6 hmid
  obtain ⟨b1c, b1n, b1t, b1d, b1g, b1m⟩ := b
  have hlt : wrap64 (i2.now - ((w.step (Event.frame i1 r1)).run mid).g.lastClickTime) < 500 := by
    rw [b1t, a2, wrap64_of_range _ (by omega) (by omega)]; omega
  obtain ⟨c1, c2, c3, c4, c5, c6⟩ :=
    step_second_press ((w.step (Event.frame i1 r1)).run mid) i2 r2 b3 h2 (by rw [b1n, a1]) hlt
  have hrun2 : w.run ([Event.frame i1 r1] ++ mid ++ [Event.frame i2 r2]) =
      ((w.step (Event.frame i1 r1)).run mid).step (Event.frame i2 r2) := by
    rw [run_append, run_append, run_cons, run_nil, run_cons, run_nil]
  have hrun3 : w.run ([Event.frame i1 r1] ++ mid ++ [Event.frame i2 r2] ++ post) =
      (((w.step (Event.frame i1 r1)).run mid).step (Event.frame i2 r2)).run post := by
    rw [← hrun2, ← run_append]
  obtain ⟨d1, d2, d3, d4, d5, d6⟩ :=
    calm_after post (((w.step (Event.frame i1 r1)).run mid).step (Event.frame i2 r2))
      (by rw [c1]; decide) hpost
  have hdrag1 : (w.step (Event.frame i1 r1)).g.dragging = true → w.g.dragging = true := by
    rw [a7]; intro h; simp only [Bool.and_eq_true] at h; exact h.1
  have hmode : (((w.step (Event.frame i1 r1)).run mid).step (Event.frame i2 r2)).g.creepyMode =
      (!w.g.creepyMode) := by rw [c2, b1c, a3]
  rw [hrun2, hrun3]
  refine ⟨hmode, by rw [d1, hmode], by rw [d4, c4, b1d, a5], ?_, ?_⟩
  · intro h
    have h3 := d5 h
    rw [c6] at h3
    exact hdrag1 (b1g h3)
  · intro hd
    have hd1 : (w.step (Event.frame i1 r1)).g.dragging = false := by
      rw [a7, hd]; rfl
    have hd2 : ((w.step (Event.frame i1 r1)).run mid).g.dragging = false := by
      cases hx : ((w.step (Event.frame i1 r1)).run mid).g.dragging
      · rfl
      · rw [b1g hx] at hd1; exact absurd hd1 (by simp)
    rw [d6 (by rw [c6]; exact hd2), c5, b1m hd1, a8 hd]

end DoubleClick

/-! ## Dragging -/

section Drag

variable {F : Type} [Float32 F]

/-- A frame that arrives at line 116 runs `afterPress` on a state with the old drag flag and
anchors. -/
theorem Update_reaches (g : Game F) (i : Input) (r : Rand F)
    (hreach : reachesTracking g i = true) :
    ∃ (g1 : Game F) (s : Bool), Update g i r = afterPress g1 i r s ∧
      g1.dragging = g.dragging ∧ g1.dragStartX = g.dragStartX ∧
      g1.dragStartY = g.dragStartY ∧ g1.windowStartX = g.windowStartX ∧
      g1.windowStartY = g.windowStartY := by
  simp only [reachesTracking, Bool.and_eq_true, Bool.or_eq_true, Bool.not_eq_true'] at hreach
  obtain ⟨⟨he, hr⟩, hl⟩ := hreach
  obtain ⟨c1, c2, c3, c4, c5, _, _⟩ := freezeKey_gesture g i
  cases hlj : i.leftJust
  · exact ⟨freezeKey g i, false, Update_noPress g i r he hr hlj, c1, c2, c3, c4, c5⟩
  · rw [Update_left g i r he hr hlj]
    rcases hl with hl | hl
    · rw [hlj] at hl; exact absurd hl (by simp)
    · cases hp : leftPress (freezeKey g i) i.now with
      | ret g1 => rw [hp] at hl; exact absurd hl (by simp)
      | cont g1 =>
        have hc := (leftPress_cont _ _ _ hp).1
        refine ⟨g1, true, rfl, ?_, ?_, ?_, ?_, ?_⟩ <;> rw [hc] <;> assumption

/-- Events while the button stays down after the drag has started. -/
theorem held_after (es : List (Event F)) :
    ∀ v : World F, v.g.dragging = true → v.pending = [] → v.terminated = false →
      (∀ e ∈ es, whileHeld e = true) →
      (v.run es).g.dragging = true ∧
      (v.run es).g.dragStartX = v.g.dragStartX ∧
      (v.run es).g.dragStartY = v.g.dragStartY ∧
      (v.run es).g.windowStartX = v.g.windowStartX ∧
      (v.run es).g.windowStartY = v.g.windowStartY := by
  induction es with
  | nil => intro v hd _ _ _; exact ⟨hd, rfl, rfl, rfl, rfl⟩
  | cons e es ih =>
    intro v hd hp hterm hes
    have he := hes e (List.mem_cons_self _ _)
    have hrest : ∀ x ∈ es, whileHeld x = true :=
      fun x hx => hes x (List.mem_cons_of_mem _ hx)
    rw [run_cons]
    cases e with
    | frame i r =>
      simp only [whileHeld, Bool.and_eq_true, Bool.not_eq_true'] at he
      obtain ⟨⟨hl, hesc⟩, hheld⟩ := he
      obtain ⟨_, _, _, a4, a5, a6, a7, a8, _, _, _, a12, a13⟩ := step_frame_noLeft v i r hl
      obtain ⟨b1, b2, b3, b4, b5⟩ :=
        ih (v.step (Event.frame i r)) (by rw [a13 hesc hheld, hd]) (by rw [a8, hp])
          (a12 hesc hterm) hrest
      exact ⟨b1, b2.trans a4, b3.trans a5, b4.trans a6, b5.trans a7⟩
    | timer t c p =>
      have hs : v.step (Event.timer t c p) = v := by simp [World.step, hp]
      rw [hs]
      exact ih v hd hp hterm hrest

theorem step_timer_terminated (w : World F) (t : Int) (c p : Int × Int) :
    (w.step (Event.timer t c p)).terminated = w.terminated := by
  simp only [World.step]
  cases w.pending with
  | nil => rfl
  | cons d rest =>
    by_cases hd : d ≤ t
    · simp [hd]
    · simp [hd]

theorem heldBefore_between (d : Int) (e : Event F) (h : heldBefore d e = true) :
    betweenPresses d e = true := by
  cases e with
  | frame i r =>
    simp only [heldBefore, Bool.and_eq_true] at h
    simp only [betweenPresses, Bool.and_eq_true]
    exact h.1
  | timer t c p => exact h

/-- C4 as stated fails: from the initial state, a press at 1000 ms with the cursor at
`(10, 10)` and the callback running at 1200 ms with the window at `(100, 100)` start a drag
with these anchors; on a later frame with the button still held, the cursor at `(15, 12)`
and the right button just pressed, `Update` returns at line 81 and requests no window
position, where the claim has `(105, 102)`. -/
theorem drag_frame_with_right_click_requests_nothing :
    ((World.init : World Fixed).run
      [Event.frame (Input.press 1000 10 10) Rand.half,
        Event.timer 1200 (10, 10) (100, 100)]).g.dragging = true ∧
    ((World.init : World Fixed).run
      [Event.frame (Input.press 1000 10 10) Rand.half,
        Event.timer 1200 (10, 10) (100, 100)]).g.windowStartX = 100 ∧
    ((World.init : World Fixed).run
      [Event.frame (Input.press 1000 10 10) Rand.half,
        Event.timer 1200 (10, 10) (100, 100)]).g.dragStartX = 10 ∧
    (Update ((World.init : World Fixed).run
      [Event.frame (Input.press 1000 10 10) Rand.half,
        Event.timer 1200 (10, 10) (100, 100)]).g
      { escJust := false, fJust := false, rightJust := true, leftJust := false,
        leftHeld := true, now := 1216, cursorX := 15, cursorY := 12 } Rand.half).move ≠
      some (105, 102) := by
  decide

/-- C4 (amended): take a left press (no exit key, no right click) that leaves the click
counter at 1, made while no drag is active and no callback is pending, followed by frames
with the button held, no new press and no exit key.  When the deferred drag-start runs, 200
ms after the press or later, it sets `dragging` and records the cursor and window positions
it reads as the drag anchors; `dragging` and the anchors then stay as they are while the
button is held.  On every frame of a drag that arrives at line 116 (no exit key, no right
click, no mode switch) with the button held, the requested window position is
`(windowStartX + (cursorX - dragStartX), windowStartY + (cursorY - dragStartY))` in 64-bit
arithmetic, which is the exact value when nothing overflows.  On every frame that arrives at
line 116 with the button not held, `dragging` becomes false and no window position is
requested. -/
theorem drag_gesture (w : World F) (i1 : Input) (r1 : Rand F) (mid post : List (Event F))
    (t : Int) (c p : Int × Int)
    (hpend : w.pending = []) (hterm : w.terminated = false) (hdrag : w.g.dragging = false)
    (h1 : plainPress i1 = true)
    (hfirst : 500 ≤ wrap64 (i1.now - w.g.lastClickTime) ∨ w.g.clickCount = 0)
    (hmid : ∀ e ∈ mid, heldBefore (i1.now + 200) e = true)
    (hdue : i1.now + 200 ≤ t)
    (hpost : ∀ e ∈ post, whileHeld e = true) :
    ((w.run ([Event.frame i1 r1] ++ mid)).g.dragging = false ∧
      (w.run ([Event.frame i1 r1] ++ mid ++ [Event.timer t c p] ++ post)).g.dragging = true ∧
      (w.run ([Event.frame i1 r1] ++ mid ++ [Event.timer t c p] ++ post)).g.dragStartX = c.1 ∧
      (w.run ([Event.frame i1 r1] ++ mid ++ [Event.timer t c p] ++ post)).g.dragStartY = c.2 ∧
      (w.run ([Event.frame i1 r1] ++ mid ++ [Event.timer t c p] ++ post)).g.windowStartX = p.1 ∧
      (w.run ([Event.frame i1 r1] ++ mid ++ [Event.timer t c p] ++ post)).g.windowStartY = p.2) ∧
    (∀ (g : Game F) (i : Input) (r : Rand F),
      g.dragging = true → reachesTracking g i = true → i.leftHeld = true →
      (Update g i r).g.dragging = true ∧
      (Update g i r).move =
        some (wrap64 (g.windowStartX + wrap64 (i.cursorX - g.dragStartX)),
          wrap64 (g.windowStartY + wrap64 (i.cursorY - g.dragStartY))) ∧
      (wrap64 (i.cursorX - g.dragStartX) = i.cursorX - g.dragStartX →
        wrap64 (i.cursorY - g.dragStartY) = i.cursorY - g.dragStartY →
        wrap64 (g.windowStartX + (i.cursorX - g.dragStartX)) =
          g.windowStartX + (i.cursorX - g.dragStartX) →
        wrap64 (g.windowStartY + (i.cursorY - g.dragStartY)) =
          g.windowStartY + (i.cursorY - g.dragStartY) →
        (Update g i r).move =
          some (g.windowStartX + (i.cursorX - g.dragStartX),
            g.windowStartY + (i.cursorY - g.dragStartY)))) ∧
    (∀ (g : Game F) (i : Input) (r : Rand F),
      reachesTracking g i = true → i.leftHeld = false →
      (Update g i r).g.dragging = false ∧ (Update g i r).move = none) := by
  refine ⟨?_, ?_, ?_⟩
  · obtain ⟨a1, a2, a3, a4, a5, a6, a7, a8⟩ := step_first_press w i1 r1 hterm h1 hfirst
    rw [hpend] at a4
    have hd1 : (w.step (Event.frame i1 r1)).g.dragging = false := by rw [a7, hdrag]; rfl
    obtain ⟨b, b2, b3⟩ :=
      calm_between (i1.now + 200) (i1.now + 200) (le_refl _) mid (w.step (Event.frame i1 r1))
        a4 a6 (fun e he => heldBefore_between _ e (hmid e he))
    obtain ⟨_, b1n, _, _, b1g, _⟩ := b
    have hd2 : ((w.step (Event.frame i1 r1)).run mid).g.dragging = false := by
      cases hx : ((w.step (Event.frame i1 r1)).run mid).g.dragging
      · rfl
      · rw [b1g hx] at hd1; exact absurd hd1 (by simp)
    obtain ⟨f1, _, f3⟩ :=
      step_timer_fires ((w.step (Event.frame i1 r1)).run mid) t (i1.now + 200) c p [] b2 hdue
        (by rw [b1n, a1]) hd2
    have hterm3 : (((w.step (Event.frame i1 r1)).run mid).step (Event.timer t c p)).terminated =
        false := by
      rw [step_timer_terminated, b3]
    obtain ⟨g1, g2, g3, g4, g5⟩ :=
      held_after post (((w.step (Event.frame i1 r1)).run mid).step (Event.timer t c p))
        (by rw [f1]) f3 hterm3 hpost
    have hrunA : w.run ([Event.frame i1 r1] ++ mid) = (w.step (Event.frame i1 r1)).run mid := by
      rw [run_append, run_cons, run_nil]
    have hrunB : w.run ([Event.frame i1 r1] ++ mid ++ [Event.timer t c p] ++ post) =
        (((w.step (Event.frame i1 r1)).run mid).step (Event.timer t c p)).run post := by
      rw [run_append, run_append, hrunA, run_cons, run_nil]
    rw [hrunA, hrunB, g2, g3, g4, g5, f1]
    exact ⟨hd2, g1, rfl, rfl, rfl, rfl⟩
  · intro g i r hd hreach hheld
    obtain ⟨g1, s, hU, e1, e2, e3, e4, e5⟩ := Update_reaches g i r hreach
    obtain ⟨a1, _⟩ := afterPress_gesture g1 i r s
    obtain ⟨_, _, b3⟩ := afterPress_flags g1 i r s
    have hcond : (g1.dragging && i.leftHeld) = true := by rw [e1, hd, hheld]; rfl
    rw [hU, a1, b3, if_pos hcond, hcond, e2, e3, e4, e5]
    refine ⟨rfl, rfl, ?_⟩
    intro o1 o2 o3 o4
    rw [o1, o2, o3, o4]
  · intro g i r hreach hheld
    obtain ⟨g1, s, hU, e1, _⟩ := Update_reaches g i r hreach
    obtain ⟨a1, _⟩ := afterPress_gesture g1 i r s
    obtain ⟨_, _, b3⟩ := afterPress_flags g1 i r s
    have hcond : (g1.dragging && i.leftHeld) = false := by rw [hheld]; simp
    rw [hU, a1, b3, hcond]
    exact ⟨rfl, rfl⟩

/-- Instance of `drag_gesture`: a press at 1000 ms held down, the callback running at 1200
ms, and frames of the resulting drag. -/
theorem drag_gesture_witness :
    ((World.init : World Fixed).run
      ([Event.frame (Input.press 1000 10 10) Rand.half] ++
        [Event.frame (Input.hold 1016 10 10) Rand.half, Event.timer 1100 (0, 0) (0, 0)] ++
        [Event.timer 1200 (10, 10) (100, 100)] ++
        [Event.frame (Input.hold 1216 12 10) Rand.half])).g.dragging = true ∧
    ((World.init : World Fixed).run
      ([Event.frame (Input.press 1000 10 10) Rand.half] ++
        [Event.frame (Input.hold 1016 10 10) Rand.half, Event.timer 1100 (0, 0) (0, 0)] ++
        [Event.timer 1200 (10, 10) (100, 100)] ++
        [Event.frame (Input.hold 1216 12 10) Rand.half])).g.windowStartX = 100 ∧
    (Update dragSample (Input.hold 1232 15 12) Rand.half).move =
      some (dragSample.windowStartX + ((Input.hold 1232 15 12).cursorX - dragSample.dragStartX),
        dragSample.windowStartY + ((Input.hold 1232 15 12).cursorY - dragSample.dragStartY)) ∧
    (Update dragSample (Input.idle 1300 15 12) Rand.half).g.dragging = false ∧
    (Update dragSample (Input.idle 1300 15 12) Rand.half).move = none :=
  have h := drag_gesture (World.init : World Fixed) (Input.press 1000 10 10) Rand.half
    [Event.frame (Input.hold 1016 10 10) Rand.half, Event.timer 1100 (0, 0) (0, 0)]
    [Event.frame (Input.hold 1216 12 10) Rand.half] 1200 (10, 10) (100, 100)
    rfl rfl rfl rfl (Or.inl (by decide))
    (by
      intro e he
      simp only [List.mem_cons, List.mem_singleton, List.not_mem_nil, or_false] at he
      rcases he with he | he <;> subst he <;> rfl)
    (by decide)
    (by intro e he; simp only [List.mem_singleton] at he; subst he; rfl)
  ⟨h.1.2.1, h.1.2.2.2.2.1,
    (h.2.1 dragSample (Input.hold 1232 15 12) Rand.half rfl rfl rfl).2.2
      (by decide) (by decide) (by decide) (by decide),
    (h.2.2 dragSample (Input.idle 1300 15 12) Rand.half rfl rfl).1,
    (h.2.2 dragSample (Input.idle 1300 15 12) Rand.half rfl rfl).2⟩

end Drag

section DoubleClickWindow

variable {F : Type} [Float32 F]

/-- A timer event leaves the mode and the click bookkeeping alone. -/
theorem step_timer_click (w : World F) (t : Int) (c p : Int × Int) :
    (w.step (Event.timer t c p)).g.creepyMode = w.g.creepyMode ∧
    (w.step (Event.timer t c p)).g.clickCount = w.g.clickCount ∧
    (w.step (Event.timer t c p)).g.lastClickTime = w.g.lastClickTime := by
  simp only [World.step]
  cases w.pending with
  | nil => exact ⟨rfl, rfl, rfl⟩
  | cons d rest =>
    by_cases hd : d ≤ t
    · simp only [hd, if_true, dragStartCallback]
      split_ifs <;> exact ⟨rfl, rfl, rfl⟩
    · simp [hd]

/-- Quiet events keep the mode, the click counter, the last click time and the host loop
running. -/
theorem quiet_run (es : List (Event F)) :
    ∀ v : World F, v.terminated = false → (∀ e ∈ es, quietEvent e = true) →
      (v.run es).g.creepyMode = v.g.creepyMode ∧
      (v.run es).g.clickCount = v.g.clickCount ∧
      (v.run es).g.lastClickTime = v.g.lastClickTime ∧
      (v.run es).terminated = false := by
  induction es with
  | nil => intro v hterm _; exact ⟨rfl, rfl, rfl, hterm⟩
  | cons e es ih =>
    intro v hterm hes
    have he := hes e (List.mem_cons_self _ _)
    have hrest : ∀ x ∈ es, quietEvent x = true :=
      fun x hx => hes x (List.mem_cons_of_mem _ hx)
    rw [run_cons]
    cases e with
    | frame i r =>
      simp only [quietEvent, Bool.and_eq_true, Bool.not_eq_true'] at he
      obtain ⟨a1, a2, a3, _, _, _, _, _, _, _, _, a12, _⟩ := step_frame_noLeft v i r he.1
      obtain ⟨b1, b2, b3, b4⟩ := ih (v.step (Event.frame i r)) (a12 he.2 hterm) hrest
      exact ⟨b1.trans a1, b2.trans a2, b3.trans a3, b4⟩
    | timer t c p =>
      obtain ⟨a1, a2, a3⟩ := step_timer_click v t c p
      obtain ⟨b1, b2, b3, b4⟩ :=
        ih (v.step (Event.timer t c p)) (by rw [step_timer_terminated]; exact hterm) hrest
      exact ⟨b1.trans a1, b2.trans a2, b3.trans a3, b4⟩

/-- A press inside the window that brings the counter to 2 or more: the mode is toggled,
the counter returns to 0 and `lastClickTime` keeps its value (return at line 99). -/
theorem step_toggle_press (w : World F) (i : Input) (r : Rand F)
    (hterm : w.terminated = false) (hp : plainPress i = true)
    (hlt : wrap64 (i.now - w.g.lastClickTime) < 500)
    (hc : 2 ≤ wrap64 (w.g.clickCount + 1)) :
    (w.step (Event.frame i r)).g.clickCount = 0 ∧
    (w.step (Event.frame i r)).g.creepyMode = (!w.g.creepyMode) ∧
    (w.step (Event.frame i r)).g.lastClickTime = w.g.lastClickTime ∧
    (w.step (Event.frame i r)).terminated = false := by
  obtain ⟨he, hr, hl⟩ := (plainPress_iff i).1 hp
  obtain ⟨c1, c2, c3, c4, c5, c6, c7⟩ := freezeKey_gesture w.g i
  have hU := Update_left w.g i r he hr hl
  rw [leftPress_toggle _ _ (by rw [c6]; exact hlt) (by rw [c7]; exact hc)] at hU
  rw [step_frame_live w i r hterm, hU]
  have hm := freezeKey_creepyMode w.g i
  cases hmm : w.g.creepyMode <;> rw [hmm] at hm <;> simp [hm, c6]

/-- Over two consecutive presses less than 500 ms apart the mode is toggled exactly once:
by the first press when it is itself the second click of a double click, by the second
press otherwise. -/
theorem toggle_within_500 (w : World F) (i1 i2 : Input) (r1 r2 : Rand F)
    (mid : List (Event F))
    (hterm : w.terminated = false)
    (h1 : plainPress i1 = true) (h2 : plainPress i2 = true)
    (ht : i1.now < i2.now) (hgap : i2.now - i1.now < 500)
    (hcount : 500 ≤ wrap64 (i1.now - w.g.lastClickTime) ∨
      (0 ≤ w.g.clickCount ∧ w.g.clickCount < 9223372036854775807))
    (hmid : ∀ e ∈ mid, quietEvent e = true) :
    (w.run ([Event.frame i1 r1] ++ mid ++ [Event.frame i2 r2])).g.creepyMode =
      (!w.g.creepyMode) := by
  have hrun : w.run ([Event.frame i1 r1] ++ mid ++ [Event.frame i2 r2]) =
      ((w.step (Event.frame i1 r1)).run mid).step (Event.frame i2 r2) := by
    rw [run_append, run_append, run_cons, run_nil, run_cons, run_nil]
  rw [hrun]
  by_cases hfirst : 500 ≤ wrap64 (i1.now - w.g.lastClickTime) ∨ w.g.clickCount = 0
  · -- the first press leaves the counter at 1, the second one toggles
    obtain ⟨a1, a2, a3, _, _, a6, _, _⟩ := step_first_press w i1 r1 hterm h1 hfirst
    obtain ⟨b1, b2, b3, b4⟩ := quiet_run mid (w.step (Event.frame i1 r1)) a6 hmid
    obtain ⟨_, c2, _, _⟩ :=
      step_toggle_press ((w.step (Event.frame i1 r1)).run mid) i2 r2 b4 h2
        (by rw [b3, a2, wrap64_of_range _ (by omega) (by omega)]; omega)
        (by rw [b2, a1, wrap64_of_range _ (by omega) (by omega)]; omega)
    rw [c2, b1, a3]
  · -- the first press is the second click of a double click and toggles itself
    have hlt : wrap64 (i1.now - w.g.lastClickTime) < 500 := by
      by_contra h; exact hfirst (Or.inl (by omega))
    have hc0 : w.g.clickCount ≠ 0 := fun h => hfirst (Or.inr h)
    have hrange : 0 ≤ w.g.clickCount ∧ w.g.clickCount < 9223372036854775807 := by
      rcases hcount with h | h
      · omega
      · exact h
    have hc : 2 ≤ wrap64 (w.g.clickCount + 1) := by
      rw [wrap64_of_range _ (by omega) (by omega)]; omega
    obtain ⟨a1, a2, _, a4⟩ := step_toggle_press w i1 r1 hterm h1 hlt hc
    obtain ⟨b1, b2, b3, b4⟩ := quiet_run mid (w.step (Event.frame i1 r1)) a4 hmid
    obtain ⟨_, _, c3, _, _, _, _, _⟩ :=
      step_first_press ((w.step (Event.frame i1 r1)).run mid) i2 r2 b4 h2
        (Or.inr (by rw [b2, a1]))
    rw [c3, b1, a2]

/-- C2 (amended): take two consecutive left-press frames at times `t1 < t2` with
`t2 - t1 < 500` ms, no right click or exit key on them, no other press and no exit key in
between, the click counter before the first press being 0 or more (or the first press
falling outside the window of the click before it).  Then `creepyMode` after the second
press is the negation of its value before the first press: the mode is toggled exactly once
over the pair.  If moreover `t2 - t1 < 200` ms, the first press is not itself the second
click of a double click (it leaves the counter at 1), no callback is pending before the
first press, the callback of the first press does not run before the second press, and no
further press follows, then no callback run switches `dragging` on (the one scheduled by the
first press finds the counter at 0, the second press schedules none), `dragging` is true at
the end only if it was before the first press, and if it was not, no `SetWindowPosition` is
requested. -/
theorem double_click_toggles_without_drag (w : World F) (i1 i2 : Input) (r1 r2 : Rand F)
    (mid post : List (Event F))
    (hterm : w.terminated = false)
    (h1 : plainPress i1 = true) (h2 : plainPress i2 = true)
    (ht : i1.now < i2.now) (hgap : i2.now - i1.now < 500)
    (hcount : 500 ≤ wrap64 (i1.now - w.g.lastClickTime) ∨
      (0 ≤ w.g.clickCount ∧ w.g.clickCount < 9223372036854775807))
    (hmid : ∀ e ∈ mid, quietEvent e = true) :
    (w.run ([Event.frame i1 r1] ++ mid ++ [Event.frame i2 r2])).g.creepyMode =
      (!w.g.creepyMode) ∧
    (w.pending = [] →
      (500 ≤ wrap64 (i1.now - w.g.lastClickTime) ∨ w.g.clickCount = 0) →
      i2.now - i1.now < 200 →
      (∀ e ∈ mid, betweenPresses i2.now e = true) →
      (∀ e ∈ post, noNewPress e = true) →
      (w.run ([Event.frame i1 r1] ++ mid ++ [Event.frame i2 r2] ++ post)).g.creepyMode =
        (!w.g.creepyMode) ∧
      (w.run ([Event.frame i1 r1] ++ mid ++ [Event.frame i2 r2] ++ post)).dragStarts =
        w.dragStarts ∧
      ((w.run ([Event.frame i1 r1] ++ mid ++ [Event.frame i2 r2] ++ post)).g.dragging = true →
        w.g.dragging = true) ∧
      (w.g.dragging = false →
        (w.run ([Event.frame i1 r1] ++ mid ++ [Event.frame i2 r2] ++ post)).moves =
          w.moves)) := by
  refine ⟨toggle_within_500 w i1 i2 r1 r2 mid hterm h1 h2 ht hgap hcount hmid, ?_⟩
  intro hpend hfirst hquick hbetween hpost
  exact (quick_double_click_no_drag w i1 i2 r1 r2 mid post hpend hterm h1 h2 hfirst ht
    hquick hbetween hpost).2

/-- Instance of `double_click_toggles_without_drag`: from the initial state, presses at 0 ms
and 100 ms, the callback running at 200 ms. -/
theorem double_click_toggles_without_drag_witness :
    ((World.init : World Fixed).run
      ([Event.frame (Input.press 0 0 0) Rand.half] ++
        [Event.frame (Input.idle 16 0 0) Rand.half] ++
        [Event.frame (Input.press 100 0 0) Rand.half])).g.creepyMode =
      (!(World.init : World Fixed).g.creepyMode) ∧
    ((World.init : World Fixed).run
      ([Event.frame (Input.press 0 0 0) Rand.half] ++
        [Event.frame (Input.idle 16 0 0) Rand.half] ++
        [Event.frame (Input.press 100 0 0) Rand.half] ++
        [Event.frame (Input.idle 116 0 0) Rand.half,
          Event.timer 200 (0, 0) (50, 50)])).g.creepyMode =
      (!(World.init : World Fixed).g.creepyMode) ∧
    ((World.init : World Fixed).run
      ([Event.frame (Input.press 0 0 0) Rand.half] ++
        [Event.frame (Input.idle 16 0 0) Rand.half] ++
        [Event.frame (Input.press 100 0 0) Rand.half] ++
        [Event.frame (Input.idle 116 0 0) Rand.half,
          Event.timer 200 (0, 0) (50, 50)])).dragStarts =
      (World.init : World Fixed).dragStarts ∧
    (((World.init : World Fixed).run
      ([Event.frame (Input.press 0 0 0) Rand.half] ++
        [Event.frame (Input.idle 16 0 0) Rand.half] ++
        [Event.frame (Input.press 100 0 0) Rand.half] ++
        [Event.frame (Input.idle 116 0 0) Rand.half,
          Event.timer 200 (0, 0) (50, 50)])).g.dragging = true →
      (World.init : World Fixed).g.dragging = true) ∧
    ((World.init : World Fixed).g.dragging = false →
      ((World.init : World Fixed).run
        ([Event.frame (Input.press 0 0 0) Rand.half] ++
          [Event.frame (Input.idle 16 0 0) Rand.half] ++
          [Event.frame (Input.press 100 0 0) Rand.half] ++
          [Event.frame (Input.idle 116 0 0) Rand.half,
            Event.timer 200 (0, 0) (50, 50)])).moves =
        (World.init : World Fixed).moves) :=
  have h := double_click_toggles_without_drag (World.init : World Fixed) (Input.press 0 0 0)
    (Input.press 100 0 0) Rand.half Rand.half [Event.frame (Input.idle 16 0 0) Rand.half]
    [Event.frame (Input.idle 116 0 0) Rand.half, Event.timer 200 (0, 0) (50, 50)]
    rfl rfl rfl (by decide) (by decide) (Or.inr (by decide))
    (by intro e he; simp only [List.mem_singleton] at he; subst he; rfl)
  ⟨h.1,
    h.2 rfl (Or.inr rfl) (by decide)
      (by intro e he; simp only [List.mem_singleton] at he; subst he; rfl)
      (by
        intro e he
        simp only [List.mem_cons, List.mem_singleton, List.not_mem_nil, or_false] at he
        rcases he with he | he <;> subst he <;> rfl)⟩

end DoubleClickWindow

/-! ## Rounding: basic facts -/

section Rounding

theorem roundNE_cases (y : ℚ) : roundNE y = ⌊y⌋ ∨ roundNE y = ⌊y⌋ + 1 := by
  unfold roundNE
  split_ifs <;> simp

theorem roundNE_error (y : ℚ) : |((roundNE y : ℤ) : ℚ) - y| ≤ 1 / 2 := by
  have h1 := Int.floor_le y
  have h2 := Int.lt_floor_add_one y
  unfold roundNE
  split_ifs with a b c
  · rw [abs_le]; constructor <;> linarith
  · rw [abs_le]; push_cast; constructor <;> linarith
  · rw [abs_le]; constructor <;> linarith
  · rw [abs_le]; push_cast; constructor <;> linarith

theorem roundNE_eq_of_near (y : ℚ) (z : ℤ) (h : |y - z| < 1 / 2) : roundNE y = z := by
  rw [abs_lt] at h
  have e := roundNE_error y
  rw [abs_le] at e
  have h3 : ((roundNE y : ℤ) : ℚ) - z < 1 := by linarith
  have h4 : (-1 : ℚ) < ((roundNE y : ℤ) : ℚ) - z := by linarith
  have h5 : roundNE y - z < 1 := by exact_mod_cast h3
  have h6 : -1 < roundNE y - z := by exact_mod_cast h4
  omega

theorem roundNE_intCast (z : ℤ) : roundNE (z : ℚ) = z :=
  roundNE_eq_of_near _ z (by simp)

theorem roundNE_le_of_le (y : ℚ) (z : ℤ) (h : y ≤ z) : roundNE y ≤ z := by
  have hf : ⌊y⌋ ≤ z := by
    have h1 : ((⌊y⌋ : ℤ) : ℚ) ≤ z := le_trans (Int.floor_le y) h
    exact_mod_cast h1
  rcases lt_or_eq_of_le hf with hlt | heq
  · rcases roundNE_cases y with e | e <;> omega
  · have hy : y = z := le_antisymm h (by rw [← heq]; exact Int.floor_le y)
    rw [hy, roundNE_intCast]

theorem le_roundNE_of_le (y : ℚ) (z : ℤ) (h : (z : ℚ) ≤ y) : z ≤ roundNE y := by
  have hf : z ≤ ⌊y⌋ := Int.le_floor.mpr h
  rcases roundNE_cases y with e | e <;> omega

theorem ulp_pos (p : ℕ) (qmin : ℤ) (x : ℚ) : (0 : ℚ) < 2 ^ ulpExp p qmin x :=
  zpow_pos (by norm_num) _

theorem roundTo_error_ulp (p : ℕ) (qmin : ℤ) (x : ℚ) :
    |roundTo p qmin x - x| ≤ 2 ^ ulpExp p qmin x / 2 := by
  have hQ := ulp_pos p qmin x
  have h := roundNE_error (x / 2 ^ ulpExp p qmin x)
  have e : roundTo p qmin x - x =
      (((roundNE (x / 2 ^ ulpExp p qmin x) : ℤ) : ℚ) - x / 2 ^ ulpExp p qmin x) *
        2 ^ ulpExp p qmin x := by
    unfold roundTo
    field_simp
  rw [e, abs_mul, abs_of_pos hQ]
  calc |((roundNE (x / 2 ^ ulpExp p qmin x) : ℤ) : ℚ) - x / 2 ^ ulpExp p qmin x| *
        2 ^ ulpExp p qmin x
      ≤ 1 / 2 * 2 ^ ulpExp p qmin x := mul_le_mul_of_nonneg_right h hQ.le
    _ = 2 ^ ulpExp p qmin x / 2 := by ring

theorem roundTo_zero (p : ℕ) (qmin : ℤ) : roundTo p qmin 0 = 0 := by
  unfold roundTo
  rw [zero_div]
  have : roundNE (0 : ℚ) = 0 := by simpa using roundNE_intCast 0
  rw [this]
  simp

theorem roundTo_nonneg (p : ℕ) (qmin : ℤ) (x : ℚ) (h : 0 ≤ x) : 0 ≤ roundTo p qmin x := by
  have hQ := ulp_pos p qmin x
  unfold roundTo
  have h1 : (0 : ℤ) ≤ roundNE (x / 2 ^ ulpExp p qmin x) :=
    le_roundNE_of_le _ 0 (by simpa using div_nonneg h hQ.le)
  have h2 : (0 : ℚ) ≤ ((roundNE (x / 2 ^ ulpExp p qmin x) : ℤ) : ℚ) := by exact_mod_cast h1
  exact mul_nonneg h2 hQ.le

/-- Rounding to binary32 is within a relative error of `2^-24`, up to `2^-150` in the
subnormal range. -/
theorem r32_error (x : ℚ) : |r32 x - x| ≤ |x| / 2 ^ 24 + 1 / 2 ^ 150 := by
  by_cases hx : x = 0
  · subst hx
    unfold r32
    rw [roundTo_zero]
    norm_num
  have h := roundTo_error_ulp 24 (-149) x
  have hpos : 0 < |x| := abs_pos.mpr hx
  have hlog : (2 : ℚ) ^ Int.log 2 |x| ≤ |x| := by
    have := Int.zpow_log_le_self (b := 2) (by norm_num) hpos
    simpa using this
  unfold r32
  refine le_trans h ?_
  unfold ulpExp
  rcases le_total (Int.log 2 |x| - ((24 : ℕ) - 1)) (-149) with hc | hc
  · rw [max_eq_right hc]
    have : (2 : ℚ) ^ (-149 : ℤ) / 2 = 1 / 2 ^ 150 := by norm_num [zpow_neg]
    rw [this]
    have : 0 ≤ |x| / 2 ^ 24 := by positivity
    linarith
  · rw [max_eq_left hc]
    have e : (2 : ℚ) ^ (Int.log 2 |x| - ((24 : ℕ) - 1)) / 2 = 2 ^ Int.log 2 |x| / 2 ^ 24 := by
      rw [zpow_sub₀ (by norm_num)]
      norm_num
      ring
    rw [e]
    have h1 : (2 : ℚ) ^ Int.log 2 |x| / 2 ^ 24 ≤ |x| / 2 ^ 24 :=
      div_le_div_of_nonneg_right hlog (by positivity)
    have : (0 : ℚ) ≤ 1 / 2 ^ 150 := by positivity
    linarith

theorem r32_zero : r32 0 = 0 := roundTo_zero 24 (-149)

theorem r32_nonneg (x : ℚ) (h : 0 ≤ x) : 0 ≤ r32 x := roundTo_nonneg 24 (-149) x h

theorem r32_abs_le (x : ℚ) : |r32 x| ≤ |x| * (1 + 1 / 2 ^ 24) + 1 / 2 ^ 150 := by
  have h := r32_error x
  have h2 : |r32 x| ≤ |r32 x - x| + |x| := by
    have := abs_add (r32 x - x) x
    simpa using this
  linarith

/-- Inside the exponent range rounding yields a finite value. -/
theorem fl32_fin (x : ℚ) (h : |x| ≤ 2 ^ 100) : fl32 x = IEEE.fin (r32 x) := by
  have h1 := r32_abs_le x
  have h2 : |r32 x| < 2 ^ 128 := by
    have : |x| * (1 + 1 / 2 ^ 24) + 1 / 2 ^ 150 ≤ 2 ^ 100 * (1 + 1 / 2 ^ 24) + 1 / 2 ^ 150 := by
      have : |x| * (1 + 1 / 2 ^ 24) ≤ 2 ^ 100 * (1 + 1 / 2 ^ 24) :=
        mul_le_mul_of_nonneg_right h (by positivity)
      linarith
    have h3 : (2 : ℚ) ^ 100 * (1 + 1 / 2 ^ 24) + 1 / 2 ^ 150 < 2 ^ 128 := by norm_num
    linarith
  unfold fl32
  rw [if_neg (not_le.mpr h2)]

end Rounding

/-! ## The correctly rounded square root -/

section SqrtRound

/-- The integer square root brackets the root of the scaled argument. -/
theorem sqrt_floor_bracket (y : ℚ) (hy : 0 ≤ y) :
    ((Nat.sqrt ⌊y⌋₊ : ℕ) : ℚ) ^ 2 ≤ y ∧ y < ((Nat.sqrt ⌊y⌋₊ : ℕ) + 1 : ℚ) ^ 2 := by
  have h1 : (Nat.sqrt ⌊y⌋₊) ^ 2 ≤ ⌊y⌋₊ := Nat.sqrt_le' _
  have h2 : ⌊y⌋₊ < (Nat.sqrt ⌊y⌋₊ + 1) ^ 2 := Nat.lt_succ_sqrt' _
  have h3 : ((⌊y⌋₊ : ℕ) : ℚ) ≤ y := Nat.floor_le hy
  have h4 : y < ((⌊y⌋₊ : ℕ) : ℚ) + 1 := Nat.lt_floor_add_one y
  constructor
  · have : (((Nat.sqrt ⌊y⌋₊) ^ 2 : ℕ) : ℚ) ≤ ((⌊y⌋₊ : ℕ) : ℚ) := by exact_mod_cast h1
    push_cast at this
    linarith
  · have : ((⌊y⌋₊ : ℕ) : ℚ) + 1 ≤ (((Nat.sqrt ⌊y⌋₊ + 1) ^ 2 : ℕ) : ℚ) := by exact_mod_cast h2
    push_cast at this
    linarith

theorem sqrtQuantum_pos (p : ℕ) (x : ℚ) : 0 < sqrtQuantum p x :=
  zpow_pos (by norm_num) _

/-- `sqrtDigits` times the quantum brackets `√x`. -/
theorem sqrtDigits_bracket (p : ℕ) (x : ℚ) (hx : 0 ≤ x) :
    ((sqrtDigits p x : ℚ) * sqrtQuantum p x) ^ 2 ≤ x ∧
    x < (((sqrtDigits p x : ℚ) + 1) * sqrtQuantum p x) ^ 2 := by
  have hq := sqrtQuantum_pos p x
  have hqq : 0 < sqrtQuantum p x * sqrtQuantum p x := mul_pos hq hq
  obtain ⟨h1, h2⟩ := sqrt_floor_bracket (x / (sqrtQuantum p x * sqrtQuantum p x))
    (div_nonneg hx hqq.le)
  rw [le_div_iff₀ hqq] at h1
  rw [div_lt_iff₀ hqq] at h2
  unfold sqrtDigits
  constructor
  · calc _ = _ := by ring
      _ ≤ x := h1
  · calc x < _ := h2
      _ = _ := by ring

/-- The two possible values of the rounded root. -/
theorem sqrtRound_cases (p : ℕ) (x : ℚ) :
    (sqrtRound p x = sqrtDigits p x * sqrtQuantum p x ∧
      x ≤ (((sqrtDigits p x : ℚ) + 1 / 2) * sqrtQuantum p x) ^ 2) ∨
    (sqrtRound p x = ((sqrtDigits p x : ℚ) + 1) * sqrtQuantum p x ∧
      (((sqrtDigits p x : ℚ) + 1 / 2) * sqrtQuantum p x) ^ 2 ≤ x) := by
  simp only [sqrtRound]
  split_ifs with h1 h2 h3
  · left; exact ⟨rfl, by rw [pow_two]; exact h1.le⟩
  · right; exact ⟨rfl, by rw [pow_two]; exact h2.le⟩
  · left; exact ⟨rfl, by rw [pow_two]; exact not_lt.mp h2⟩
  · right; exact ⟨rfl, by rw [pow_two]; exact not_lt.mp h1⟩

/-- For positive `x` the rounded root has at least `2^52` units of its quantum. -/
theorem sqrtDigits_large (x : ℚ) (hx : 0 < x) : (2 : ℚ) ^ 52 ≤ sqrtDigits 53 x := by
  have hq := sqrtQuantum_pos 53 x
  have hlog : (2 : ℚ) ^ Int.log 2 x ≤ x := by
    have := Int.zpow_log_le_self (b := 2) (by norm_num) hx
    simpa using this
  have he : (2 : ℚ) ^ (2 * (Int.log 2 x / 2)) ≤ 2 ^ Int.log 2 x :=
    zpow_le_zpow_right₀ (by norm_num) (by omega)
  have hq2 : sqrtQuantum 53 x * sqrtQuantum 53 x * (2 ^ 52) ^ 2 = 2 ^ (2 * (Int.log 2 x / 2)) := by
    unfold sqrtQuantum
    rw [← zpow_add₀ (by norm_num : (2 : ℚ) ≠ 0)]
    have : ((2 : ℚ) ^ 52) ^ 2 = (2 : ℚ) ^ (104 : ℤ) := by norm_num
    rw [this, ← zpow_add₀ (by norm_num : (2 : ℚ) ≠ 0)]
    congr 1
    push_cast
    ring
  have h1 : ((2 ^ 52 : ℕ) : ℚ) ^ 2 ≤ x / (sqrtQuantum 53 x * sqrtQuantum 53 x) := by
    rw [le_div_iff₀ (mul_pos hq hq)]
    push_cast
    calc ((2 : ℚ) ^ 52) ^ 2 * (sqrtQuantum 53 x * sqrtQuantum 53 x)
        = sqrtQuantum 53 x * sqrtQuantum 53 x * (2 ^ 52) ^ 2 := by ring
      _ = 2 ^ (2 * (Int.log 2 x / 2)) := hq2
      _ ≤ x := le_trans he hlog
  have h2 : (2 ^ 52) ^ 2 ≤ ⌊x / (sqrtQuantum 53 x * sqrtQuantum 53 x)⌋₊ := by
    apply Nat.le_floor
    exact_mod_cast h1
  have h3 : 2 ^ 52 ≤ sqrtDigits 53 x := Nat.le_sqrt'.mpr h2
  exact_mod_cast h3

theorem sqrtRound_zero : sqrtRound 53 0 = 0 := by
  have hq := sqrtQuantum_pos 53 0
  have hb := (sqrtDigits_bracket 53 0 le_rfl).1
  have hn : (0 : ℚ) ≤ sqrtDigits 53 0 := Nat.cast_nonneg _
  rcases sqrtRound_cases 53 0 with ⟨e, _⟩ | ⟨_, h⟩
  · rw [e]
    have : (sqrtDigits 53 0 : ℚ) * sqrtQuantum 53 0 = 0 := by
      have h0 : ((sqrtDigits 53 0 : ℚ) * sqrtQuantum 53 0) ^ 2 = 0 :=
        le_antisymm hb (sq_nonneg _)
      exact pow_eq_zero_iff (by norm_num) |>.mp h0
    exact this
  · exfalso
    have hpos : 0 < ((sqrtDigits 53 0 : ℚ) + 1 / 2) * sqrtQuantum 53 0 := by positivity
    have : 0 < (((sqrtDigits 53 0 : ℚ) + 1 / 2) * sqrtQuantum 53 0) ^ 2 := by positivity
    linarith

/-- The rounded root is within a relative error of `2^-53` of `√x`, stated on squares. -/
theorem sqrtRound_bounds (x : ℚ) (hx : 0 ≤ x) :
    0 ≤ sqrtRound 53 x ∧
    x ≤ (sqrtRound 53 x * (1 + 1 / 2 ^ 53)) ^ 2 ∧
    (sqrtRound 53 x * (1 - 1 / 2 ^ 53)) ^ 2 ≤ x := by
  rcases eq_or_lt_of_le hx with h0 | hpos
  · rw [← h0, sqrtRound_zero]
    norm_num
  have hq := sqrtQuantum_pos 53 x
  have hn := sqrtDigits_large x hpos
  obtain ⟨b1, b2⟩ := sqrtDigits_bracket 53 x hx
  have hn0 : (0 : ℚ) ≤ sqrtDigits 53 x := Nat.cast_nonneg _
  have hnq : 0 ≤ (sqrtDigits 53 x : ℚ) * sqrtQuantum 53 x := mul_nonneg hn0 hq.le
  have hv : (sqrtQuantum 53 x) / 2 ≤ (sqrtDigits 53 x : ℚ) * sqrtQuantum 53 x * (1 / 2 ^ 53) := by
    have : sqrtQuantum 53 x * 2 ^ 52 ≤ sqrtQuantum 53 x * (sqrtDigits 53 x : ℚ) :=
      mul_le_mul_of_nonneg_left hn hq.le
    have e1 : sqrtQuantum 53 x / 2 = sqrtQuantum 53 x * 2 ^ 52 * (1 / 2 ^ 53) := by
      norm_num
      ring
    rw [e1]
    have : sqrtQuantum 53 x * 2 ^ 52 * (1 / 2 ^ 53) ≤
        sqrtQuantum 53 x * (sqrtDigits 53 x : ℚ) * (1 / 2 ^ 53) :=
      mul_le_mul_of_nonneg_right this (by positivity)
    linarith
  rcases sqrtRound_cases 53 x with ⟨e, h⟩ | ⟨e, h⟩
  · rw [e]
    refine ⟨hnq, ?_, ?_⟩
    · refine le_trans h ?_
      apply pow_le_pow_left₀ (by positivity)
      linarith
    · refine le_trans ?_ b1
      apply pow_le_pow_left₀
      · apply mul_nonneg hnq; norm_num
      · have : (sqrtDigits 53 x : ℚ) * sqrtQuantum 53 x * (1 / 2 ^ 53) ≥ 0 := by positivity
        linarith
  · rw [e]
    have hr : 0 ≤ ((sqrtDigits 53 x : ℚ) + 1) * sqrtQuantum 53 x := by positivity
    refine ⟨hr, ?_, ?_⟩
    · refine le_trans b2.le ?_
      apply pow_le_pow_left₀ hr
      have : ((sqrtDigits 53 x : ℚ) + 1) * sqrtQuantum 53 x * (1 / 2 ^ 53) ≥ 0 := by positivity
      linarith
    · refine le_trans ?_ h
      apply pow_le_pow_left₀
      · apply mul_nonneg hr; norm_num
      · have e2 : ((sqrtDigits 53 x : ℚ) + 1) * sqrtQuantum 53 x * (1 - 1 / 2 ^ 53) =
            ((sqrtDigits 53 x : ℚ) + 1 / 2) * sqrtQuantum 53 x + sqrtQuantum 53 x / 2 -
              ((sqrtDigits 53 x : ℚ) + 1) * sqrtQuantum 53 x * (1 / 2 ^ 53) := by ring
        have : (sqrtDigits 53 x : ℚ) * sqrtQuantum 53 x * (1 / 2 ^ 53) ≤
            ((sqrtDigits 53 x : ℚ) + 1) * sqrtQuantum 53 x * (1 / 2 ^ 53) := by
          apply mul_le_mul_of_nonneg_right _ (by positivity)
          apply mul_le_mul_of_nonneg_right _ hq.le
          linarith
        rw [e2]
        linarith

end SqrtRound

/-! ## Error propagation (pure inequalities) -/

section ErrorAlgebra

/-- Componentwise bounds on a vector turn into a bound on its length. -/
theorem vec_bound (x y p q A b R : ℚ) (hA : 0 ≤ A) (hb : 0 ≤ b) (hR : 0 ≤ R)
    (hxy : x ^ 2 + y ^ 2 ≤ R ^ 2) (hp : |p| ≤ A * |x| + b) (hq : |q| ≤ A * |y| + b) :
    p ^ 2 + q ^ 2 ≤ (A * R + 2 * b) ^ 2 := by
  have hx : |x| ≤ R :=
    abs_le.mpr (abs_le_of_sq_le_sq' (by nlinarith [sq_nonneg y]) hR)
  have hy : |y| ≤ R :=
    abs_le.mpr (abs_le_of_sq_le_sq' (by nlinarith [sq_nonneg x]) hR)
  have hax := abs_nonneg x
  have hay := abs_nonneg y
  have hp2 : p ^ 2 ≤ (A * |x| + b) ^ 2 := by
    rw [← sq_abs p]
    exact pow_le_pow_left₀ (abs_nonneg p) hp 2
  have hq2 : q ^ 2 ≤ (A * |y| + b) ^ 2 := by
    rw [← sq_abs q]
    exact pow_le_pow_left₀ (abs_nonneg q) hq 2
  have hxx : |x| ^ 2 = x ^ 2 := sq_abs x
  have hyy : |y| ^ 2 = y ^ 2 := sq_abs y
  have h1 : A * b * |x| ≤ A * b * R := mul_le_mul_of_nonneg_left hx (mul_nonneg hA hb)
  have h2 : A * b * |y| ≤ A * b * R := mul_le_mul_of_nonneg_left hy (mul_nonneg hA hb)
  have h3 : A ^ 2 * (x ^ 2 + y ^ 2) ≤ A ^ 2 * R ^ 2 :=
    mul_le_mul_of_nonneg_left hxy (sq_nonneg A)
  have hb2 : 0 ≤ b ^ 2 := sq_nonneg b
  calc p ^ 2 + q ^ 2 ≤ (A * |x| + b) ^ 2 + (A * |y| + b) ^ 2 := add_le_add hp2 hq2
    _ = A ^ 2 * (|x| ^ 2 + |y| ^ 2) + 2 * (A * b * |x|) + 2 * (A * b * |y|) + 2 * b ^ 2 := by
      ring
    _ = A ^ 2 * (x ^ 2 + y ^ 2) + 2 * (A * b * |x|) + 2 * (A * b * |y|) + 2 * b ^ 2 := by
      rw [hxx, hyy]
    _ ≤ A ^ 2 * R ^ 2 + 2 * (A * b * R) + 2 * (A * b * R) + 2 * b ^ 2 := by linarith
    _ ≤ (A * R + 2 * b) ^ 2 := by nlinarith

/-- From the rounding errors of the two squares, their sum, the square root and its
conversion to binary32: the length of `(dx, dy)` against the computed `dist`. -/
theorem sq_sum_bound (dx dy sx sy s r dist u a v w δ : ℚ)
    (hu0 : 0 ≤ u) (hu1 : u < 1) (ha : 0 ≤ a) (hv : 0 ≤ v) (hw : 0 ≤ w) (hδ : 0 ≤ δ)
    (hr : 0 ≤ r) (hdist : 0 ≤ dist)
    (H1 : dx ^ 2 * (1 - u) ≤ sx + a) (H2 : dy ^ 2 * (1 - u) ≤ sy + a)
    (H3 : (sx + sy) * (1 - u) ≤ s + a) (H4 : s ≤ (r * (1 + v)) ^ 2)
    (H5 : r * (1 - u) ≤ dist + a)
    (hc1 : 1 + v ≤ (1 - u) ^ 2 * (1 + w)) (hc2 : 3 * a ≤ (1 - u) ^ 2 * δ ^ 2) :
    dx ^ 2 + dy ^ 2 ≤ ((dist + a) * (1 + w) + δ) ^ 2 := by
  have h1u : 0 < 1 - u := by linarith
  have hD : 0 ≤ dx ^ 2 + dy ^ 2 := by positivity
  have hA : (dx ^ 2 + dy ^ 2) * (1 - u) ≤ sx + sy + 2 * a := by linarith
  have hB : (dx ^ 2 + dy ^ 2) * (1 - u) ^ 2 ≤ s + 3 * a := by
    have : (dx ^ 2 + dy ^ 2) * (1 - u) * (1 - u) ≤ (sx + sy + 2 * a) * (1 - u) :=
      mul_le_mul_of_nonneg_right hA h1u.le
    have h2 : 2 * a * (1 - u) ≤ 2 * a := by nlinarith
    calc (dx ^ 2 + dy ^ 2) * (1 - u) ^ 2 = (dx ^ 2 + dy ^ 2) * (1 - u) * (1 - u) := by ring
      _ ≤ (sx + sy + 2 * a) * (1 - u) := this
      _ = (sx + sy) * (1 - u) + 2 * a * (1 - u) := by ring
      _ ≤ s + 3 * a := by linarith
  have hE : s * (1 - u) ^ 2 ≤ ((dist + a) * (1 + v)) ^ 2 := by
    have h3 : s * (1 - u) ^ 2 ≤ (r * (1 + v)) ^ 2 * (1 - u) ^ 2 :=
      mul_le_mul_of_nonneg_right H4 (sq_nonneg _)
    have h4 : (r * (1 - u) * (1 + v)) ^ 2 ≤ ((dist + a) * (1 + v)) ^ 2 := by
      apply pow_le_pow_left₀
      · exact mul_nonneg (mul_nonneg hr h1u.le) (by linarith)
      · exact mul_le_mul_of_nonneg_right H5 (by linarith)
    calc s * (1 - u) ^ 2 ≤ (r * (1 + v)) ^ 2 * (1 - u) ^ 2 := h3
      _ = (r * (1 - u) * (1 + v)) ^ 2 := by ring
      _ ≤ _ := h4
  have hC : (dx ^ 2 + dy ^ 2) * (1 - u) ^ 4 ≤
      ((dist + a) * (1 + v)) ^ 2 + 3 * a * (1 - u) ^ 2 := by
    have : (dx ^ 2 + dy ^ 2) * (1 - u) ^ 2 * (1 - u) ^ 2 ≤ (s + 3 * a) * (1 - u) ^ 2 :=
      mul_le_mul_of_nonneg_right hB (sq_nonneg _)
    calc (dx ^ 2 + dy ^ 2) * (1 - u) ^ 4 = (dx ^ 2 + dy ^ 2) * (1 - u) ^ 2 * (1 - u) ^ 2 := by
          ring
      _ ≤ (s + 3 * a) * (1 - u) ^ 2 := this
      _ = s * (1 - u) ^ 2 + 3 * a * (1 - u) ^ 2 := by ring
      _ ≤ _ := by linarith
  have hY : 0 ≤ dist + a := by linarith
  have hF : ((dist + a) * (1 + v)) ^ 2 + 3 * a * (1 - u) ^ 2 ≤
      (1 - u) ^ 4 * ((dist + a) * (1 + w) + δ) ^ 2 := by
    have g1 : (dist + a) * (1 + v) ≤ (dist + a) * ((1 - u) ^ 2 * (1 + w)) :=
      mul_le_mul_of_nonneg_left hc1 hY
    have g2 : ((dist + a) * (1 + v)) ^ 2 ≤ ((dist + a) * ((1 - u) ^ 2 * (1 + w))) ^ 2 :=
      pow_le_pow_left₀ (mul_nonneg hY (by linarith)) g1 2
    have g3 : 3 * a * (1 - u) ^ 2 ≤ (1 - u) ^ 2 * δ ^ 2 * (1 - u) ^ 2 :=
      mul_le_mul_of_nonneg_right hc2 (sq_nonneg _)
    have g4 : 0 ≤ (1 - u) ^ 4 * (2 * ((dist + a) * (1 + w)) * δ) := by positivity
    calc ((dist + a) * (1 + v)) ^ 2 + 3 * a * (1 - u) ^ 2
        ≤ ((dist + a) * ((1 - u) ^ 2 * (1 + w))) ^ 2 + (1 - u) ^ 2 * δ ^ 2 * (1 - u) ^ 2 :=
          add_le_add g2 g3
      _ ≤ ((dist + a) * ((1 - u) ^ 2 * (1 + w))) ^ 2 + (1 - u) ^ 2 * δ ^ 2 * (1 - u) ^ 2 +
            (1 - u) ^ 4 * (2 * ((dist + a) * (1 + w)) * δ) := by linarith
      _ = (1 - u) ^ 4 * ((dist + a) * (1 + w) + δ) ^ 2 := by ring
  have h4 : 0 < (1 - u) ^ 4 := by positivity
  have hfin : (dx ^ 2 + dy ^ 2) * (1 - u) ^ 4 ≤
      ((dist + a) * (1 + w) + δ) ^ 2 * (1 - u) ^ 4 := by
    calc _ ≤ _ := hC
      _ ≤ _ := hF
      _ = _ := by ring
  exact le_of_mul_le_mul_right hfin h4

end ErrorAlgebra

/-! ## Evaluating the rounding functions at given arguments -/

section Evaluation

theorem intLog_eq (x : ℚ) (L : ℤ) (h1 : (2 : ℚ) ^ L ≤ x) (h2 : x < 2 ^ (L + 1)) :
    Int.log 2 x = L := by
  have hx : 0 < x := lt_of_lt_of_le (zpow_pos (by norm_num) L) h1
  have a1 : L ≤ Int.log 2 x := by
    have := (Int.zpow_le_iff_le_log (b := 2) (by norm_num) hx (x := L)).mp (by simpa using h1)
    exact this
  have a2 : Int.log 2 x < L + 1 := by
    have := (Int.lt_zpow_iff_log_lt (b := 2) (by norm_num) hx (x := L + 1)).mp
      (by simpa using h2)
    exact this
  omega

/-- A binary32 rounding is settled by the binade of `x` and a candidate within half a
quantum. -/
theorem r32_eq (x : ℚ) (L z : ℤ) (hL : -126 ≤ L) (h1 : (2 : ℚ) ^ L ≤ |x|)
    (h2 : |x| < 2 ^ (L + 1)) (hz : |x - z * 2 ^ (L - 23)| < 2 ^ (L - 23) / 2) :
    r32 x = z * 2 ^ (L - 23) := by
  have hlog := intLog_eq |x| L h1 h2
  have he : ulpExp 24 (-149) x = L - 23 := by
    unfold ulpExp
    rw [hlog]
    push_cast
    omega
  have hq : (0 : ℚ) < 2 ^ (L - 23) := zpow_pos (by norm_num) _
  unfold r32 roundTo
  rw [he]
  have : roundNE (x / 2 ^ (L - 23)) = z := by
    apply roundNE_eq_of_near
    have e : x / 2 ^ (L - 23) - z = (x - z * 2 ^ (L - 23)) / 2 ^ (L - 23) := by
      field_simp
      ring
    rw [e, abs_div, abs_of_pos hq, div_lt_iff₀ hq]
    linarith
  rw [this]

/-- A binary32 value with a 24-digit significand in the normal range is its own rounding. -/
theorem r32_exact (x : ℚ) (L z : ℤ) (hL : -126 ≤ L) (h1 : (2 : ℚ) ^ L ≤ |x|)
    (h2 : |x| < 2 ^ (L + 1)) (hz : x = z * 2 ^ (L - 23)) : r32 x = x := by
  have hq : (0 : ℚ) < 2 ^ (L - 23) := zpow_pos (by norm_num) _
  have := r32_eq x L z hL h1 h2 (by rw [← hz]; simpa using hq)
  rw [this, ← hz]

/-- A rounded square root is settled by the binade of `x` and a candidate whose
neighbouring midpoints bracket `√x`. -/
theorem sqrtRound_eq (x : ℚ) (e : ℤ) (z : ℕ) (h1 : (2 : ℚ) ^ (2 * e) ≤ x)
    (h2 : x < 2 ^ (2 * e + 2))
    (h3 : (((z : ℚ) - 1 / 2) * 2 ^ (e - 52)) ^ 2 < x)
    (h4 : x < (((z : ℚ) + 1 / 2) * 2 ^ (e - 52)) ^ 2) (hz : 1 ≤ z) :
    sqrtRound 53 x = z * 2 ^ (e - 52) := by
  have hx : 0 < x := lt_of_lt_of_le (zpow_pos (by norm_num) _) h1
  have hlog : Int.log 2 x / 2 = e := by
    have a1 : 2 * e ≤ Int.log 2 x :=
      (Int.zpow_le_iff_le_log (b := 2) (by norm_num) hx (x := 2 * e)).mp (by simpa using h1)
    have a2 : Int.log 2 x < 2 * e + 2 :=
      (Int.lt_zpow_iff_log_lt (b := 2) (by norm_num) hx (x := 2 * e + 2)).mp
        (by simpa using h2)
    omega
  have hQ : sqrtQuantum 53 x = 2 ^ (e - 52) := by
    unfold sqrtQuantum
    rw [hlog]
    norm_num
  have hq : (0 : ℚ) < 2 ^ (e - 52) := zpow_pos (by norm_num) _
  obtain ⟨b1, b2⟩ := sqrtDigits_bracket 53 x hx.le
  rw [hQ] at b1 b2
  have hn : (0 : ℚ) ≤ sqrtDigits 53 x := Nat.cast_nonneg _
  have hz1 : (1 : ℚ) ≤ z := by exact_mod_cast hz
  -- comparison of two multiples of the quantum through their squares
  have cmp : ∀ a b : ℚ, 0 ≤ b → (a * 2 ^ (e - 52)) ^ 2 < (b * 2 ^ (e - 52)) ^ 2 → a < b := by
    intro a b hb h
    have h5 : a * 2 ^ (e - 52) < b * 2 ^ (e - 52) :=
      lt_of_pow_lt_pow_left₀ 2 (mul_nonneg hb hq.le) h
    exact lt_of_mul_lt_mul_right h5 hq.le
  rcases sqrtRound_cases 53 x with ⟨r, c⟩ | ⟨r, c⟩
  · rw [hQ] at r c
    have g1 : (z : ℚ) - 1 / 2 < (sqrtDigits 53 x : ℚ) + 1 / 2 :=
      cmp _ _ (by linarith) (lt_of_lt_of_le h3 c)
    have g2 : (sqrtDigits 53 x : ℚ) < (z : ℚ) + 1 / 2 :=
      cmp _ _ (by linarith) (lt_of_le_of_lt b1 h4)
    have g3 : (z : ℚ) < (sqrtDigits 53 x : ℚ) + 1 := by linarith
    have g4 : (sqrtDigits 53 x : ℚ) < (z : ℚ) + 1 := by linarith
    have g5 : z < sqrtDigits 53 x + 1 := by exact_mod_cast g3
    have g6 : sqrtDigits 53 x < z + 1 := by exact_mod_cast g4
    have : sqrtDigits 53 x = z := by omega
    rw [r, this]
  · rw [hQ] at r c
    have g1 : (sqrtDigits 53 x : ℚ) + 1 / 2 < (z : ℚ) + 1 / 2 :=
      cmp _ _ (by linarith) (lt_of_le_of_lt c h4)
    have g2 : (z : ℚ) - 1 / 2 < (sqrtDigits 53 x : ℚ) + 1 :=
      cmp _ _ (by linarith) (lt_trans h3 b2)
    have g3 : (sqrtDigits 53 x : ℚ) < (z : ℚ) := by linarith
    have g4 : (z : ℚ) < (sqrtDigits 53 x : ℚ) + 1 + 1 := by linarith
    have g5 : sqrtDigits 53 x < z := by exact_mod_cast g3
    have g6 : z < sqrtDigits 53 x + 1 + 1 := by exact_mod_cast g4
    have : (z : ℚ) = (sqrtDigits 53 x : ℚ) + 1 := by
      have : z = sqrtDigits 53 x + 1 := by omega
      rw [this]; push_cast; ring
    rw [r, this]

theorem r32_pos_ge (x : ℚ) (h : 0 < r32 x) : (1 : ℚ) / 2 ^ 149 ≤ r32 x := by
  have hQ := ulp_pos 24 (-149) x
  unfold r32 roundTo at h ⊢
  have h1 : (0 : ℚ) < ((roundNE (x / 2 ^ ulpExp 24 (-149) x) : ℤ) : ℚ) := by
    by_contra hn
    have : ((roundNE (x / 2 ^ ulpExp 24 (-149) x) : ℤ) : ℚ) * 2 ^ ulpExp 24 (-149) x ≤ 0 :=
      mul_nonpos_of_nonpos_of_nonneg (not_lt.mp hn) hQ.le
    linarith
  have h2 : (1 : ℤ) ≤ roundNE (x / 2 ^ ulpExp 24 (-149) x) := by
    have : (0 : ℤ) < roundNE (x / 2 ^ ulpExp 24 (-149) x) := by exact_mod_cast h1
    omega
  have h3 : (1 : ℚ) ≤ ((roundNE (x / 2 ^ ulpExp 24 (-149) x) : ℤ) : ℚ) := by exact_mod_cast h2
  have h4 : (2 : ℚ) ^ (-149 : ℤ) ≤ 2 ^ ulpExp 24 (-149) x :=
    zpow_le_zpow_right₀ (by norm_num) (le_max_right _ _)
  have h5 : (2 : ℚ) ^ (-149 : ℤ) = 1 / 2 ^ 149 := by
    rw [zpow_neg]; norm_num
  calc (1 : ℚ) / 2 ^ 149 = 1 * 2 ^ (-149 : ℤ) := by rw [h5]; ring
    _ ≤ ((roundNE (x / 2 ^ ulpExp 24 (-149) x) : ℤ) : ℚ) * 2 ^ ulpExp 24 (-149) x :=
        mul_le_mul h3 h4 (zpow_pos (by norm_num) _).le (by linarith)

theorem r32_64 : r32 64 = 64 :=
  r32_exact 64 6 8388608 (by norm_num) (by norm_num) (by norm_num) (by norm_num)

end Evaluation

/-! ## `updatePupil` on finite arguments -/

section PupilEval

/-- Lines 407-413 on finite arguments whose intermediate results stay finite: the branch
taken and the value of each branch. -/
theorem updatePupil_eval (cx cy tx ty pr dx dy s dist m : ℚ)
    (hdx : dx = r32 (tx - cx)) (bdx : |tx - cx| ≤ 2 ^ 100)
    (hdy : dy = r32 (ty - cy)) (bdy : |ty - cy| ≤ 2 ^ 100)
    (bxx : |dx * dx| ≤ 2 ^ 100) (byy : |dy * dy| ≤ 2 ^ 100)
    (hs : s = r32 (r32 (dx * dx) + r32 (dy * dy)))
    (bs : |r32 (dx * dx) + r32 (dy * dy)| ≤ 2 ^ 100) (hs0 : 0 ≤ s)
    (hdist : dist = r32 (sqrtRound 53 s)) (bdist : |sqrtRound 53 s| ≤ 2 ^ 100)
    (hm : m = r32 (64 - pr)) (bm : |64 - pr| ≤ 2 ^ 100) :
    updatePupil (IEEE.fin cx) (IEEE.fin cy) (IEEE.fin tx) (IEEE.fin ty) (IEEE.fin pr) =
      if m < dist then
        (IEEE.add32 (IEEE.fin cx)
            (IEEE.mul32 (IEEE.div32 (IEEE.fin dx) (IEEE.fin dist)) (IEEE.fin m)),
          IEEE.add32 (IEEE.fin cy)
            (IEEE.mul32 (IEEE.div32 (IEEE.fin dy) (IEEE.fin dist)) (IEEE.fin m)))
      else (IEEE.fin tx, IEEE.fin ty) := by
  have e64 : fl32 ((eyeRadius : ℤ) : ℚ) = IEEE.fin 64 := by
    have : ((eyeRadius : ℤ) : ℚ) = 64 := by norm_num [eyeRadius]
    rw [this, fl32_fin 64 (by norm_num), r32_64]
  have hsx : ¬ s < 0 := not_lt.mpr hs0
  simp only [updatePupil, IEEE.sub32, IEEE.mul32, IEEE.add32, IEEE.toFloat64, IEEE.sqrt64,
    IEEE.toFloat32, IEEE.gt, e64, fl32_fin _ bdx, fl32_fin _ bdy, ← hdx, ← hdy,
    fl32_fin _ bxx, fl32_fin _ byy, fl32_fin _ bs, ← hs, hsx, if_false, fl32_fin _ bdist,
    ← hdist, fl32_fin _ bm, ← hm, decide_eq_true_eq]

/-- One coordinate of the clamped branch (lines 414-415): `c + d/dist*m`. -/
theorem clamp_eval (c d dist m q t p : ℚ) (hdist : dist ≠ 0)
    (hq : q = r32 (d / dist)) (bq : |d / dist| ≤ 2 ^ 100)
    (ht : t = r32 (q * m)) (bt : |q * m| ≤ 2 ^ 100)
    (hp : p = r32 (c + t)) (bp : |c + t| ≤ 2 ^ 100) :
    IEEE.add32 (IEEE.fin c) (IEEE.mul32 (IEEE.div32 (IEEE.fin d) (IEEE.fin dist)) (IEEE.fin m)) =
      IEEE.fin p := by
  simp only [IEEE.div32, hdist, if_false, fl32_fin _ bq, ← hq, IEEE.mul32, fl32_fin _ bt, ← ht,
    IEEE.add32, fl32_fin _ bp, ← hp]

end PupilEval

/-! ## `updatePupil` at two inputs -/

section PupilValues

theorem roundNE_tie (y : ℚ) (z : ℤ) (h : y - z = 1 / 2 ∨ z - y = 1 / 2) (he : z % 2 = 0) :
    roundNE y = z := by
  rcases h with h | h
  · have hf : ⌊y⌋ = z := by
      rw [Int.floor_eq_iff]
      constructor <;> linarith
    unfold roundNE
    rw [hf]
    have a1 : ¬ (y - z < 1 / 2) := by linarith
    have a2 : ¬ ((1 : ℚ) / 2 < y - z) := by linarith
    simp only [a1, a2, he, if_false, if_true]
  · have hf : ⌊y⌋ = z - 1 := by
      rw [Int.floor_eq_iff]
      push_cast
      constructor <;> linarith
    unfold roundNE
    rw [hf]
    have a1 : ¬ (y - ((z - 1 : ℤ) : ℚ) < 1 / 2) := by push_cast; linarith
    have a2 : ¬ ((1 : ℚ) / 2 < y - ((z - 1 : ℤ) : ℚ)) := by push_cast; linarith
    have a3 : ¬ ((z - 1) % 2 = 0) := by omega
    simp only [a1, a2, a3, if_false]
    omega

/-- A binary32 rounding at a tie: the candidate with the even significand. -/
theorem r32_eq_tie (x : ℚ) (L z : ℤ) (hL : -126 ≤ L) (h1 : (2 : ℚ) ^ L ≤ |x|)
    (h2 : |x| < 2 ^ (L + 1))
    (hz : x - z * 2 ^ (L - 23) = 2 ^ (L - 23) / 2 ∨ z * 2 ^ (L - 23) - x = 2 ^ (L - 23) / 2)
    (he : z % 2 = 0) : r32 x = z * 2 ^ (L - 23) := by
  have hlog := intLog_eq |x| L h1 h2
  have hu : ulpExp 24 (-149) x = L - 23 := by
    unfold ulpExp
    rw [hlog]
    push_cast
    omega
  have hq : (0 : ℚ) < 2 ^ (L - 23) := zpow_pos (by norm_num) _
  unfold r32 roundTo
  rw [hu]
  have : roundNE (x / 2 ^ (L - 23)) = z := by
    apply roundNE_tie _ _ _ he
    rcases hz with h | h
    · left
      have : x = z * 2 ^ (L - 23) + 2 ^ (L - 23) / 2 := by linarith
      rw [this]
      field_simp
      ring
    · right
      have : x = z * 2 ^ (L - 23) - 2 ^ (L - 23) / 2 := by linarith
      rw [this]
      field_simp
      ring
  rw [this]

theorem r32_val (x v : ℚ) (L z : ℤ) (hL : -126 ≤ L) (h1 : (2 : ℚ) ^ L ≤ x)
    (h2 : x < 2 ^ (L + 1)) (hz1 : x - z * 2 ^ (L - 23) < 2 ^ (L - 23) / 2)
    (hz2 : z * 2 ^ (L - 23) - x < 2 ^ (L - 23) / 2)
    (hv : v = z * 2 ^ (L - 23)) : v = r32 x := by
  have hx : 0 ≤ x := le_trans (zpow_pos (by norm_num) L).le h1
  rw [hv, r32_eq x L z hL (by rwa [abs_of_nonneg hx]) (by rwa [abs_of_nonneg hx])
    (abs_lt.mpr ⟨by linarith, hz1⟩)]

theorem r32_val_tie (x v : ℚ) (L z : ℤ) (hL : -126 ≤ L) (h1 : (2 : ℚ) ^ L ≤ x)
    (h2 : x < 2 ^ (L + 1))
    (hz : x - z * 2 ^ (L - 23) = 2 ^ (L - 23) / 2 ∨ z * 2 ^ (L - 23) - x = 2 ^ (L - 23) / 2)
    (he : z % 2 = 0) (hv : v = z * 2 ^ (L - 23)) : v = r32 x := by
  have hx : 0 ≤ x := le_trans (zpow_pos (by norm_num) L).le h1
  rw [hv, r32_eq_tie x L z hL (by rwa [abs_of_nonneg hx]) (by rwa [abs_of_nonneg hx]) hz he]

theorem sqrt_val (x v : ℚ) (e : ℤ) (z : ℕ) (h1 : (2 : ℚ) ^ (2 * e) ≤ x)
    (h2 : x < 2 ^ (2 * e + 2))
    (h3 : (((z : ℚ) - 1 / 2) * 2 ^ (e - 52)) ^ 2 < x)
    (h4 : x < (((z : ℚ) + 1 / 2) * 2 ^ (e - 52)) ^ 2) (hz : 1 ≤ z)
    (hv : v = z * 2 ^ (e - 52)) : v = sqrtRound 53 x := by
  rw [hv, sqrtRound_eq x e z h1 h2 h3 h4 hz]

/-- The right eye of the normal mode (centre `(288, 160)`, pupil radius 24) and the target
`(816, 401)`: the value `updatePupil` returns. -/
theorem updatePupil_far_target :
    updatePupil (IEEE.fin 288) (IEEE.fin 160) (IEEE.fin 816) (IEEE.fin 401) (IEEE.fin 24) =
      (IEEE.fin (166087 / 512), IEEE.fin (5787131 / 32768)) := by
  have hxx : (278784 : ℚ) = r32 (528 * 528) := r32_val _ _ 18 8921088 (by norm_num) (by norm_num) (by norm_num) (by norm_num) (by norm_num) (by norm_num)
  have hyy : (58081 : ℚ) = r32 (241 * 241) := r32_val _ _ 15 14868736 (by norm_num) (by norm_num) (by norm_num) (by norm_num) (by norm_num) (by norm_num)
  have hs : (336865 : ℚ) = r32 (r32 (528 * 528) + r32 (241 * 241)) := by
    rw [← hxx, ← hyy]
    exact r32_val _ _ 18 10779680 (by norm_num) (by norm_num) (by norm_num) (by norm_num) (by norm_num) (by norm_num)
  have bs : |r32 ((528 : ℚ) * 528) + r32 (241 * 241)| ≤ 2 ^ 100 := by
    rw [← hxx, ← hyy, abs_le]; constructor <;> norm_num
  have hr : ((319078672205023 / 549755813888) : ℚ) = sqrtRound 53 336865 := sqrt_val _ _ 9 5105258755280368 (by norm_num) (by norm_num) (by norm_num) (by norm_num) (by norm_num) (by norm_num)
  have hdist : ((9509285 / 16384) : ℚ) = r32 (sqrtRound 53 336865) := by
    rw [← hr]
    exact r32_val _ _ 9 9509285 (by norm_num) (by norm_num) (by norm_num) (by norm_num) (by norm_num) (by norm_num)
  have bdist : |sqrtRound 53 (336865 : ℚ)| ≤ 2 ^ 100 := by
    rw [← hr, abs_le]; constructor <;> norm_num
  have hev := updatePupil_eval 288 160 816 401 24 528 241 336865 (9509285 / 16384) 40
    (r32_val _ _ 9 8650752 (by norm_num) (by norm_num) (by norm_num) (by norm_num) (by norm_num) (by norm_num)) (by rw [abs_le]; constructor <;> norm_num)
    (r32_val _ _ 7 15794176 (by norm_num) (by norm_num) (by norm_num) (by norm_num) (by norm_num) (by norm_num)) (by rw [abs_le]; constructor <;> norm_num)
    (by rw [abs_le]; constructor <;> norm_num) (by rw [abs_le]; constructor <;> norm_num) hs bs (by norm_num) hdist bdist
    (r32_val _ _ 5 10485760 (by norm_num) (by norm_num) (by norm_num) (by norm_num) (by norm_num) (by norm_num)) (by rw [abs_le]; constructor <;> norm_num)
  rw [if_pos (by norm_num : (40 : ℚ) < (9509285 / 16384))] at hev
  have hX := clamp_eval 288 528 (9509285 / 16384) 40 (3815627 / 4194304) (2384767 / 65536) (166087 / 512) (by norm_num)
    (r32_val _ _ (-1) 15262508 (by norm_num) (by norm_num) (by norm_num) (by norm_num) (by norm_num) (by norm_num)) (by rw [abs_le]; constructor <;> norm_num)
    (r32_val_tie _ _ 5 9539068 (by norm_num) (by norm_num) (by norm_num) (by norm_num) (by norm_num) (by norm_num)) (by rw [abs_le]; constructor <;> norm_num)
    (r32_val_tie _ _ 8 10629568 (by norm_num) (by norm_num) (by norm_num) (by norm_num) (by norm_num) (by norm_num)) (by rw [abs_le]; constructor <;> norm_num)
  have hY := clamp_eval 160 241 (9509285 / 16384) 40 (13932819 / 33554432) (2177003 / 131072) (5787131 / 32768) (by norm_num)
    (r32_val _ _ (-2) 13932819 (by norm_num) (by norm_num) (by norm_num) (by norm_num) (by norm_num) (by norm_num)) (by rw [abs_le]; constructor <;> norm_num)
    (r32_val _ _ 4 8708012 (by norm_num) (by norm_num) (by norm_num) (by norm_num) (by norm_num) (by norm_num)) (by rw [abs_le]; constructor <;> norm_num)
    (r32_val_tie _ _ 7 11574262 (by norm_num) (by norm_num) (by norm_num) (by norm_num) (by norm_num) (by norm_num)) (by rw [abs_le]; constructor <;> norm_num)
  rw [hX, hY] at hev
  exact hev

/-- Centre `(7, -5)`, pupil radius 57 and a target just inside the circle of radius 7: the
value `updatePupil` returns. -/
theorem updatePupil_near_boundary :
    updatePupil (IEEE.fin 7) (IEEE.fin (-5)) (IEEE.fin (1840771 / 262144))
        (IEEE.fin (8388463 / 4194304)) (IEEE.fin 57) =
      (IEEE.fin (1840771 / 262144), IEEE.fin (4194231 / 2097152)) := by
  have hxx : ((4151521 / 8589934592) : ℚ) = r32 ((5763 / 262144) * (5763 / 262144)) := r32_val_tie _ _ (-12) 16606084 (by norm_num) (by norm_num) (by norm_num) (by norm_num) (by norm_num) (by norm_num)
  have hyy : ((6422465 / 131072) : ℚ) = r32 ((1834999 / 262144) * (1834999 / 262144)) := r32_val _ _ 5 12844930 (by norm_num) (by norm_num) (by norm_num) (by norm_num) (by norm_num) (by norm_num)
  have hs : ((12845057 / 262144) : ℚ) = r32 (r32 ((5763 / 262144) * (5763 / 262144)) + r32 ((1834999 / 262144) * (1834999 / 262144))) := by
    rw [← hxx, ← hyy]
    exact r32_val _ _ 5 12845057 (by norm_num) (by norm_num) (by norm_num) (by norm_num) (by norm_num) (by norm_num)
  have bs : |r32 (((5763 / 262144) : ℚ) * (5763 / 262144)) + r32 ((1834999 / 262144) * (1834999 / 262144))| ≤ 2 ^ 100 := by
    rw [← hxx, ← hyy, abs_le]; constructor <;> norm_num
  have hr : ((1970324913670435 / 281474976710656) : ℚ) = sqrtRound 53 (12845057 / 262144) := sqrt_val _ _ 2 7881299654681740 (by norm_num) (by norm_num) (by norm_num) (by norm_num) (by norm_num) (by norm_num)
  have hdist : ((14680065 / 2097152) : ℚ) = r32 (sqrtRound 53 (12845057 / 262144)) := by
    rw [← hr]
    exact r32_val _ _ 2 14680065 (by norm_num) (by norm_num) (by norm_num) (by norm_num) (by norm_num) (by norm_num)
  have bdist : |sqrtRound 53 ((12845057 / 262144) : ℚ)| ≤ 2 ^ 100 := by
    rw [← hr, abs_le]; constructor <;> norm_num
  have hev := updatePupil_eval 7 (-5) (1840771 / 262144) (8388463 / 4194304) 57 (5763 / 262144) (1834999 / 262144) (12845057 / 262144) (14680065 / 2097152) 7
    (r32_val _ _ (-6) 11802624 (by norm_num) (by norm_num) (by norm_num) (by norm_num) (by norm_num) (by norm_num)) (by rw [abs_le]; constructor <;> norm_num)
    (r32_val_tie _ _ 2 14679992 (by norm_num) (by norm_num) (by norm_num) (by norm_num) (by norm_num) (by norm_num)) (by rw [abs_le]; constructor <;> norm_num)
    (by rw [abs_le]; constructor <;> norm_num) (by rw [abs_le]; constructor <;> norm_num) hs bs (by norm_num) hdist bdist
    (r32_val _ _ 2 14680064 (by norm_num) (by norm_num) (by norm_num) (by norm_num) (by norm_num) (by norm_num)) (by rw [abs_le]; constructor <;> norm_num)
  rw [if_pos (by norm_num : (7 : ℚ) < (14680065 / 2097152))] at hev
  have hX := clamp_eval 7 (5763 / 262144) (14680065 / 2097152) 7 (1686089 / 536870912) (11802623 / 536870912) (1840771 / 262144) (by norm_num)
    (r32_val _ _ (-9) 13488712 (by norm_num) (by norm_num) (by norm_num) (by norm_num) (by norm_num) (by norm_num)) (by rw [abs_le]; constructor <;> norm_num)
    (r32_val _ _ (-6) 11802623 (by norm_num) (by norm_num) (by norm_num) (by norm_num) (by norm_num) (by norm_num)) (by rw [abs_le]; constructor <;> norm_num)
    (r32_val _ _ 2 14726168 (by norm_num) (by norm_num) (by norm_num) (by norm_num) (by norm_num) (by norm_num)) (by rw [abs_le]; constructor <;> norm_num)
  have hY := clamp_eval (-5) (1834999 / 262144) (14680065 / 2097152) 7 (16777133 / 16777216) (14679991 / 2097152) (4194231 / 2097152) (by norm_num)
    (r32_val _ _ (-1) 16777133 (by norm_num) (by norm_num) (by norm_num) (by norm_num) (by norm_num) (by norm_num)) (by rw [abs_le]; constructor <;> norm_num)
    (r32_val _ _ 2 14679991 (by norm_num) (by norm_num) (by norm_num) (by norm_num) (by norm_num) (by norm_num)) (by rw [abs_le]; constructor <;> norm_num)
    (r32_val _ _ 0 16776924 (by norm_num) (by norm_num) (by norm_num) (by norm_num) (by norm_num) (by norm_num)) (by rw [abs_le]; constructor <;> norm_num)
  rw [hX, hY] at hev
  exact hev

end PupilValues

/-! ## Error analysis of `updatePupil` -/

section PupilBound

theorem r32_lower (x : ℚ) (hx : 0 ≤ x) : x * (1 - 1 / 2 ^ 24) ≤ r32 x + 1 / 2 ^ 150 := by
  have h := r32_error x
  rw [abs_of_nonneg hx, abs_le] at h
  linarith [h.1]

theorem r32_upper (x : ℚ) (hx : 0 ≤ x) : r32 x ≤ x * (1 + 1 / 2 ^ 24) + 1 / 2 ^ 150 := by
  have h := r32_error x
  rw [abs_of_nonneg hx, abs_le] at h
  linarith [h.2]

/-- The argument of a rounding against its result: `|x| ≤ (1 + 2u)|r32 x| + 2a`. -/
theorem abs_le_r32 (x : ℚ) : |x| ≤ (1 + 2 / 2 ^ 24) * |r32 x| + 2 / 2 ^ 150 := by
  have h := r32_error x
  have h2 : |x| ≤ |r32 x - x| + |r32 x| := by
    have := abs_sub (r32 x) (r32 x - x)
    have e : r32 x - (r32 x - x) = x := by ring
    rw [e] at this
    linarith [abs_nonneg (r32 x), abs_nonneg (r32 x - x)]
  have h3 : |x| * (1 - 1 / 2 ^ 24) ≤ |r32 x| + 1 / 2 ^ 150 := by linarith
  have h4 : 0 ≤ |x| := abs_nonneg x
  have h5 : 0 ≤ |r32 x| := abs_nonneg _
  have h6 : |x| * (1 - 1 / 2 ^ 24) * (1 + 2 / 2 ^ 24) ≤
      (|r32 x| + 1 / 2 ^ 150) * (1 + 2 / 2 ^ 24) :=
    mul_le_mul_of_nonneg_right h3 (by norm_num)
  have h7 : |x| ≤ |x| * (1 - 1 / 2 ^ 24) * (1 + 2 / 2 ^ 24) := by
    have : |x| * (1 - 1 / 2 ^ 24) * (1 + 2 / 2 ^ 24) =
        |x| + |x| * ((1 - 1 / 2 ^ 24) * (1 + 2 / 2 ^ 24) - 1) := by ring
    rw [this]
    have : 0 ≤ |x| * ((1 - 1 / 2 ^ 24) * (1 + 2 / 2 ^ 24) - 1) :=
      mul_nonneg h4 (by norm_num)
    linarith
  have h8 : (|r32 x| + 1 / 2 ^ 150) * (1 + 2 / 2 ^ 24) ≤
      (1 + 2 / 2 ^ 24) * |r32 x| + 2 / 2 ^ 150 := by
    have : (|r32 x| + 1 / 2 ^ 150) * (1 + 2 / 2 ^ 24) =
        (1 + 2 / 2 ^ 24) * |r32 x| + 1 / 2 ^ 150 * (1 + 2 / 2 ^ 24) := by ring
    rw [this]
    have : (1 : ℚ) / 2 ^ 150 * (1 + 2 / 2 ^ 24) ≤ 2 / 2 ^ 150 := by norm_num
    linarith
  linarith

theorem sq_le_of_abs_le (x b : ℚ) (h : |x| ≤ b) : x * x ≤ b * b := by
  have h0 := abs_nonneg x
  calc x * x = |x| * |x| := (abs_mul_abs_self x).symm
    _ ≤ b * b := mul_le_mul h h h0 (le_trans h0 h)

/-- The intermediate values of `updatePupil` on coordinates of magnitude at most 1024: the
branch structure, and the computed `dist` against the length of `(dx, dy)` from both sides. -/
theorem pupil_chain (cx cy tx ty pr : ℚ)
    (hcx : |cx| ≤ 1024) (hcy : |cy| ≤ 1024) (htx : |tx| ≤ 1024) (hty : |ty| ≤ 1024)
    (hpr0 : 0 < pr) (hpr : pr < 64) :
    ∃ dx dy dist m : ℚ,
      dx = r32 (tx - cx) ∧ dy = r32 (ty - cy) ∧ m = r32 (64 - pr) ∧ 0 ≤ dist ∧
      (dist = 0 ∨ 1 / 2 ^ 149 ≤ dist) ∧ |dx| ≤ 2049 ∧ |dy| ≤ 2049 ∧
      updatePupil (IEEE.fin cx) (IEEE.fin cy) (IEEE.fin tx) (IEEE.fin ty) (IEEE.fin pr) =
        (if m < dist then
          (IEEE.add32 (IEEE.fin cx)
              (IEEE.mul32 (IEEE.div32 (IEEE.fin dx) (IEEE.fin dist)) (IEEE.fin m)),
            IEEE.add32 (IEEE.fin cy)
              (IEEE.mul32 (IEEE.div32 (IEEE.fin dy) (IEEE.fin dist)) (IEEE.fin m)))
        else (IEEE.fin tx, IEEE.fin ty)) ∧
      dx ^ 2 + dy ^ 2 ≤ ((dist + 1 / 2 ^ 150) * (1 + 3 / 2 ^ 24) + 1 / 2 ^ 74) ^ 2 ∧
      (∀ B : ℚ, 0 ≤ B → (dx ^ 2 + dy ^ 2) * (1 + 1 / 2 ^ 24) ^ 2 + 4 / 2 ^ 150 ≤ B ^ 2 →
        dist * (1 - 1 / 2 ^ 53) ≤ B * (1 + 1 / 2 ^ 24) + 1 / 2 ^ 150) ∧
      (dx = 0 → dy = 0 → dist = 0) := by
  obtain ⟨dx, hdx⟩ : ∃ dx, dx = r32 (tx - cx) := ⟨_, rfl⟩
  obtain ⟨dy, hdy⟩ : ∃ dy, dy = r32 (ty - cy) := ⟨_, rfl⟩
  obtain ⟨sx, hsx⟩ : ∃ sx, sx = r32 (dx * dx) := ⟨_, rfl⟩
  obtain ⟨sy, hsy⟩ : ∃ sy, sy = r32 (dy * dy) := ⟨_, rfl⟩
  obtain ⟨s, hs⟩ : ∃ s, s = r32 (sx + sy) := ⟨_, rfl⟩
  obtain ⟨r, hr⟩ : ∃ r, r = sqrtRound 53 s := ⟨_, rfl⟩
  obtain ⟨dist, hdist⟩ : ∃ dist, dist = r32 r := ⟨_, rfl⟩
  obtain ⟨m, hm⟩ : ∃ m, m = r32 (64 - pr) := ⟨_, rfl⟩
  rw [abs_le] at hcx hcy htx hty
  have bex : |tx - cx| ≤ 2048 := by rw [abs_le]; constructor <;> linarith
  have bey : |ty - cy| ≤ 2048 := by rw [abs_le]; constructor <;> linarith
  have bdx : |dx| ≤ 2049 := by
    have := r32_abs_le (tx - cx)
    rw [← hdx] at this
    have h2 : |tx - cx| * (1 + 1 / 2 ^ 24) ≤ 2048 * (1 + 1 / 2 ^ 24) :=
      mul_le_mul_of_nonneg_right bex (by norm_num)
    have h3 : (2048 : ℚ) * (1 + 1 / 2 ^ 24) + 1 / 2 ^ 150 ≤ 2049 := by norm_num
    linarith
  have bdy : |dy| ≤ 2049 := by
    have := r32_abs_le (ty - cy)
    rw [← hdy] at this
    have h2 : |ty - cy| * (1 + 1 / 2 ^ 24) ≤ 2048 * (1 + 1 / 2 ^ 24) :=
      mul_le_mul_of_nonneg_right bey (by norm_num)
    have h3 : (2048 : ℚ) * (1 + 1 / 2 ^ 24) + 1 / 2 ^ 150 ≤ 2049 := by norm_num
    linarith
  have xx0 : 0 ≤ dx * dx := mul_self_nonneg dx
  have yy0 : 0 ≤ dy * dy := mul_self_nonneg dy
  have xxb : dx * dx ≤ 2049 * 2049 := sq_le_of_abs_le dx 2049 bdx
  have yyb : dy * dy ≤ 2049 * 2049 := sq_le_of_abs_le dy 2049 bdy
  have sx0 : 0 ≤ sx := hsx ▸ r32_nonneg _ xx0
  have sy0 : 0 ≤ sy := hsy ▸ r32_nonneg _ yy0
  have sxu : sx ≤ dx * dx * (1 + 1 / 2 ^ 24) + 1 / 2 ^ 150 := hsx ▸ r32_upper _ xx0
  have syu : sy ≤ dy * dy * (1 + 1 / 2 ^ 24) + 1 / 2 ^ 150 := hsy ▸ r32_upper _ yy0
  have sxl : dx * dx * (1 - 1 / 2 ^ 24) ≤ sx + 1 / 2 ^ 150 := hsx ▸ r32_lower _ xx0
  have syl : dy * dy * (1 - 1 / 2 ^ 24) ≤ sy + 1 / 2 ^ 150 := hsy ▸ r32_lower _ yy0
  have sxb : sx ≤ 2 ^ 23 := by
    have h2 : dx * dx * (1 + 1 / 2 ^ 24) ≤ 2049 * 2049 * (1 + 1 / 2 ^ 24) :=
      mul_le_mul_of_nonneg_right xxb (by norm_num)
    have h3 : (2049 : ℚ) * 2049 * (1 + 1 / 2 ^ 24) + 1 / 2 ^ 150 ≤ 2 ^ 23 := by norm_num
    linarith
  have syb : sy ≤ 2 ^ 23 := by
    have h2 : dy * dy * (1 + 1 / 2 ^ 24) ≤ 2049 * 2049 * (1 + 1 / 2 ^ 24) :=
      mul_le_mul_of_nonneg_right yyb (by norm_num)
    have h3 : (2049 : ℚ) * 2049 * (1 + 1 / 2 ^ 24) + 1 / 2 ^ 150 ≤ 2 ^ 23 := by norm_num
    linarith
  have ss0 : 0 ≤ sx + sy := add_nonneg sx0 sy0
  have s0 : 0 ≤ s := hs ▸ r32_nonneg _ ss0
  have su : s ≤ (sx + sy) * (1 + 1 / 2 ^ 24) + 1 / 2 ^ 150 := hs ▸ r32_upper _ ss0
  have sl : (sx + sy) * (1 - 1 / 2 ^ 24) ≤ s + 1 / 2 ^ 150 := hs ▸ r32_lower _ ss0
  have sb : s ≤ 2 ^ 25 := by
    have h2 : (sx + sy) * (1 + 1 / 2 ^ 24) ≤ (2 ^ 23 + 2 ^ 23) * (1 + 1 / 2 ^ 24) :=
      mul_le_mul_of_nonneg_right (add_le_add sxb syb) (by norm_num)
    have h3 : ((2 : ℚ) ^ 23 + 2 ^ 23) * (1 + 1 / 2 ^ 24) + 1 / 2 ^ 150 ≤ 2 ^ 25 := by norm_num
    linarith
  obtain ⟨r0, rl, ru⟩ := sqrtRound_bounds s s0
  rw [← hr] at r0 rl ru
  have rb : r ≤ 2 ^ 14 := by
    have h1 : (r * (1 - 1 / 2 ^ 53)) ^ 2 ≤ (2 ^ 13) ^ 2 := by
      have : ((2 : ℚ) ^ 13) ^ 2 = 2 ^ 26 := by norm_num
      rw [this]
      have : (2 : ℚ) ^ 25 ≤ 2 ^ 26 := by norm_num
      linarith
    have h2 := (abs_le_of_sq_le_sq' h1 (by norm_num)).2
    have h3 : r * (1 / 2) ≤ r * (1 - 1 / 2 ^ 53) :=
      mul_le_mul_of_nonneg_left (by norm_num) r0
    have h4 : ((2 : ℚ) ^ 13) * 2 = 2 ^ 14 := by norm_num
    linarith
  have d0 : 0 ≤ dist := hdist ▸ r32_nonneg _ r0
  have dl : r * (1 - 1 / 2 ^ 24) ≤ dist + 1 / 2 ^ 150 := hdist ▸ r32_lower _ r0
  have du : dist ≤ r * (1 + 1 / 2 ^ 24) + 1 / 2 ^ 150 := hdist ▸ r32_upper _ r0
  have dpos : dist = 0 ∨ 1 / 2 ^ 149 ≤ dist := by
    rcases eq_or_lt_of_le d0 with h | h
    · exact Or.inl h.symm
    · right
      rw [hdist] at h ⊢
      exact r32_pos_ge r h
  refine ⟨dx, dy, dist, m, hdx, hdy, hm, d0, dpos, bdx, bdy, ?_, ?_, ?_, ?_⟩
  · have b1 : |tx - cx| ≤ 2 ^ 100 := le_trans bex (by norm_num)
    have b2 : |ty - cy| ≤ 2 ^ 100 := le_trans bey (by norm_num)
    have b3 : |dx * dx| ≤ 2 ^ 100 := by
      rw [abs_of_nonneg xx0]; exact le_trans xxb (by norm_num)
    have b4 : |dy * dy| ≤ 2 ^ 100 := by
      rw [abs_of_nonneg yy0]; exact le_trans yyb (by norm_num)
    have b5 : |r32 (dx * dx) + r32 (dy * dy)| ≤ 2 ^ 100 := by
      rw [← hsx, ← hsy, abs_of_nonneg ss0]
      have : (2 : ℚ) ^ 23 + 2 ^ 23 ≤ 2 ^ 100 := by norm_num
      linarith
    have b6 : |sqrtRound 53 s| ≤ 2 ^ 100 := by
      rw [← hr, abs_of_nonneg r0]; exact le_trans rb (by norm_num)
    have b7 : |64 - pr| ≤ 2 ^ 100 := by
      rw [abs_le]; constructor <;> norm_num <;> linarith
    exact updatePupil_eval cx cy tx ty pr dx dy s dist m hdx b1 hdy b2 b3 b4
      (by rw [hs, hsx, hsy]) b5 s0 (by rw [hdist, hr]) b6 hm b7
  · have e1 : dx ^ 2 = dx * dx := sq dx
    have e2 : dy ^ 2 = dy * dy := sq dy
    exact sq_sum_bound dx dy sx sy s r dist (1 / 2 ^ 24) (1 / 2 ^ 150) (1 / 2 ^ 53)
      (3 / 2 ^ 24) (1 / 2 ^ 74) (by norm_num) (by norm_num) (by norm_num) (by norm_num)
      (by norm_num) (by norm_num) r0 d0 (by rw [e1]; exact sxl) (by rw [e2]; exact syl) sl rl dl
      (by norm_num) (by norm_num)
  · intro B hB hD
    have e1 : dx ^ 2 = dx * dx := sq dx
    have e2 : dy ^ 2 = dy * dy := sq dy
    rw [e1, e2] at hD
    have k1 : dist * (1 - 1 / 2 ^ 53) ≤ r * (1 - 1 / 2 ^ 53) * (1 + 1 / 2 ^ 24) + 1 / 2 ^ 150 := by
      have h1 : dist * (1 - 1 / 2 ^ 53) ≤ (r * (1 + 1 / 2 ^ 24) + 1 / 2 ^ 150) * (1 - 1 / 2 ^ 53) :=
        mul_le_mul_of_nonneg_right du (by norm_num)
      have h2 : (r * (1 + 1 / 2 ^ 24) + 1 / 2 ^ 150) * (1 - 1 / 2 ^ 53) =
          r * (1 - 1 / 2 ^ 53) * (1 + 1 / 2 ^ 24) + 1 / 2 ^ 150 * (1 - 1 / 2 ^ 53) := by ring
      have h3 : (1 : ℚ) / 2 ^ 150 * (1 - 1 / 2 ^ 53) ≤ 1 / 2 ^ 150 := by norm_num
      linarith
    have k2 : s ≤ (dx * dx + dy * dy) * (1 + 1 / 2 ^ 24) ^ 2 + 4 / 2 ^ 150 := by
      have h1 : (sx + sy) * (1 + 1 / 2 ^ 24) ≤
          ((dx * dx + dy * dy) * (1 + 1 / 2 ^ 24) + 2 / 2 ^ 150) * (1 + 1 / 2 ^ 24) :=
        mul_le_mul_of_nonneg_right (by linarith) (by norm_num)
      have h2 : ((dx * dx + dy * dy) * (1 + 1 / 2 ^ 24) + 2 / 2 ^ 150) * (1 + 1 / 2 ^ 24) =
          (dx * dx + dy * dy) * (1 + 1 / 2 ^ 24) ^ 2 + 2 / 2 ^ 150 * (1 + 1 / 2 ^ 24) := by ring
      have h3 : (2 : ℚ) / 2 ^ 150 * (1 + 1 / 2 ^ 24) + 1 / 2 ^ 150 ≤ 4 / 2 ^ 150 := by norm_num
      linarith
    have k3 : (r * (1 - 1 / 2 ^ 53)) ^ 2 ≤ B ^ 2 := le_trans ru (le_trans k2 hD)
    have k4 : r * (1 - 1 / 2 ^ 53) ≤ B := (abs_le_of_sq_le_sq' k3 hB).2
    have k5 : r * (1 - 1 / 2 ^ 53) * (1 + 1 / 2 ^ 24) ≤ B * (1 + 1 / 2 ^ 24) :=
      mul_le_mul_of_nonneg_right k4 (by norm_num)
    linarith
  · intro hx hy
    have e1 : sx = 0 := by rw [hsx, hx]; simpa using r32_zero
    have e2 : sy = 0 := by rw [hsy, hy]; simpa using r32_zero
    have e3 : s = 0 := by rw [hs, e1, e2]; simpa using r32_zero
    have e4 : r = 0 := by rw [hr, e3]; exact sqrtRound_zero
    rw [hdist, e4]; exact r32_zero

end PupilBound

section PupilClaim

/-- A target within `64 - pr - 2^-12` of the centre is not clamped: `dist ≤ maxDist`. -/
theorem pupil_inside (ex ey dx dy dist m M0 : ℚ)
    (hdx : |dx| ≤ |ex| * (1 + 1 / 2 ^ 24) + 1 / 2 ^ 150)
    (hdy : |dy| ≤ |ey| * (1 + 1 / 2 ^ 24) + 1 / 2 ^ 150)
    (hup : ∀ B : ℚ, 0 ≤ B → (dx ^ 2 + dy ^ 2) * (1 + 1 / 2 ^ 24) ^ 2 + 4 / 2 ^ 150 ≤ B ^ 2 →
      dist * (1 - 1 / 2 ^ 53) ≤ B * (1 + 1 / 2 ^ 24) + 1 / 2 ^ 150)
    (hm : M0 * (1 - 1 / 2 ^ 24) ≤ m + 1 / 2 ^ 150) (hM : M0 < 64)
    (hτ : 1 / 2 ^ 12 ≤ M0) (hin : ex ^ 2 + ey ^ 2 ≤ (M0 - 1 / 2 ^ 12) ^ 2) : dist ≤ m := by
  have hL : 0 ≤ M0 - 1 / 2 ^ 12 := by linarith
  have h1 := vec_bound ex ey dx dy (1 + 1 / 2 ^ 24) (1 / 2 ^ 150) (M0 - 1 / 2 ^ 12)
    (by norm_num) (by norm_num) hL hin (by linarith) (by linarith)
  have hR2 : 0 ≤ (1 + 1 / 2 ^ 24) * (M0 - 1 / 2 ^ 12) + 2 * (1 / 2 ^ 150) := by positivity
  obtain ⟨R2, hR2e⟩ : ∃ R2, R2 = (1 + 1 / 2 ^ 24) * (M0 - 1 / 2 ^ 12) + 2 * (1 / 2 ^ 150) :=
    ⟨_, rfl⟩
  rw [← hR2e] at h1 hR2
  have hB0 : 0 ≤ R2 * (1 + 1 / 2 ^ 24) + 1 / 2 ^ 74 := by positivity
  have h2 : (dx ^ 2 + dy ^ 2) * (1 + 1 / 2 ^ 24) ^ 2 + 4 / 2 ^ 150 ≤
      (R2 * (1 + 1 / 2 ^ 24) + 1 / 2 ^ 74) ^ 2 := by
    have a1 : (dx ^ 2 + dy ^ 2) * (1 + 1 / 2 ^ 24) ^ 2 ≤ R2 ^ 2 * (1 + 1 / 2 ^ 24) ^ 2 :=
      mul_le_mul_of_nonneg_right h1 (by positivity)
    have a2 : (R2 * (1 + 1 / 2 ^ 24) + 1 / 2 ^ 74) ^ 2 =
        R2 ^ 2 * (1 + 1 / 2 ^ 24) ^ 2 + 2 * (R2 * (1 + 1 / 2 ^ 24)) * (1 / 2 ^ 74) +
          (1 / 2 ^ 74) ^ 2 := by ring
    have a3 : 0 ≤ 2 * (R2 * (1 + 1 / 2 ^ 24)) * (1 / 2 ^ 74) := by positivity
    have a4 : (4 : ℚ) / 2 ^ 150 ≤ (1 / 2 ^ 74) ^ 2 := by norm_num
    linarith
  have h3 := hup _ hB0 h2
  have h4 : (R2 * (1 + 1 / 2 ^ 24) + 1 / 2 ^ 74) * (1 + 1 / 2 ^ 24) + 1 / 2 ^ 150 ≤
      m * (1 - 1 / 2 ^ 53) := by
    rw [hR2e]
    have a1 : (M0 * (1 - 1 / 2 ^ 24) - 1 / 2 ^ 150) * (1 - 1 / 2 ^ 53) ≤ m * (1 - 1 / 2 ^ 53) :=
      mul_le_mul_of_nonneg_right (by linarith) (by norm_num)
    linarith
  have h5 : dist * (1 - 1 / 2 ^ 53) ≤ m * (1 - 1 / 2 ^ 53) := le_trans h3 h4
  exact le_of_mul_le_mul_right h5 (by norm_num)

/-- A target that is not clamped lies within `64 - pr + 2^-12` of the centre. -/
theorem pupil_unclamped (ex ey dx dy dist m M0 : ℚ)
    (hex : |ex| ≤ (1 + 2 / 2 ^ 24) * |dx| + 2 / 2 ^ 150)
    (hey : |ey| ≤ (1 + 2 / 2 ^ 24) * |dy| + 2 / 2 ^ 150)
    (hD : dx ^ 2 + dy ^ 2 ≤ ((dist + 1 / 2 ^ 150) * (1 + 3 / 2 ^ 24) + 1 / 2 ^ 74) ^ 2)
    (hd0 : 0 ≤ dist) (hle : dist ≤ m) (hm : m ≤ M0 * (1 + 1 / 2 ^ 24) + 1 / 2 ^ 150)
    (hM : M0 < 64) :
    ex ^ 2 + ey ^ 2 ≤ (M0 + 1 / 2 ^ 12) ^ 2 := by
  have hR : 0 ≤ (dist + 1 / 2 ^ 150) * (1 + 3 / 2 ^ 24) + 1 / 2 ^ 74 := by positivity
  have h1 := vec_bound dx dy ex ey (1 + 2 / 2 ^ 24) (2 / 2 ^ 150) _ (by norm_num) (by norm_num)
    hR hD hex hey
  have h2 : (1 + 2 / 2 ^ 24) * ((dist + 1 / 2 ^ 150) * (1 + 3 / 2 ^ 24) + 1 / 2 ^ 74) +
      2 * (2 / 2 ^ 150) ≤ M0 + 1 / 2 ^ 12 := by
    have a1 : (1 + 2 / 2 ^ 24) * ((dist + 1 / 2 ^ 150) * (1 + 3 / 2 ^ 24) + 1 / 2 ^ 74) ≤
        (1 + 2 / 2 ^ 24) * ((M0 * (1 + 1 / 2 ^ 24) + 1 / 2 ^ 150 + 1 / 2 ^ 150) *
          (1 + 3 / 2 ^ 24) + 1 / 2 ^ 74) := by
      apply mul_le_mul_of_nonneg_left _ (by norm_num)
      have : (dist + 1 / 2 ^ 150) * (1 + 3 / 2 ^ 24) ≤
          (M0 * (1 + 1 / 2 ^ 24) + 1 / 2 ^ 150 + 1 / 2 ^ 150) * (1 + 3 / 2 ^ 24) :=
        mul_le_mul_of_nonneg_right (by linarith) (by norm_num)
      linarith
    linarith
  have h3 : 0 ≤ (1 + 2 / 2 ^ 24) * ((dist + 1 / 2 ^ 150) * (1 + 3 / 2 ^ 24) + 1 / 2 ^ 74) +
      2 * (2 / 2 ^ 150) := by positivity
  exact le_trans h1 (pow_le_pow_left₀ h3 h2 2)

/-- One coordinate of the clamped branch: the value is finite, with the size of the offset
`t = d/dist*maxDist` and the rounding error of the final addition. -/
theorem clamp_coord (c d dist m : ℚ) (hc : |c| ≤ 1024) (hd : |d| ≤ 2049)
    (hdr : |d| ≤ 2 ^ 76 * dist) (hpos : 0 < dist) (hm0 : 0 ≤ m) (hlt : m < dist)
    (hm65 : m ≤ 65) :
    ∃ t p : ℚ,
      IEEE.add32 (IEEE.fin c)
          (IEEE.mul32 (IEEE.div32 (IEEE.fin d) (IEEE.fin dist)) (IEEE.fin m)) = IEEE.fin p ∧
      |t| ≤ m / dist * (1 + 1 / 2 ^ 24) ^ 2 * |d| + 67 / 2 ^ 150 ∧
      |p - c| ≤ |t| + (1024 + |t|) / 2 ^ 24 + 1 / 2 ^ 150 := by
  obtain ⟨q, hq⟩ : ∃ q, q = r32 (d / dist) := ⟨_, rfl⟩
  obtain ⟨t, ht⟩ : ∃ t, t = r32 (q * m) := ⟨_, rfl⟩
  obtain ⟨p, hp⟩ : ∃ p, p = r32 (c + t) := ⟨_, rfl⟩
  have hd0 : 0 ≤ |d| := abs_nonneg d
  have e1 : |d / dist| = |d| / dist := by rw [abs_div, abs_of_pos hpos]
  have b1 : |d| / dist ≤ 2 ^ 76 := by
    rw [div_le_iff₀ hpos]; exact hdr
  have r0 : 0 ≤ |d| / dist := div_nonneg hd0 hpos.le
  have bq : |d / dist| ≤ 2 ^ 100 := by
    rw [e1]; exact le_trans b1 (by norm_num)
  have hqa : |q| ≤ |d| / dist * (1 + 1 / 2 ^ 24) + 1 / 2 ^ 150 := by
    have := r32_abs_le (d / dist)
    rwa [← hq, e1] at this
  have e2 : |q * m| = |q| * m := by rw [abs_mul, abs_of_nonneg hm0]
  have hqm : |q| * m ≤ (|d| / dist * (1 + 1 / 2 ^ 24) + 1 / 2 ^ 150) * m :=
    mul_le_mul_of_nonneg_right hqa hm0
  have k0 : 0 ≤ |d| / dist * (1 + 1 / 2 ^ 24) + 1 / 2 ^ 150 := by positivity
  have bt : |q * m| ≤ 2 ^ 100 := by
    rw [e2]
    have a1 : (|d| / dist * (1 + 1 / 2 ^ 24) + 1 / 2 ^ 150) * m ≤
        (2 ^ 76 * (1 + 1 / 2 ^ 24) + 1 / 2 ^ 150) * 65 := by
      apply mul_le_mul _ hm65 hm0 (by norm_num)
      have : |d| / dist * (1 + 1 / 2 ^ 24) ≤ 2 ^ 76 * (1 + 1 / 2 ^ 24) :=
        mul_le_mul_of_nonneg_right b1 (by norm_num)
      linarith
    have a2 : ((2 : ℚ) ^ 76 * (1 + 1 / 2 ^ 24) + 1 / 2 ^ 150) * 65 ≤ 2 ^ 100 := by norm_num
    linarith
  have e3 : |d| / dist * m = m / dist * |d| := by ring
  have hta : |t| ≤ m / dist * (1 + 1 / 2 ^ 24) ^ 2 * |d| + 67 / 2 ^ 150 := by
    have a1 := r32_abs_le (q * m)
    rw [← ht, e2] at a1
    have a2 : |q| * m * (1 + 1 / 2 ^ 24) ≤
        (|d| / dist * (1 + 1 / 2 ^ 24) + 1 / 2 ^ 150) * m * (1 + 1 / 2 ^ 24) :=
      mul_le_mul_of_nonneg_right hqm (by norm_num)
    have a3 : (|d| / dist * (1 + 1 / 2 ^ 24) + 1 / 2 ^ 150) * m * (1 + 1 / 2 ^ 24) =
        |d| / dist * m * (1 + 1 / 2 ^ 24) ^ 2 + 1 / 2 ^ 150 * (1 + 1 / 2 ^ 24) * m := by ring
    have a4 : (1 : ℚ) / 2 ^ 150 * (1 + 1 / 2 ^ 24) * m ≤ 1 / 2 ^ 150 * (1 + 1 / 2 ^ 24) * 65 :=
      mul_le_mul_of_nonneg_left hm65 (by norm_num)
    have a5 : (1 : ℚ) / 2 ^ 150 * (1 + 1 / 2 ^ 24) * 65 + 1 / 2 ^ 150 ≤ 67 / 2 ^ 150 := by
      norm_num
    have a6 : |d| / dist * m * (1 + 1 / 2 ^ 24) ^ 2 = m / dist * (1 + 1 / 2 ^ 24) ^ 2 * |d| := by
      rw [e3]; ring
    linarith
  have hmd : m / dist ≤ 1 := (div_le_one hpos).mpr hlt.le
  have hmd0 : 0 ≤ m / dist := div_nonneg hm0 hpos.le
  have ht2 : |t| ≤ 2050 := by
    have a1 : m / dist * (1 + 1 / 2 ^ 24) ^ 2 * |d| ≤ 1 * (1 + 1 / 2 ^ 24) ^ 2 * 2049 := by
      apply mul_le_mul _ hd hd0 (by norm_num)
      exact mul_le_mul_of_nonneg_right hmd (by positivity)
    have a2 : (1 : ℚ) * (1 + 1 / 2 ^ 24) ^ 2 * 2049 + 67 / 2 ^ 150 ≤ 2050 := by norm_num
    linarith
  have hct : |c + t| ≤ 1024 + |t| := le_trans (abs_add c t) (by linarith)
  have bp : |c + t| ≤ 2 ^ 100 := by
    have : (1024 : ℚ) + 2050 ≤ 2 ^ 100 := by norm_num
    linarith
  refine ⟨t, p, clamp_eval c d dist m q t p hpos.ne' hq bq ht bt hp bp, hta, ?_⟩
  have a1 := r32_error (c + t)
  rw [← hp] at a1
  have a2 : |p - c| ≤ |p - (c + t)| + |t| := by
    have := abs_add (p - (c + t)) t
    have e : p - (c + t) + t = p - c := by ring
    rwa [e] at this
  have a3 : |c + t| / 2 ^ 24 ≤ (1024 + |t|) / 2 ^ 24 :=
    div_le_div_of_nonneg_right hct (by norm_num)
  linarith

theorem pupil_ratio (dist : ℚ) (hdist : 1 / 2 ^ 149 ≤ dist) :
    (dist + 1 / 2 ^ 150) * (1 + 3 / 2 ^ 24) + 1 / 2 ^ 74 ≤ 2 ^ 76 * dist := by
  have hpos : 0 < dist := lt_of_lt_of_le (by norm_num) hdist
  have a1 : (1 : ℚ) / 2 ^ 74 ≤ 2 ^ 75 * dist := by
    have : (2 : ℚ) ^ 75 * (1 / 2 ^ 149) ≤ 2 ^ 75 * dist :=
      mul_le_mul_of_nonneg_left hdist (by norm_num)
    have e : (2 : ℚ) ^ 75 * (1 / 2 ^ 149) = 1 / 2 ^ 74 := by norm_num
    linarith
  have a2 : (dist + 1 / 2 ^ 150) * (1 + 3 / 2 ^ 24) ≤ (dist + dist) * (1 + 3 / 2 ^ 24) := by
    apply mul_le_mul_of_nonneg_right _ (by norm_num)
    have : (1 : ℚ) / 2 ^ 150 ≤ 1 / 2 ^ 149 := by norm_num
    linarith
  have a3 : (dist + dist) * (1 + 3 / 2 ^ 24) ≤ 3 * dist := by
    have : (dist + dist) * (1 + 3 / 2 ^ 24) = dist * (2 * (1 + 3 / 2 ^ 24)) := by ring
    rw [this, mul_comm 3 dist]
    exact mul_le_mul_of_nonneg_left (by norm_num) hpos.le
  have a4 : 3 * dist + 2 ^ 75 * dist ≤ 2 ^ 76 * dist := by
    have : 3 * dist + 2 ^ 75 * dist = (3 + 2 ^ 75) * dist := by ring
    rw [this]
    exact mul_le_mul_of_nonneg_right (by norm_num) hpos.le
  linarith

/-- Length of the offset `d/dist*maxDist` in the clamped branch. -/
theorem pupil_offset (dist m : ℚ) (hpos : 0 < dist) (hlt : m < dist) :
    m / dist * (1 + 1 / 2 ^ 24) ^ 2 *
        ((dist + 1 / 2 ^ 150) * (1 + 3 / 2 ^ 24) + 1 / 2 ^ 74) + 2 * (67 / 2 ^ 150) ≤
      (1 + 1 / 2 ^ 24) ^ 2 * ((m + 1 / 2 ^ 150) * (1 + 3 / 2 ^ 24) + 1 / 2 ^ 74) +
        2 * (67 / 2 ^ 150) := by
  have hmd : m / dist ≤ 1 := (div_le_one hpos).mpr hlt.le
  have hmm : m / dist * dist = m := div_mul_cancel₀ m hpos.ne'
  have e : m / dist * (1 + 1 / 2 ^ 24) ^ 2 *
      ((dist + 1 / 2 ^ 150) * (1 + 3 / 2 ^ 24) + 1 / 2 ^ 74) =
      (1 + 1 / 2 ^ 24) ^ 2 * ((m / dist * dist + m / dist * (1 / 2 ^ 150)) * (1 + 3 / 2 ^ 24) +
        m / dist * (1 / 2 ^ 74)) := by ring
  rw [e, hmm]
  have a1 : m / dist * (1 / 2 ^ 150) ≤ 1 / 2 ^ 150 :=
    mul_le_of_le_one_left (by norm_num) hmd
  have a2 : m / dist * (1 / 2 ^ 74) ≤ 1 / 2 ^ 74 :=
    mul_le_of_le_one_left (by norm_num) hmd
  have a3 : (m + m / dist * (1 / 2 ^ 150)) * (1 + 3 / 2 ^ 24) + m / dist * (1 / 2 ^ 74) ≤
      (m + 1 / 2 ^ 150) * (1 + 3 / 2 ^ 24) + 1 / 2 ^ 74 := by
    have : (m + m / dist * (1 / 2 ^ 150)) * (1 + 3 / 2 ^ 24) ≤
        (m + 1 / 2 ^ 150) * (1 + 3 / 2 ^ 24) :=
      mul_le_mul_of_nonneg_right (by linarith) (by norm_num)
    linarith
  have a4 := mul_le_mul_of_nonneg_left a3 (by positivity : (0 : ℚ) ≤ (1 + 1 / 2 ^ 24) ^ 2)
  linarith

theorem pupil_offset_le (m M0 : ℚ) (hm : m ≤ M0 * (1 + 1 / 2 ^ 24) + 1 / 2 ^ 150)
    (hM : M0 < 64) :
    (1 + 1 / 2 ^ 24) ^ 2 * ((m + 1 / 2 ^ 150) * (1 + 3 / 2 ^ 24) + 1 / 2 ^ 74) +
        2 * (67 / 2 ^ 150) ≤ M0 + 400 / 2 ^ 24 := by
  have a1 : (m + 1 / 2 ^ 150) * (1 + 3 / 2 ^ 24) ≤
      (M0 * (1 + 1 / 2 ^ 24) + 1 / 2 ^ 150 + 1 / 2 ^ 150) * (1 + 3 / 2 ^ 24) :=
    mul_le_mul_of_nonneg_right (by linarith) (by norm_num)
  have a2 := mul_le_mul_of_nonneg_left (add_le_add_right a1 (1 / 2 ^ 74))
    (by positivity : (0 : ℚ) ≤ (1 + 1 / 2 ^ 24) ^ 2)
  linarith

theorem abs_le_of_sq_add_le (x y R : ℚ) (hR : 0 ≤ R) (h : x ^ 2 + y ^ 2 ≤ R ^ 2) : |x| ≤ R :=
  abs_le.mpr (abs_le_of_sq_le_sq' (by nlinarith [sq_nonneg y]) hR)

/-- The clamped branch: both coordinates are finite and the returned point lies within
`64 - pr + 2^-12` of the centre. -/
theorem pupil_clamped (cx cy dx dy dist m M0 : ℚ) (hcx : |cx| ≤ 1024) (hcy : |cy| ≤ 1024)
    (hdx : |dx| ≤ 2049) (hdy : |dy| ≤ 2049)
    (hD : dx ^ 2 + dy ^ 2 ≤ ((dist + 1 / 2 ^ 150) * (1 + 3 / 2 ^ 24) + 1 / 2 ^ 74) ^ 2)
    (hdist : 1 / 2 ^ 149 ≤ dist) (hm0 : 0 ≤ m) (hlt : m < dist)
    (hm : m ≤ M0 * (1 + 1 / 2 ^ 24) + 1 / 2 ^ 150) (hM : M0 < 64) :
    ∃ px py : ℚ,
      IEEE.add32 (IEEE.fin cx)
          (IEEE.mul32 (IEEE.div32 (IEEE.fin dx) (IEEE.fin dist)) (IEEE.fin m)) = IEEE.fin px ∧
      IEEE.add32 (IEEE.fin cy)
          (IEEE.mul32 (IEEE.div32 (IEEE.fin dy) (IEEE.fin dist)) (IEEE.fin m)) = IEEE.fin py ∧
      (px - cx) ^ 2 + (py - cy) ^ 2 ≤ (M0 + 1 / 2 ^ 12) ^ 2 := by
  have hpos : 0 < dist := lt_of_lt_of_le (by norm_num) hdist
  have hm65 : m ≤ 65 := by
    have : M0 * (1 + 1 / 2 ^ 24) ≤ 64 * (1 + 1 / 2 ^ 24) :=
      mul_le_mul_of_nonneg_right hM.le (by norm_num)
    have : (64 : ℚ) * (1 + 1 / 2 ^ 24) + 1 / 2 ^ 150 ≤ 65 := by norm_num
    linarith
  obtain ⟨R1, hR1⟩ : ∃ R1, R1 = (dist + 1 / 2 ^ 150) * (1 + 3 / 2 ^ 24) + 1 / 2 ^ 74 :=
    ⟨_, rfl⟩
  have hR76 := pupil_ratio dist hdist
  have hoff := pupil_offset dist m hpos hlt
  rw [← hR1] at hD hR76 hoff
  have hR : 0 ≤ R1 := by rw [hR1]; positivity
  have hxR : |dx| ≤ R1 := abs_le_of_sq_add_le dx dy R1 hR hD
  have hyR : |dy| ≤ R1 := abs_le_of_sq_add_le dy dx R1 hR (by rw [add_comm]; exact hD)
  obtain ⟨t, px, ex, htx, hpx⟩ :=
    clamp_coord cx dx dist m hcx hdx (le_trans hxR hR76) hpos hm0 hlt hm65
  obtain ⟨w, py, ey, htw, hpy⟩ :=
    clamp_coord cy dy dist m hcy hdy (le_trans hyR hR76) hpos hm0 hlt hm65
  refine ⟨px, py, ex, ey, ?_⟩
  have hmd0 : 0 ≤ m / dist := div_nonneg hm0 hpos.le
  obtain ⟨A, hA⟩ : ∃ A, A = m / dist * (1 + 1 / 2 ^ 24) ^ 2 := ⟨_, rfl⟩
  rw [← hA] at htx htw hoff
  have hA0 : 0 ≤ A := by rw [hA]; positivity
  have h1 := vec_bound dx dy t w A (67 / 2 ^ 150) R1 hA0 (by norm_num) hR hD htx htw
  obtain ⟨R4, hR4⟩ : ∃ R4, R4 = (1 + 1 / 2 ^ 24) ^ 2 *
      ((m + 1 / 2 ^ 150) * (1 + 3 / 2 ^ 24) + 1 / 2 ^ 74) + 2 * (67 / 2 ^ 150) := ⟨_, rfl⟩
  have hR4M := pupil_offset_le m M0 hm hM
  rw [← hR4] at hoff hR4M
  have h20 : 0 ≤ A * R1 + 2 * (67 / 2 ^ 150) := by positivity
  have hR40 : 0 ≤ R4 := le_trans h20 hoff
  have h3 : t ^ 2 + w ^ 2 ≤ R4 ^ 2 := le_trans h1 (pow_le_pow_left₀ h20 hoff 2)
  have htR : |t| ≤ R4 := abs_le_of_sq_add_le t w R4 hR40 h3
  have hwR : |w| ≤ R4 := abs_le_of_sq_add_le w t R4 hR40 (by rw [add_comm]; exact h3)
  have hR465 : R4 ≤ 65 := by
    have : (400 : ℚ) / 2 ^ 24 ≤ 1 := by norm_num
    linarith
  have hε : ∀ z : ℚ, |z| ≤ R4 → (1024 + |z|) / 2 ^ 24 + 1 / 2 ^ 150 ≤ 1090 / 2 ^ 24 := by
    intro z hz
    have : (1024 + |z|) / 2 ^ 24 ≤ (1024 + 65) / 2 ^ 24 :=
      div_le_div_of_nonneg_right (by linarith) (by norm_num)
    have : ((1024 : ℚ) + 65) / 2 ^ 24 + 1 / 2 ^ 150 ≤ 1090 / 2 ^ 24 := by norm_num
    linarith
  have h4 := vec_bound t w (px - cx) (py - cy) 1 (1090 / 2 ^ 24) R4 (by norm_num) (by norm_num)
    hR40 h3 (by linarith [hε t htR]) (by linarith [hε w hwR])
  have h5 : 1 * R4 + 2 * (1090 / 2 ^ 24) ≤ M0 + 1 / 2 ^ 12 := by
    have : (400 : ℚ) / 2 ^ 24 + 2 * (1090 / 2 ^ 24) ≤ 1 / 2 ^ 12 := by norm_num
    linarith
  exact le_trans h4 (pow_le_pow_left₀ (by linarith) h5 2)

end PupilClaim

end Xeyes
